import Mathlib

/-!
# Hospital bed allocation: the allocation engine of `script.js`

A shallow embedding of the three allocators of `HospitalAssignmentSystem`
(`greedyMatching`, `knapsackDP`, `branchAndBound`) together with the data they
read and write.

Modelling conventions.

* JavaScript objects that are shared by reference (the patients of
  `this.patients`, the hospitals of `this.hospitals`) are identified by their
  position in the owning list; a local array of references (`sortedPatients`,
  `availableHospitals`, a specialization group) is a list of positions.
* Numbers that are counts or identifiers are `Nat`: identifiers, bed numbers,
  `capacity`, `currentPatients`, `maxPatients`.  A negative capacity, on which
  `Array(capacity + 1)` would throw, is therefore not an input of the model.
* Coordinates, distances and costs live in an arbitrary linear ordered field `α`
  (the real numbers being the intended reading of the floating point values),
  and `Math.sqrt` is a parameter `sqrt : α → α` of every definition that
  measures a distance.  These values are computed without rounding error.
* The one place where the code turns a floating point value into an integer is
  `Math.round` in `calculateEfficiencyScore`, and there the rounding of the
  double arithmetic decides the result.  The operations of that method are
  therefore rounded: `Rounding.fl` is the rounding of an exact result to a
  double, and on the rationals it is `binary64`, round to nearest with ties to
  even in the format of IEEE 754 double precision.
* `Infinity` as the initial value of a running minimum is `none`; a stored
  quotient by zero (`NaN`) is `none` as well.
* A lookup that cannot fail on the data the code builds (`find` of a hospital
  named by a candidate edge, an index taken from a list of positions) returns
  the unchanged state in the branch that is never reached.
-/

namespace HospitalAssignmentSystem

/-- Urgency level of a patient: one of the strings `critical`, `urgent`, `stable`. -/
inductive Urgency where
  | critical
  | urgent
  | stable
  deriving DecidableEq, Repr

/-- The table `{ critical: 3, urgent: 2, stable: 1 }` used by every allocator. -/
def urgencyOrder : Urgency → Nat
  | .critical => 3
  | .urgent => 2
  | .stable => 1

/-- A point `{ x, y }` of the plane. -/
structure Location (α : Type) where
  x : α
  y : α
  deriving DecidableEq, Repr

/-- The fields of a doctor record that the allocators read or write. -/
structure Doctor where
  id : Nat
  hospitalId : Nat
  currentPatients : Nat
  maxPatients : Nat
  deriving DecidableEq, Repr

/-- A hospital record as built by `createHospital`.  The field `utilization` is
`none` when the stored float is not a finite number (the quotient by a zero
capacity). -/
structure Hospital (α : Type) where
  id : Nat
  capacity : Nat
  currentPatients : Nat
  specialization : String
  location : Location α
  doctors : List Doctor
  utilization : Option α
  occupiedBeds : List Nat
  availableBeds : List Nat
  deriving DecidableEq, Repr

/-- A patient record as built by `createPatient`; `none` is JavaScript `null`. -/
structure Patient (α : Type) where
  id : Nat
  requiredSpecialization : String
  urgency : Urgency
  location : Location α
  assignedHospital : Option Nat
  assignedDoctor : Option Nat
  bedNumber : Option Nat
  travelDistance : α
  deriving DecidableEq, Repr

/-- An assignment record pushed by `greedyMatching` and `knapsackDP`; the
knapsack records carry no bed and no doctor. -/
structure Assignment (α : Type) where
  patientId : Nat
  hospitalId : Nat
  distance : α
  bedNumber : Option Nat
  doctorId : Option Nat
  deriving DecidableEq, Repr

/-- A candidate edge of `branchAndBound`: `{ patientId, hospitalId, distance, urgency }`. -/
structure Edge (α : Type) where
  patientId : Nat
  hospitalId : Nat
  distance : α
  urgency : Urgency
  deriving DecidableEq, Repr

/-- The two collections the allocators mutate: `this.patients` and `this.hospitals`. -/
structure System (α : Type) where
  patients : List (Patient α)
  hospitals : List (Hospital α)
  deriving DecidableEq, Repr

/-- What an allocator leaves behind: the mutated collections and the list of
assignment records it returns. -/
structure Outcome (α : Type) (ρ : Type) where
  system : System α
  assignments : List ρ

section Engine

variable {α : Type} [LinearOrderedField α]

/-- Function `createHospital(id, name, capacity, specialization, location)`; the
name and the equipment list, which no allocator reads, are left out. -/
def createHospital (id capacity : Nat) (specialization : String) (location : Location α) :
    Hospital α :=
  { id := id
    capacity := capacity
    currentPatients := 0
    specialization := specialization
    location := location
    doctors := []
    utilization := some 0
    occupiedBeds := []
    availableBeds := (List.range capacity).map (fun i => i + 1) }

/-- Function `createPatient(id, name, ailment, requiredSpecialization, urgency,
location)`; the name, the ailment and the dates, which no allocator reads, are
left out. -/
def createPatient (id : Nat) (requiredSpecialization : String) (urgency : Urgency)
    (location : Location α) : Patient α :=
  { id := id
    requiredSpecialization := requiredSpecialization
    urgency := urgency
    location := location
    assignedHospital := none
    assignedDoctor := none
    bedNumber := none
    travelDistance := 0 }

/-- The quotient `a / b` of two JavaScript numbers, `none` when it is not finite. -/
def jsDiv (a b : α) : Option α :=
  if b = 0 then none else some (a / b)

/-- The expression `(h.currentPatients / h.capacity) * 100`. -/
def utilizationOf (currentPatients capacity : Nat) : Option α :=
  (jsDiv (currentPatients : α) (capacity : α)).map (fun q => q * 100)

/-- Function `calculateDistance(location1, location2)`. -/
def calculateDistance (sqrt : α → α) (location1 location2 : Location α) : α :=
  let dx := location1.x - location2.x
  let dy := location1.y - location2.y
  sqrt (dx * dx + dy * dy) * 10

/-- The comparator `urgencyOrder[b.urgency] - urgencyOrder[a.urgency]` read as
"a may stay before b": it is not positive. -/
def urgencyBefore (a b : Nat × Patient α) : Prop :=
  urgencyOrder b.2.urgency ≤ urgencyOrder a.2.urgency

instance urgencyBeforeDecidable : DecidableRel (urgencyBefore : Nat × Patient α → Nat × Patient α → Prop) :=
  fun a b => inferInstanceAs (Decidable (urgencyOrder b.2.urgency ≤ urgencyOrder a.2.urgency))

/-- The array `[...this.patients].sort(byUrgency)` as positions in `this.patients`.
`Array.prototype.sort` is stable, and so is insertion sort. -/
def sortedPatients (patients : List (Patient α)) : List Nat :=
  (patients.enum.insertionSort urgencyBefore).map Prod.fst

/-! ## Greedy matching -/

/-- The loop state of `greedyMatching`: the two shared collections, the local
array `availableHospitals` (positions in `hospitals`) and `assignments`. -/
structure GreedyState (α : Type) where
  patients : List (Patient α)
  hospitals : List (Hospital α)
  availableHospitals : List Nat
  assignments : List (Assignment α)

/-- The test `hospital.currentPatients < hospital.capacity &&
hospital.specialization === patient.requiredSpecialization`. -/
def eligible (hospital : Hospital α) (patient : Patient α) : Prop :=
  hospital.currentPatients < hospital.capacity ∧
    hospital.specialization = patient.requiredSpecialization

instance eligibleDecidable (hospital : Hospital α) (patient : Patient α) :
    Decidable (eligible hospital patient) :=
  inferInstanceAs (Decidable (_ ∧ _))

/-- The body of the scan `for (let i = 0; i < availableHospitals.length; i++)`.
The running best is `(bestDistance, bestHospital, bestIndex)`, with `none` for
the initial `(Infinity, null, -1)`; `entry` is `(i, availableHospitals[i])`. -/
def scanHospital (sqrt : α → α) (hospitals : List (Hospital α)) (patient : Patient α)
    (best : Option (α × Nat × Nat)) (entry : Nat × Nat) : Option (α × Nat × Nat) :=
  match hospitals[entry.2]? with
  | none => best
  | some hospital =>
    if eligible hospital patient then
      let distance := calculateDistance sqrt patient.location hospital.location
      match best with
      | none => some (distance, entry.2, entry.1)
      | some (bestDistance, _, _) =>
        if distance < bestDistance then some (distance, entry.2, entry.1) else best
    else best

/-- The whole scan of `availableHospitals` for one patient. -/
def findBestHospital (sqrt : α → α) (hospitals : List (Hospital α))
    (availableHospitals : List Nat) (patient : Patient α) : Option (α × Nat × Nat) :=
  availableHospitals.enum.foldl (scanHospital sqrt hospitals patient) none

/-- The block "Assign bed": `shift` the first free bed, if any, into
`patient.bedNumber` and `push` it on `occupiedBeds`. -/
def assignBed (patient : Patient α) (hospital : Hospital α) : Patient α × Hospital α :=
  match hospital.availableBeds with
  | [] => (patient, hospital)
  | bed :: rest =>
    ({ patient with bedNumber := some bed },
     { hospital with availableBeds := rest, occupiedBeds := hospital.occupiedBeds ++ [bed] })

/-- Increment `currentPatients` of the first doctor that passes
`d.currentPatients < d.maxPatients`. -/
def incrementFirstAvailable : List Doctor → List Doctor
  | [] => []
  | d :: ds =>
    if d.currentPatients < d.maxPatients then
      { d with currentPatients := d.currentPatients + 1 } :: ds
    else d :: incrementFirstAvailable ds

/-- The block "Assign doctor": the first element of
`bestHospital.doctors.filter(d => d.currentPatients < d.maxPatients)`. -/
def assignDoctor (patient : Patient α) (hospital : Hospital α) : Patient α × Hospital α :=
  match hospital.doctors.filter (fun d => decide (d.currentPatients < d.maxPatients)) with
  | [] => (patient, hospital)
  | assignedDoctor :: _ =>
    ({ patient with assignedDoctor := some assignedDoctor.id },
     { hospital with doctors := incrementFirstAvailable hospital.doctors })

/-- The body of `if (bestHospital) { ... }` for the patient at position `p`,
the hospital at position `h` and the scan result `(bestDistance, h, bestIndex)`. -/
def assignGreedy (st : GreedyState α) (p : Nat) (patient : Patient α) (bestDistance : α)
    (h bestIndex : Nat) (bestHospital : Hospital α) : GreedyState α :=
  let patient1 : Patient α :=
    { patient with assignedHospital := some bestHospital.id, travelDistance := bestDistance }
  let withBed := assignBed patient1 bestHospital
  let withDoctor := assignDoctor withBed.1 withBed.2
  let patient3 := withDoctor.1
  let hospital3 : Hospital α :=
    { withDoctor.2 with currentPatients := withDoctor.2.currentPatients + 1 }
  let hospital4 : Hospital α :=
    { hospital3 with utilization := utilizationOf hospital3.currentPatients hospital3.capacity }
  let record : Assignment α :=
    { patientId := patient3.id, hospitalId := hospital4.id, distance := bestDistance,
      bedNumber := patient3.bedNumber, doctorId := patient3.assignedDoctor }
  { patients := st.patients.set p patient3
    hospitals := st.hospitals.set h hospital4
    availableHospitals :=
      if hospital4.capacity ≤ hospital4.currentPatients then
        st.availableHospitals.eraseIdx bestIndex
      else st.availableHospitals
    assignments := st.assignments ++ [record] }

/-- The body of `for (const patient of sortedPatients)`; `p` is the position of
the patient in `this.patients`. -/
def greedyStep (sqrt : α → α) (st : GreedyState α) (p : Nat) : GreedyState α :=
  match st.patients[p]? with
  | none => st
  | some patient =>
    match findBestHospital sqrt st.hospitals st.availableHospitals patient with
    | none => st
    | some (bestDistance, h, bestIndex) =>
      match st.hospitals[h]? with
      | none => st
      | some bestHospital => assignGreedy st p patient bestDistance h bestIndex bestHospital

/-- The state in which the patient loop of `greedyMatching` starts. -/
def greedyInit (sys : System α) : GreedyState α :=
  { patients := sys.patients
    hospitals := sys.hospitals
    availableHospitals := List.range sys.hospitals.length
    assignments := [] }

/-- The state reached after the patients at the positions `done` were processed. -/
def greedyRun (sqrt : α → α) (sys : System α) (done : List Nat) : GreedyState α :=
  done.foldl (greedyStep sqrt) (greedyInit sys)

/-- Method `greedyMatching()`: the mutated collections and `assignments`. -/
def greedyMatching (sqrt : α → α) (sys : System α) : Outcome α (Assignment α) :=
  let final := greedyRun sqrt sys (sortedPatients sys.patients)
  { system := { patients := final.patients, hospitals := final.hospitals }
    assignments := final.assignments }

/-! ## Knapsack dynamic programming -/

/-- Apply `f` in place to the object at position `i` of a collection. -/
def updateAt {β : Type} (l : List β) (i : Nat) (f : β → β) : List β :=
  match l[i]? with
  | none => l
  | some x => l.set i (f x)

/-- The two statements `h.currentPatients = 0; h.utilization = 0;` of the loops
headed "Reset hospital states". -/
def resetHospital (h : Hospital α) : Hospital α :=
  { h with currentPatients := 0, utilization := some 0 }

/-- The test `!p.assignedHospital`: both `null` and the number `0` are falsy. -/
def notAssigned (patient : Patient α) : Bool :=
  match patient.assignedHospital with
  | none => true
  | some hospitalId => decide (hospitalId = 0)

/-- The keys of `patientsBySpecialization` in insertion order, which is the
order of `Object.keys` for keys that are not array indices. -/
def specializationKeys (patients : List (Patient α)) : List String :=
  patients.foldl
    (fun keys p =>
      if p.requiredSpecialization ∈ keys then keys else keys ++ [p.requiredSpecialization])
    []

/-- The expression `Math.min(...hospitals.map(h => calculateDistance(loc, h.location)))`
for the non-empty array `first :: others`. -/
def minDistance (sqrt : α → α) (first : Hospital α) (others : List (Hospital α))
    (loc : Location α) : α :=
  others.foldl (fun m h => min m (calculateDistance sqrt loc h.location))
    (calculateDistance sqrt loc first.location)

/-- The comparator of `patients.sort(...)` in `knapsackDP`, read as "a may stay
before b": its value is not positive. -/
def knapsackBefore (sqrt : α → α) (first : Hospital α) (others : List (Hospital α))
    (a b : Nat × Patient α) : Prop :=
  urgencyOrder b.2.urgency < urgencyOrder a.2.urgency ∨
    (urgencyOrder b.2.urgency = urgencyOrder a.2.urgency ∧
      minDistance sqrt first others a.2.location ≤ minDistance sqrt first others b.2.location)

instance knapsackBeforeDecidable (sqrt : α → α) (first : Hospital α)
    (others : List (Hospital α)) : DecidableRel (knapsackBefore sqrt first others) :=
  fun _ _ => inferInstanceAs (Decidable (_ ∨ _))

/-- An element `{ patient, distance }` of a `dp[w].patients` array; the patient
is the position in `this.patients` together with the record read there. -/
structure Pick (α : Type) where
  patient : Nat × Patient α
  distance : α
  deriving DecidableEq, Repr

/-- A table entry `dp[w] = { value, patients }`. -/
structure Cell (α : Type) where
  value : Nat
  patients : List (Pick α)
  deriving DecidableEq, Repr

/-- The expression `picks.reduce((sum, p) => sum + p.distance, 0)`. -/
def totalDistance (picks : List (Pick α)) : α :=
  picks.foldl (fun sum p => sum + p.distance) 0

/-- The body of `for (let w = capacity; w >= 1; w--)` for one candidate. -/
def relax (item : Pick α) (dp : List (Cell α)) (w : Nat) : List (Cell α) :=
  match dp[w - 1]?, dp[w]? with
  | some below, some here =>
    let newValue := below.value + urgencyOrder item.patient.2.urgency
    let newDistance := totalDistance below.patients + item.distance
    if here.value < newValue ∨
        (newValue = here.value ∧ newDistance < totalDistance here.patients) then
      dp.set w { value := newValue, patients := below.patients ++ [item] }
    else dp
  | _, _ => dp

/-- The values `capacity, capacity - 1, ..., 1` taken by `w`. -/
def descending (capacity : Nat) : List Nat :=
  ((List.range capacity).map (fun k => k + 1)).reverse

/-- The body of `for (let i = 0; i < availablePatients.length; i++)`. -/
def considerPatient (capacity : Nat) (dp : List (Cell α)) (item : Pick α) : List (Cell α) :=
  (descending capacity).foldl (relax item) dp

/-- The table `dp` after all candidates were considered, starting from
`Array(capacity + 1)` filled with `{ value: 0, patients: [] }`. -/
def knapsackTable (capacity : Nat) (items : List (Pick α)) : List (Cell α) :=
  items.foldl (considerPatient capacity)
    (List.replicate (capacity + 1) { value := 0, patients := [] })

/-- The array `dp[capacity].patients`, the "optimal solution" for one hospital. -/
def optimalSolution (capacity : Nat) (items : List (Pick α)) : List (Pick α) :=
  match (knapsackTable capacity items)[capacity]? with
  | none => []
  | some cell => cell.patients

/-- The loop state of `knapsackDP`. -/
structure KnapsackState (α : Type) where
  patients : List (Patient α)
  hospitals : List (Hospital α)
  assignments : List (Assignment α)

/-- The array `patients.filter(p => !p.assignedHospital)` for a group given by
positions, each paired with the record currently stored there. -/
def availablePatients (patients : List (Patient α)) (group : List Nat) :
    List (Nat × Patient α) :=
  group.filterMap (fun i =>
    match patients[i]? with
    | none => none
    | some p => if notAssigned p then some (i, p) else none)

/-- The candidates of one hospital: `availablePatients` zipped with `distances`. -/
def candidates (sqrt : α → α) (patients : List (Patient α)) (group : List Nat)
    (hospital : Hospital α) : List (Pick α) :=
  (availablePatients patients group).map (fun e =>
    { patient := e, distance := calculateDistance sqrt e.2.location hospital.location })

/-- The body of `optimalSolution.patients.forEach(...)` for the hospital at
position `h`. -/
def assignSelected (hospitalId h : Nat) (st : KnapsackState α) (pick : Pick α) :
    KnapsackState α :=
  { patients := updateAt st.patients pick.patient.1 (fun p =>
      { p with assignedHospital := some hospitalId, travelDistance := pick.distance })
    hospitals := updateAt st.hospitals h (fun x =>
      { x with currentPatients := x.currentPatients + 1 })
    assignments := st.assignments ++
      [{ patientId := pick.patient.2.id, hospitalId := hospitalId, distance := pick.distance,
         bedNumber := none, doctorId := none }] }

/-- The body of `hospitals.forEach(hospital => ...)` for the hospital at
position `h` and the sorted group `group`. -/
def processHospital (sqrt : α → α) (group : List Nat) (st : KnapsackState α) (h : Nat) :
    KnapsackState α :=
  match st.hospitals[h]? with
  | none => st
  | some hospital =>
    match candidates sqrt st.patients group hospital with
    | [] => st
    | item :: items =>
      let selected := optimalSolution hospital.capacity (item :: items)
      let st1 := selected.foldl (assignSelected hospital.id h) st
      { st1 with hospitals := updateAt st1.hospitals h (fun x =>
          { x with utilization := utilizationOf x.currentPatients x.capacity }) }

/-- Positions of the elements of `l` that satisfy `p`, in order. -/
def positionsWhere {β : Type} (p : β → Bool) (l : List β) : List Nat :=
  (l.enum.filter (fun e => p e.2)).map Prod.fst

/-- The group `patientsBySpecialization[specialization]` after the in-place
sort, as positions in `this.patients`. -/
def sortedGroup (sqrt : α → α) (patients : List (Patient α)) (specialization : String)
    (first : Hospital α) (others : List (Hospital α)) : List Nat :=
  ((patients.enum.filter (fun e => decide (e.2.requiredSpecialization = specialization))).insertionSort
    (knapsackBefore sqrt first others)).map Prod.fst

/-- The body of `Object.keys(patientsBySpecialization).forEach(specialization => ...)`. -/
def processSpecialization (sqrt : α → α) (st : KnapsackState α) (specialization : String) :
    KnapsackState α :=
  match st.hospitals.filter (fun h => decide (h.specialization = specialization)) with
  | [] => st
  | first :: others =>
    let group := sortedGroup sqrt st.patients specialization first others
    (positionsWhere (fun h => decide (h.specialization = specialization)) st.hospitals).foldl
      (processHospital sqrt group) st

/-- Method `knapsackDP()`: the mutated collections and `assignments`. -/
def knapsackDP (sqrt : α → α) (sys : System α) : Outcome α (Assignment α) :=
  let start : KnapsackState α :=
    { patients := sys.patients
      hospitals := sys.hospitals.map resetHospital
      assignments := [] }
  let final := (specializationKeys sys.patients).foldl (processSpecialization sqrt) start
  { system := { patients := final.patients, hospitals := final.hospitals }
    assignments := final.assignments }

/-! ## Branch and bound -/

/-- The array `allAssignments`: one edge for every patient and every hospital of
the required specialization, patients outermost. -/
def allAssignments (sqrt : α → α) (sys : System α) : List (Edge α) :=
  sys.patients.flatMap (fun patient =>
    (sys.hospitals.filter (fun hospital =>
        decide (hospital.specialization = patient.requiredSpecialization))).map
      (fun hospital =>
        { patientId := patient.id, hospitalId := hospital.id,
          distance := calculateDistance sqrt patient.location hospital.location,
          urgency := patient.urgency }))

/-- The variables shared by all calls of `solve`: `bestSolution`, `bestCost`
(`none` is `Infinity`), and the hospital-state objects.  Every array
`[...hospitalStates]` is a fresh array of the same objects, so an increment of
`currentPatients` made in one branch is seen by all branches. -/
structure SearchState (α : Type) where
  bestSolution : Option (List (Edge α))
  bestCost : Option α
  hospitalStates : List (Hospital α)

/-- The test `currentCost >= bestCost`. -/
def pruned (bestCost : Option α) (currentCost : α) : Bool :=
  match bestCost with
  | none => false
  | some best => decide (best ≤ currentCost)

/-- The test `currentCost < bestCost`. -/
def improves (bestCost : Option α) (currentCost : α) : Bool :=
  match bestCost with
  | none => true
  | some best => decide (currentCost < best)

/-- The body of `for (const assignment of allAssignments)` inside `solve`;
`recurse` is the call `solve(newRemainingPatients, ...)`. -/
def tryEdge (hospitals : List (Hospital α))
    (recurse : List (Edge α) → α → SearchState α → SearchState α)
    (patientId : Nat) (currentAssignments : List (Edge α)) (currentCost : α)
    (st : SearchState α) (assignment : Edge α) : SearchState α :=
  if assignment.patientId = patientId then
    match hospitals.find? (fun h => decide (h.id = assignment.hospitalId)) with
    | none => st
    | some hospital =>
      let hospitalIndex := st.hospitalStates.findIdx (fun h => decide (h.id = hospital.id))
      match st.hospitalStates[hospitalIndex]? with
      | none => st
      | some state =>
        if state.currentPatients < state.capacity then
          let incremented : Hospital α :=
            { state with currentPatients := state.currentPatients + 1 }
          let st1 : SearchState α :=
            { st with hospitalStates := st.hospitalStates.set hospitalIndex incremented }
          let newAssignments := currentAssignments ++ [assignment]
          let urgencyWeight := urgencyOrder assignment.urgency
          let newCost := currentCost + assignment.distance - (urgencyWeight : α) * 10
          recurse newAssignments newCost st1
        else st
  else st

/-- The closure `solve(remainingPatients, currentAssignments, currentCost,
hospitalStates)`, with the variables it shares passed through. -/
def solve (hospitals : List (Hospital α)) (edges : List (Edge α)) :
    List (Patient α) → List (Edge α) → α → SearchState α → SearchState α
  | [], currentAssignments, currentCost, st =>
    if pruned st.bestCost currentCost then st
    else if improves st.bestCost currentCost then
      { st with bestCost := some currentCost, bestSolution := some currentAssignments }
    else st
  | patient :: rest, currentAssignments, currentCost, st =>
    if pruned st.bestCost currentCost then st
    else
      edges.foldl
        (tryEdge hospitals (fun a c s => solve hospitals edges rest a c s) patient.id
          currentAssignments currentCost)
        st

/-- The body of `bestSolution.forEach(assignment => ...)`. -/
def applyEdge (sys : System α) (assignment : Edge α) : System α :=
  match sys.patients.findIdx? (fun p => decide (p.id = assignment.patientId)),
      sys.hospitals.findIdx? (fun h => decide (h.id = assignment.hospitalId)) with
  | some p, some h =>
    { patients := updateAt sys.patients p (fun x =>
        { x with assignedHospital := some assignment.hospitalId,
                 travelDistance := assignment.distance })
      hospitals := updateAt sys.hospitals h (fun x =>
        { x with currentPatients := x.currentPatients + 1,
                 utilization := utilizationOf (x.currentPatients + 1) x.capacity }) }
  | _, _ => sys

/-- The search of `branchAndBound()`: the shared variables when `solve` returns. -/
def search (sqrt : α → α) (sys : System α) : SearchState α :=
  let hospitals := sys.hospitals.map resetHospital
  let edges := allAssignments sqrt { sys with hospitals := hospitals }
  let initialHospitalStates := hospitals.map (fun h => { h with currentPatients := 0 })
  let sorted := (sys.patients.enum.insertionSort urgencyBefore).map Prod.snd
  solve hospitals edges sorted [] 0
    { bestSolution := none, bestCost := none, hospitalStates := initialHospitalStates }

/-- Method `branchAndBound()`: the mutated collections and `bestSolution || []`. -/
def branchAndBound (sqrt : α → α) (sys : System α) : Outcome α (Edge α) :=
  let start : System α := { sys with hospitals := sys.hospitals.map resetHospital }
  match (search sqrt sys).bestSolution with
  | none => { system := start, assignments := [] }
  | some bestSolution =>
    { system := bestSolution.foldl applyEdge start, assignments := bestSolution }

/-- The cost `distance - urgencyWeight * 10` that `solve` adds for one record. -/
def edgeCost (e : Edge α) : α :=
  e.distance - (urgencyOrder e.urgency : α) * 10

/-- The total cost of a list of records. -/
def totalCost (edges : List (Edge α)) : α :=
  (edges.map edgeCost).sum

end Engine

/-! ## Metrics and the allocation runner -/

/-- The rounding of double arithmetic: `Rounding.fl x` is the double that an
arithmetic operation, or the reading of a decimal literal, returns when the
exact value is `x`. -/
class Rounding (α : Type) where
  fl : α → α

section Runner

variable {α : Type} [LinearOrderedField α] [FloorRing α]

/-- The value returned by an allocator: `patientsAssigned`, `avgDistance`,
`utilization`, `assignments` and `efficiencyScore` (the name of the algorithm and
the execution time are left out).  A number that is `NaN` is `none`. -/
structure Result (α : Type) (ρ : Type) where
  patientsAssigned : Nat
  avgDistance : Option α
  utilization : Option α
  assignments : List ρ
  efficiencyScore : Option Int

/-- The expression `hospitals.reduce((sum, h) => sum + h.utilization, 0)`. -/
def sumUtilization (hospitals : List (Hospital α)) : Option α :=
  hospitals.foldl
    (fun sum h =>
      match sum, h.utilization with
      | some s, some u => some (s + u)
      | _, _ => none)
    (some 0)

/-- The expression `this.hospitals.reduce(...) / this.hospitals.length`. -/
def totalUtilization (hospitals : List (Hospital α)) : Option α :=
  match sumUtilization hospitals with
  | none => none
  | some s => jsDiv s (hospitals.length : α)

/-- The expression `distances.reduce((sum, d) => sum + d, 0) / assignedCount`
for the distances of the records. -/
def averageDistance (distances : List α) (assignedCount : Nat) : Option α :=
  jsDiv (distances.foldl (fun sum d => sum + d) 0) (assignedCount : α)

/-- The two statements `p.assignedHospital = null; p.travelDistance = 0;` of the
reset loops. -/
def clearAssignment (p : Patient α) : Patient α :=
  { p with assignedHospital := none, travelDistance := 0 }

/-- The block "Reset all assignments" at the start of `runAllocation`, which is
also the data part of `resetSimulation()` and the block "Clear previous
assignments" of `animateResult`. -/
def resetSimulation (sys : System α) : System α :=
  { patients := sys.patients.map clearAssignment
    hospitals := sys.hospitals.map resetHospital }

/-- The collection `this.doctors` as `generateSampleData` fills it: every doctor
object is pushed to `this.doctors` and to the `doctors` array of its hospital,
hospital by hospital. -/
def allDoctors (sys : System α) : List Doctor :=
  sys.hospitals.flatMap (fun h => h.doctors)

/-- The body of `for (const assignment of result.assignments)` in
`animateResult`, for a record with the given `patientId`, `hospitalId` and
`distance`; the guard `if (patient && hospital)` skips a record whose patient or
hospital is not found. -/
def replayAssignment (sys : System α) (patientId hospitalId : Nat) (distance : α) :
    System α :=
  match sys.patients.findIdx? (fun p => decide (p.id = patientId)),
      sys.hospitals.findIdx? (fun h => decide (h.id = hospitalId)) with
  | some p, some h =>
    { patients := updateAt sys.patients p (fun x =>
        { x with assignedHospital := some hospitalId, travelDistance := distance })
      hospitals := updateAt sys.hospitals h (fun x =>
        { x with currentPatients := x.currentPatients + 1,
                 utilization := utilizationOf (x.currentPatients + 1) x.capacity }) }
  | _, _ => sys

/-- The data part of `animateResult(result, algorithmType)`: clear, then replay
the records `(patientId, hospitalId, distance)` of the result. -/
def animateResult (sys : System α) (records : List (Nat × Nat × α)) : System α :=
  records.foldl (fun s r => replayAssignment s r.1 r.2.1 r.2.2) (resetSimulation sys)

/-- Function `Math.round`: the nearest integer, the larger one of two equally
near ones. -/
def jsRound (x : Option α) : Option Int :=
  x.map (fun v => ⌊v + 1 / 2⌋)

variable [Rounding α]

/-- Method `calculateEfficiencyScore(assignedCount, avgDistance, utilization)`
in double arithmetic; `patientCount` is `this.patients.length`.  Every quotient,
difference, product and sum of the method is rounded by `Rounding.fl`, in the
order in which JavaScript evaluates
`(assignmentRate * 0.4 + distanceScore * 0.3 + utilizationScore * 0.3) * 100`,
and the literals `0.4` and `0.3` are the doubles `Rounding.fl (2 / 5)` and
`Rounding.fl (3 / 10)`; `Math.max` and `Math.round` are exact, `50` and `100`
are doubles, and the arguments are taken as they are given. -/
def calculateEfficiencyScore (patientCount assignedCount : Nat) (avgDistance : Option α)
    (utilization : Option α) : Option Int :=
  let assignmentRate := (jsDiv (assignedCount : α) (patientCount : α)).map Rounding.fl
  let distanceScore :=
    avgDistance.map (fun d => max 0 (Rounding.fl (1 - Rounding.fl (d / 50))))
  let utilizationScore := utilization.map (fun u => Rounding.fl (u / 100))
  jsRound
    (match assignmentRate, distanceScore, utilizationScore with
     | some r, some d, some u =>
       some (Rounding.fl (Rounding.fl (Rounding.fl (Rounding.fl (r * Rounding.fl (2 / 5)) +
         Rounding.fl (d * Rounding.fl (3 / 10))) + Rounding.fl (u * Rounding.fl (3 / 10))) * 100))
     | _, _, _ => none)

/-- The value `greedyMatching()` returns. -/
def greedyMatchingResult (sqrt : α → α) (sys : System α) : Result α (Assignment α) :=
  let out := greedyMatching sqrt sys
  let assignedCount := out.assignments.length
  let avgDistance := averageDistance (out.assignments.map (fun a => a.distance)) assignedCount
  let utilization := totalUtilization out.system.hospitals
  { patientsAssigned := assignedCount
    avgDistance := avgDistance
    utilization := utilization
    assignments := out.assignments
    efficiencyScore :=
      calculateEfficiencyScore out.system.patients.length assignedCount avgDistance utilization }

/-- The value `knapsackDP()` returns. -/
def knapsackDPResult (sqrt : α → α) (sys : System α) : Result α (Assignment α) :=
  let out := knapsackDP sqrt sys
  let assignedCount := out.assignments.length
  let avgDistance := averageDistance (out.assignments.map (fun a => a.distance)) assignedCount
  let utilization := totalUtilization out.system.hospitals
  { patientsAssigned := assignedCount
    avgDistance := avgDistance
    utilization := utilization
    assignments := out.assignments
    efficiencyScore :=
      calculateEfficiencyScore out.system.patients.length assignedCount avgDistance utilization }

/-- The value `branchAndBound()` returns: `assignedCount` and `avgDistance` test
`bestSolution` for `null` first. -/
def branchAndBoundResult (sqrt : α → α) (sys : System α) : Result α (Edge α) :=
  let out := branchAndBound sqrt sys
  let assignedCount :=
    match (search sqrt sys).bestSolution with
    | none => 0
    | some bestSolution => bestSolution.length
  let avgDistance :=
    match (search sqrt sys).bestSolution with
    | none => some 0
    | some bestSolution =>
      averageDistance (bestSolution.map (fun a => a.distance)) assignedCount
  let utilization := totalUtilization out.system.hospitals
  { patientsAssigned := assignedCount
    avgDistance := avgDistance
    utilization := utilization
    assignments := out.assignments
    efficiencyScore :=
      calculateEfficiencyScore out.system.patients.length assignedCount avgDistance utilization }

/-- The values of `this.currentAlgorithm`. -/
inductive Algorithm where
  | all
  | greedy
  | knapsack
  | branchBound
  deriving DecidableEq, Repr

/-- The collections and `this.results` after `runAllocation()`; the results are
pushed in the order greedy, knapsack, branch and bound, each only when selected. -/
structure Session (α : Type) where
  system : System α
  greedy : Option (Result α (Assignment α))
  knapsack : Option (Result α (Assignment α))
  branchBound : Option (Result α (Edge α))

/-- The step of `runAllocation` for the greedy algorithm. -/
def runGreedy (sqrt : α → α) (currentAlgorithm : Algorithm) (s : Session α) : Session α :=
  if currentAlgorithm = Algorithm.all ∨ currentAlgorithm = Algorithm.greedy then
    let greedyResult := greedyMatchingResult sqrt s.system
    { s with
      system := animateResult (greedyMatching sqrt s.system).system
        (greedyResult.assignments.map (fun a => (a.patientId, a.hospitalId, a.distance)))
      greedy := some greedyResult }
  else s

/-- The step of `runAllocation` for the knapsack algorithm. -/
def runKnapsack (sqrt : α → α) (currentAlgorithm : Algorithm) (s : Session α) : Session α :=
  if currentAlgorithm = Algorithm.all ∨ currentAlgorithm = Algorithm.knapsack then
    let knapsackResult := knapsackDPResult sqrt s.system
    { s with
      system := animateResult (knapsackDP sqrt s.system).system
        (knapsackResult.assignments.map (fun a => (a.patientId, a.hospitalId, a.distance)))
      knapsack := some knapsackResult }
  else s

/-- The step of `runAllocation` for the branch and bound algorithm. -/
def runBranchBound (sqrt : α → α) (currentAlgorithm : Algorithm) (s : Session α) :
    Session α :=
  if currentAlgorithm = Algorithm.all ∨ currentAlgorithm = Algorithm.branchBound then
    let branchBoundResult := branchAndBoundResult sqrt s.system
    { s with
      system := animateResult (branchAndBound sqrt s.system).system
        (branchBoundResult.assignments.map (fun a => (a.patientId, a.hospitalId, a.distance)))
      branchBound := some branchBoundResult }
  else s

/-- Method `runAllocation()`: one reset, then the selected algorithms in turn,
each followed by `animateResult`. -/
def runAllocation (sqrt : α → α) (currentAlgorithm : Algorithm) (sys : System α) :
    Session α :=
  let start : Session α :=
    { system := resetSimulation sys, greedy := none, knapsack := none, branchBound := none }
  runBranchBound sqrt currentAlgorithm
    (runKnapsack sqrt currentAlgorithm (runGreedy sqrt currentAlgorithm start))

end Runner

/-! ## Concrete numbers for evaluation -/

/-- The largest `r ≤ k` with `r * r ≤ n` (and `0` if there is none above it). -/
def natSqrtBelow : Nat → Nat → Nat
  | 0, _ => 0
  | k + 1, n => if (k + 1) * (k + 1) ≤ n then k + 1 else natSqrtBelow k n

/-- A square root on the rationals that is exact on squares of rationals, where
it agrees with `Math.sqrt`; used to run the allocators on concrete inputs whose
distances are rational. -/
def ratSqrt (q : ℚ) : ℚ :=
  (natSqrtBelow q.num.toNat q.num.toNat : ℚ) / (natSqrtBelow q.den q.den : ℚ)

/-! ## Double precision -/

/-- The power `2 ^ k` of two for an integer exponent. -/
def pow2 (k : Int) : ℚ :=
  if 0 ≤ k then ((2 ^ k.toNat : Nat) : ℚ) else 1 / ((2 ^ (-k).toNat : Nat) : ℚ)

/-- The number of halvings that bring `n` below 2, at most `fuel` of them. -/
def log2Floor : Nat → Nat → Nat
  | 0, _ => 0
  | fuel + 1, n => if n < 2 then 0 else log2Floor fuel (n / 2) + 1

/-- The floor of the binary logarithm of `n ≥ 1`. -/
def natLog2 (n : Nat) : Nat :=
  log2Floor n n

/-- The integer nearest to `m`; of two equally near integers the even one. -/
def roundHalfEven (m : ℚ) : Int :=
  if m - (⌊m⌋ : ℚ) < 1 / 2 then ⌊m⌋
  else if 1 / 2 < m - (⌊m⌋ : ℚ) then ⌊m⌋ + 1
  else if ⌊m⌋ % 2 = 0 then ⌊m⌋ else ⌊m⌋ + 1

/-- The binary exponent of `x ≠ 0`: the integer `e` with `2 ^ e ≤ |x| < 2 ^ (e + 1)`,
found from the bit lengths of numerator and denominator. -/
def exponent (x : ℚ) : Int :=
  let c : Int := (natLog2 x.num.natAbs : Int) - (natLog2 x.den : Int)
  if pow2 c ≤ |x| then c else c - 1

/-- The double nearest to `x`, ties to even (IEEE 754 binary64, the rounding of
every JavaScript operation): a multiple of `2 ^ (e - 52)` for a number of
exponent `e ≥ -1022`, a multiple of `2 ^ (-1074)` below that.  Overflow to
`Infinity`, at `2 ^ 1024`, is not modelled. -/
def binary64 (x : ℚ) : ℚ :=
  (roundHalfEven (x / pow2 (max (exponent x) (-1022) - 52)) : ℚ) *
    pow2 (max (exponent x) (-1022) - 52)

/-- On the rationals the rounding of double arithmetic is `binary64`. -/
instance binary64Rounding : Rounding ℚ :=
  ⟨binary64⟩

end HospitalAssignmentSystem

/-! ## Predicates used in the statements and proofs -/

namespace HospitalAssignmentSystem

section Predicates

variable {α : Type} [LinearOrderedField α]

/-- What the scan has found after going through the array `av`. -/
def BestSpec (sqrt : α → α) (hs : List (Hospital α)) (p : Patient α) (av : List Nat) :
    Option (α × Nat × Nat) → Prop
  | none => ∀ (j h' : Nat) (hosp' : Hospital α), av[j]? = some h' → hs[h']? = some hosp' → ¬ eligible hosp' p
  | some (d, h, i) =>
    av[i]? = some h ∧ ∃ hosp, hs[h]? = some hosp ∧ eligible hosp p ∧
      d = calculateDistance sqrt p.location hosp.location ∧
      ∀ (j h' : Nat) (hosp' : Hospital α), av[j]? = some h' → hs[h']? = some hosp' →
        eligible hosp' p →
        d ≤ calculateDistance sqrt p.location hosp'.location ∧
        (calculateDistance sqrt p.location hosp'.location = d → i ≤ j)

/-- The hospital written back by `assignGreedy`. -/
def greedyHospital (patient : Patient α) (bestDistance : α) (bestHospital : Hospital α) :
    Hospital α :=
  let patient1 : Patient α :=
    { patient with assignedHospital := some bestHospital.id, travelDistance := bestDistance }
  let withBed := assignBed patient1 bestHospital
  let withDoctor := assignDoctor withBed.1 withBed.2
  { withDoctor.2 with
    currentPatients := withDoctor.2.currentPatients + 1
    utilization := utilizationOf (withDoctor.2.currentPatients + 1) withDoctor.2.capacity }

/-- Every hospital holds at most as many patients as it has capacity. -/
def WithinCapacity (hs : List (Hospital α)) : Prop :=
  ∀ h ∈ hs, h.currentPatients ≤ h.capacity

/-- The total urgency weight of a list of picks. -/
def totalUrgency (picks : List (Pick α)) : Nat :=
  (picks.map (fun p => urgencyOrder p.patient.2.urgency)).sum

/-- The entry that `relax` leaves in `dp[w]`, given `dp[w - 1]` and `dp[w]`. -/
def relaxCell (item : Pick α) (below here : Cell α) : Cell α :=
  if here.value < below.value + urgencyOrder item.patient.2.urgency ∨
      (below.value + urgencyOrder item.patient.2.urgency = here.value ∧
        totalDistance below.patients + item.distance < totalDistance here.patients) then
    { value := below.value + urgencyOrder item.patient.2.urgency
      patients := below.patients ++ [item] }
  else here

/-- The selection `s` is not better than the selection `t`: it has less total
urgency, or the same total urgency and at least the total distance. -/
def NotBetter (s t : List (Pick α)) : Prop :=
  totalUrgency s < totalUrgency t ∨
    (totalUrgency s = totalUrgency t ∧ totalDistance t ≤ totalDistance s)

/-- The entry `c` is a best selection of at most `w` of the candidates `done`. -/
def BestCell (done : List (Pick α)) (w : Nat) (c : Cell α) : Prop :=
  c.patients.Sublist done ∧ c.patients.length ≤ w ∧ c.value = totalUrgency c.patients ∧
    ∀ s : List (Pick α), s.Sublist done → s.length ≤ w → NotBetter s c.patients

/-- Every entry of the table `dp` is a best selection among the candidates `done`. -/
def BestTable (capacity : Nat) (done : List (Pick α)) (dp : List (Cell α)) : Prop :=
  dp.length = capacity + 1 ∧ ∀ (w : Nat) (c : Cell α), dp[w]? = some c → BestCell done w c

/-- The hospitals at the positions `pos` and those of a specialization in `rest`
are still empty, and every hospital is within its capacity. -/
def KnapsackPending (rest : List String) (pos : List Nat) (hs : List (Hospital α)) : Prop :=
  ∀ (k : Nat) (x : Hospital α), hs[k]? = some x →
    x.currentPatients ≤ x.capacity ∧
      ((x.specialization ∈ rest ∨ k ∈ pos) → x.currentPatients = 0)

/-- The fields of a hospital that no allocator writes. -/
def hospitalKey (h : Hospital α) : Nat × String × Nat × Location α :=
  (h.id, h.specialization, h.capacity, h.location)

/-- The fields of a patient that no allocator writes. -/
def patientKey (p : Patient α) : Nat × String × Urgency × Location α :=
  (p.id, p.requiredSpecialization, p.urgency, p.location)

/-- The first hospital object of a list that carries the identifier `hospitalId`:
the result of `find(h => h.id === hospitalId)`. -/
def firstState (hospitalId : Nat) (states : List (Hospital α)) : Option (Hospital α) :=
  states.find? (fun h => decide (h.id = hospitalId))

/-- The occupancy counter that `solve` tests for the identifier `hospitalId`. -/
def cpOf (hospitalId : Nat) (states : List (Hospital α)) : Nat :=
  match firstState hospitalId states with
  | none => 0
  | some x => x.currentPatients

/-- The capacity that `solve` tests for the identifier `hospitalId`. -/
def capOf (hospitalId : Nat) (states : List (Hospital α)) : Nat :=
  match firstState hospitalId states with
  | none => 0
  | some x => x.capacity

/-- The number of records of `records` that name the hospital `hospitalId`. -/
def namedBy (hospitalId : Nat) (records : List (Edge α)) : Nat :=
  records.countP (fun e => decide (e.hospitalId = hospitalId))

/-- The invariant of the shared variables of `solve`, relative to the initial
hospital states `initial` and the edge list `edges`. -/
def SearchInv (initial : List (Hospital α)) (edges : List (Edge α)) (st : SearchState α) :
    Prop :=
  (∀ hid : Nat, capOf hid st.hospitalStates = capOf hid initial) ∧
    (∀ hid : Nat, cpOf hid st.hospitalStates ≤ capOf hid initial) ∧
    ∀ sol : List (Edge α), st.bestSolution = some sol →
      (∀ e ∈ sol, e ∈ edges) ∧ ∀ hid : Nat, namedBy hid sol ≤ capOf hid initial

/-- The state of the hospitals while the records `done` of the best solution
have been applied to the reset hospitals `reset`: the static fields are those of
`reset`, and only the first hospital of an identifier has received patients, at
most one for each record that names it. -/
def ApplyInv (reset : List (Hospital α)) (done : List (Edge α)) (hs : List (Hospital α)) :
    Prop :=
  hs.map hospitalKey = reset.map hospitalKey ∧
    ∀ (k : Nat) (x : Hospital α), hs[k]? = some x →
      x.currentPatients ≤
        if reset.findIdx (fun h => decide (h.id = x.id)) = k then namedBy x.id done else 0

/-- The patient written back by `assignGreedy`. -/
def greedyPatient (patient : Patient α) (bestDistance : α) (bestHospital : Hospital α) :
    Patient α :=
  let patient1 : Patient α :=
    { patient with assignedHospital := some bestHospital.id, travelDistance := bestDistance }
  let withBed := assignBed patient1 bestHospital
  (assignDoctor withBed.1 withBed.2).1

/-- A patient that is assigned is assigned to an identifier that some hospital
of the required specialization carries; `keys` are the static fields of the
hospitals. -/
def SpecOK (keys : List (Nat × String × Nat × Location α)) (p : Patient α) : Prop :=
  ∀ hid : Nat, p.assignedHospital = some hid →
    ∃ key ∈ keys, key.1 = hid ∧ key.2.1 = p.requiredSpecialization

/-- The invariant behind the specialization match: static fields are kept and
every assigned patient is matched to its required specialization. -/
def MatchInv (keys : List (Nat × String × Nat × Location α))
    (pkeys : List (Nat × String × Urgency × Location α))
    (patients : List (Patient α)) (hospitals : List (Hospital α)) : Prop :=
  hospitals.map hospitalKey = keys ∧ patients.map patientKey = pkeys ∧
    ∀ p ∈ patients, SpecOK keys p

/-- Every patient whose `assignedHospital` is not `null` is assigned to an
identifier that a hospital carries, and every hospital that carries it has the
specialization the patient requires. -/
def SpecializationRespected (out : System α) : Prop :=
  ∀ p ∈ out.patients, ∀ hid : Nat, p.assignedHospital = some hid →
    (∃ h ∈ out.hospitals, h.id = hid) ∧
      ∀ h ∈ out.hospitals, h.id = hid → h.specialization = p.requiredSpecialization

/-- The array `availableHospitals` lists, in the order of `this.hospitals`, at
least every hospital that still has room. -/
def AvailInv (st : GreedyState α) : Prop :=
  st.availableHospitals.Pairwise (fun a b => a < b) ∧
    ∀ (j : Nat) (x : Hospital α), st.hospitals[j]? = some x →
      x.currentPatients < x.capacity → j ∈ st.availableHospitals

/-- The hospital at position `h` is the one `greedyMatching` must choose for
`patient` among `hospitals`: it is eligible, no eligible hospital is nearer, and
no eligible hospital at the same distance comes earlier in the list. -/
def NearestEligible (sqrt : α → α) (hospitals : List (Hospital α)) (patient : Patient α)
    (h : Nat) (bh : Hospital α) : Prop :=
  hospitals[h]? = some bh ∧ eligible bh patient ∧
    ∀ (j : Nat) (x : Hospital α), hospitals[j]? = some x → eligible x patient →
      calculateDistance sqrt patient.location bh.location ≤
          calculateDistance sqrt patient.location x.location ∧
        (calculateDistance sqrt patient.location x.location =
            calculateDistance sqrt patient.location bh.location → h ≤ j)

/-- The cost `distance - urgencyWeight * 10` of a record of `greedyMatching`,
the urgency being that of the patient the record names. -/
def recordCost (patients : List (Patient α)) (a : Assignment α) : α :=
  match patients.find? (fun p => decide (p.id = a.patientId)) with
  | none => a.distance
  | some p => a.distance - (urgencyOrder p.urgency : α) * 10

/-- The total cost of the records of `greedyMatching`. -/
def greedyCost (patients : List (Patient α)) (records : List (Assignment α)) : α :=
  (records.map (recordCost patients)).sum

/-- A complete assignment: every record is a candidate edge (so the hospital has
the specialization the patient requires), every patient is named by exactly one
record, and no hospital is named more often than its capacity. -/
def IsCompleteAssignment (sqrt : α → α) (sys : System α) (records : List (Edge α)) : Prop :=
  (∀ e ∈ records, e ∈ allAssignments sqrt sys) ∧
    (∀ p ∈ sys.patients, records.countP (fun e => decide (e.patientId = p.id)) = 1) ∧
    ∀ h ∈ sys.hospitals, namedBy h.id records ≤ h.capacity

instance isCompleteAssignmentDecidable (sqrt : α → α) (sys : System α)
    (records : List (Edge α)) : Decidable (IsCompleteAssignment sqrt sys records) :=
  inferInstanceAs (Decidable (_ ∧ _ ∧ _))

/-- Whether `greedyMatching`, when it takes up the patient at position `p` after
the patients at the positions `before`, finds a hospital: the test
`if (bestHospital)`. -/
def greedyFinds (sqrt : α → α) (sys : System α) (before : List Nat) (p : Nat) : Bool :=
  match (greedyRun sqrt sys before).patients[p]? with
  | none => false
  | some patient =>
    (findBestHospital sqrt (greedyRun sqrt sys before).hospitals
      (greedyRun sqrt sys before).availableHospitals patient).isSome

/-- No hospital of the specialization `s` has room left. -/
def NoRoom (s : String) (hospitals : List (Hospital α)) : Prop :=
  ∀ x ∈ hospitals, x.specialization = s → x.capacity ≤ x.currentPatients

/-- The stored `utilization` of every hospital is the value
`(h.currentPatients / h.capacity) * 100` of its present counters. -/
def UtilizationCurrent (hospitals : List (Hospital α)) : Prop :=
  ∀ h ∈ hospitals, h.utilization = utilizationOf h.currentPatients h.capacity

/-- The occupancy ratio `100 * currentPatients / capacity` of a hospital. -/
def occupancy (h : Hospital α) : α :=
  100 * (h.currentPatients : α) / (h.capacity : α)

/-- The mean of the occupancy ratios over all hospitals of a list. -/
def meanOccupancy (hospitals : List (Hospital α)) : α :=
  (hospitals.map occupancy).sum / (hospitals.length : α)

/-- The identifier `patientId` is carried by a patient for whom some hospital has
the required specialization; `pkeys` and `keys` are the static fields of the
patients and of the hospitals. -/
def Placeable (pkeys : List (Nat × String × Urgency × Location α))
    (keys : List (Nat × String × Nat × Location α)) (patientId : Nat) : Prop :=
  ∃ pk ∈ pkeys, pk.1 = patientId ∧ ∃ hk ∈ keys, hk.2.1 = pk.2.1

/-- The invariant behind the patient for whom no hospital exists: the static
fields are kept, the record at position `p` is still `x`, and every patient
identifier in `named`, the identifiers the records name, is placeable. -/
def UnmatchedInv (pkeys : List (Nat × String × Urgency × Location α))
    (keys : List (Nat × String × Nat × Location α)) (p : Nat) (x : Patient α)
    (patients : List (Patient α)) (hospitals : List (Hospital α)) (named : List Nat) : Prop :=
  patients.map patientKey = pkeys ∧ hospitals.map hospitalKey = keys ∧
    patients[p]? = some x ∧ ∀ id ∈ named, Placeable pkeys keys id

/-- The number of patients of a list that require the specialization `s`. -/
def demand (s : String) (patients : List (Patient α)) : Nat :=
  patients.countP (fun x => decide (x.requiredSpecialization = s))

/-- The number of free places, `capacity - currentPatients`, in the hospitals of
the specialization `s`. -/
def freeSlots (s : String) (states : List (Hospital α)) : Nat :=
  (states.map (fun h =>
    if h.specialization = s then h.capacity - h.currentPatients else 0)).sum

/-- A placement of all patients: `place i` is the position of a hospital of the
specialization that the patient at position `i` requires, and no hospital is
the place of more patients than its capacity. -/
def IsPlacement (sys : System α) (place : Nat → Nat) : Prop :=
  (∀ i, i < sys.patients.length →
      (sys.hospitals[place i]?).map (fun h => h.specialization) =
        (sys.patients[i]?).map (fun x => x.requiredSpecialization)) ∧
    ∀ j, j < sys.hospitals.length →
      ((List.range sys.patients.length).filter (fun i => decide (place i = j))).length ≤
        ((sys.hospitals[j]?).map (fun h => h.capacity)).getD 0

instance isPlacementDecidable (sys : System α) (place : Nat → Nat) :
    Decidable (IsPlacement sys place) :=
  inferInstanceAs (Decidable (_ ∧ _))

/-- The fields of a patient that the bed and doctor blocks write. -/
def patientCare (p : Patient α) : Option Nat × Option Nat :=
  (p.bedNumber, p.assignedDoctor)

/-- The fields of a hospital that the bed and doctor blocks write: its doctor
objects and its two bed arrays. -/
def hospitalCare (h : Hospital α) : List Doctor × List Nat × List Nat :=
  (h.doctors, h.availableBeds, h.occupiedBeds)

/-- The bed arrays of a hospital that was created with `c` beds and has handed
out `k` of them: the pool holds the beds `k + 1, ..., c` in order and
`occupiedBeds` holds `1, ..., k` in order. -/
def BedPool (c k : Nat) (h : Hospital α) : Prop :=
  k ≤ c ∧ h.availableBeds = (List.range (c - k)).map (fun i => i + k + 1) ∧
    h.occupiedBeds = (List.range k).map (fun i => i + 1)

instance bedPoolDecidable (c k : Nat) (h : Hospital α) : Decidable (BedPool c k h) :=
  inferInstanceAs (Decidable (_ ∧ _ ∧ _))

/-- The number of patients whose `assignedHospital` is the identifier
`hospitalId`. -/
def assignedTo (hospitalId : Nat) (patients : List (Patient α)) : Nat :=
  patients.countP (fun p => decide (p.assignedHospital = some hospitalId))

/-- The number of records of `greedyMatching` that name the hospital
`hospitalId`. -/
def recordsFor (hospitalId : Nat) (records : List (Assignment α)) : Nat :=
  records.countP (fun a => decide (a.hospitalId = hospitalId))

/-- The candidates of one hospital in the words of the specification: the
patients of the group that are still unassigned, that is whose
`assignedHospital` is `null`, with their distances to the hospital. -/
def unassignedCandidates (sqrt : α → α) (patients : List (Patient α)) (group : List Nat)
    (hospital : Hospital α) : List (Pick α) :=
  (candidates sqrt patients group hospital).filter
    (fun c => c.patient.2.assignedHospital.isNone)

end Predicates

/-! ## Concrete inputs -/

/-- The scenario of the specification: one cardiology hospital of capacity 2 at
the origin and three cardiology patients, critical, stable and urgent. -/
def scenario : System ℚ :=
  { hospitals := [createHospital 0 2 "cardiology" ⟨0, 0⟩]
    patients :=
      [createPatient 0 "cardiology" Urgency.critical ⟨1, 0⟩,
       createPatient 1 "cardiology" Urgency.stable ⟨2, 0⟩,
       createPatient 2 "cardiology" Urgency.urgent ⟨0, 1⟩] }

/-- Two cardiology hospitals of capacity 1 with the identifiers 0 and 5, as
`generateSampleData` numbers them when there are six hospitals, and two
cardiology patients. -/
def sharedSpecialization : System ℚ :=
  { hospitals :=
      [createHospital 0 1 "cardiology" ⟨0, 0⟩, createHospital 5 1 "cardiology" ⟨1, 0⟩]
    patients :=
      [createPatient 0 "cardiology" Urgency.critical ⟨0, 0⟩,
       createPatient 1 "cardiology" Urgency.stable ⟨1, 0⟩] }

/-- Two cardiology hospitals of capacity 1 and two critical cardiology patients,
each patient standing at the hospital that comes second for it in list order. -/
def crossed : System ℚ :=
  { hospitals :=
      [createHospital 1 1 "cardiology" ⟨0, 0⟩, createHospital 2 1 "cardiology" ⟨1, 0⟩]
    patients :=
      [createPatient 1 "cardiology" Urgency.critical ⟨1, 0⟩,
       createPatient 2 "cardiology" Urgency.critical ⟨0, 0⟩] }

/-- The complete assignment of `crossed` that sends each patient to the hospital
it stands at. -/
def crossedNearest : List (Edge ℚ) :=
  [{ patientId := 1, hospitalId := 2, distance := 0, urgency := Urgency.critical },
   { patientId := 2, hospitalId := 1, distance := 0, urgency := Urgency.critical }]

/-- Two cardiology hospitals of capacity 1, an urgent patient standing at the
second and a stable patient standing at the first. -/
def crossedMixed : System ℚ :=
  { hospitals :=
      [createHospital 1 1 "cardiology" ⟨0, 0⟩, createHospital 2 1 "cardiology" ⟨3, 0⟩]
    patients :=
      [createPatient 1 "cardiology" Urgency.urgent ⟨3, 0⟩,
       createPatient 2 "cardiology" Urgency.stable ⟨0, 0⟩] }

/-- A cardiology and a neurology hospital with distinct identifiers, and a
cardiology and a neurology patient that carry the same identifier 7. -/
def duplicatePatientIds : System ℚ :=
  { hospitals :=
      [createHospital 1 2 "cardiology" ⟨0, 0⟩, createHospital 2 2 "neurology" ⟨1, 0⟩]
    patients :=
      [createPatient 7 "cardiology" Urgency.critical ⟨1, 0⟩,
       createPatient 7 "neurology" Urgency.critical ⟨1, 0⟩] }

/-- The candidate of `crossed` that is farther from the first hospital. -/
def farPick : Pick ℚ :=
  { patient := (0, createPatient 1 "cardiology" Urgency.critical ⟨1, 0⟩), distance := 10 }

/-- Two cardiology hospitals with room for everybody (capacity 3 each) and two
critical cardiology patients: the first at distance 40 from the first hospital
and 30 from the second, the second at distance 10 and 20. -/
def detour : System ℚ :=
  { hospitals :=
      [createHospital 1 3 "cardiology" ⟨0, 0⟩, createHospital 2 3 "cardiology" ⟨1, 0⟩]
    patients :=
      [createPatient 1 "cardiology" Urgency.critical ⟨4, 0⟩,
       createPatient 2 "cardiology" Urgency.critical ⟨-1, 0⟩] }

/-- The complete assignment of `detour` that sends the first patient to the
second hospital and the second patient to the first. -/
def detourNearest : List (Edge ℚ) :=
  [{ patientId := 1, hospitalId := 2, distance := 30, urgency := Urgency.critical },
   { patientId := 2, hospitalId := 1, distance := 10, urgency := Urgency.critical }]

/-- One cardiology hospital of capacity 2 and no patient. -/
def emptyWard : System ℚ :=
  { hospitals := [createHospital 1 2 "cardiology" ⟨0, 0⟩]
    patients := [] }

/-- One cardiology hospital of capacity 1 with one doctor, as `generateSampleData`
builds it, and one cardiology patient. -/
def staffed : System ℚ :=
  { hospitals :=
      [{ createHospital 1 1 "cardiology" ⟨0, 0⟩ with
         doctors := [{ id := 0, hospitalId := 1, currentPatients := 0, maxPatients := 3 }] }]
    patients := [createPatient 0 "cardiology" Urgency.critical ⟨1, 0⟩] }

/-- One cardiology hospital of capacity 1, a cardiology patient and a neurology
patient, for whom there is no hospital. -/
def unmatched : System ℚ :=
  { hospitals := [createHospital 1 1 "cardiology" ⟨0, 0⟩]
    patients :=
      [createPatient 1 "cardiology" Urgency.critical ⟨1, 0⟩,
       createPatient 2 "neurology" Urgency.critical ⟨0, 1⟩] }

/-- One neurology hospital of capacity 2, and a cardiology and a neurology
patient that carry the same identifier 7. -/
def sharedPatientId : System ℚ :=
  { hospitals := [createHospital 2 2 "neurology" ⟨1, 0⟩]
    patients :=
      [createPatient 7 "cardiology" Urgency.critical ⟨1, 0⟩,
       createPatient 7 "neurology" Urgency.critical ⟨1, 0⟩] }

/-- A cardiology hospital of capacity 2 and a neurology hospital of capacity 1;
a cardiology and a neurology patient that carry the same identifier 7, and a
second cardiology patient. -/
def sharedIdPlaceable : System ℚ :=
  { hospitals :=
      [createHospital 1 2 "cardiology" ⟨0, 0⟩, createHospital 2 1 "neurology" ⟨1, 0⟩]
    patients :=
      [createPatient 7 "cardiology" Urgency.stable ⟨0, 0⟩,
       createPatient 7 "neurology" Urgency.critical ⟨1, 0⟩,
       createPatient 8 "cardiology" Urgency.stable ⟨0, 0⟩] }

/-- Two cardiology hospitals of capacity 1 that carry the same identifier 1, and
two cardiology patients. -/
def twinHospitals : System ℚ :=
  { hospitals :=
      [createHospital 1 1 "cardiology" ⟨0, 0⟩, createHospital 1 1 "cardiology" ⟨1, 0⟩]
    patients :=
      [createPatient 1 "cardiology" Urgency.critical ⟨0, 0⟩,
       createPatient 2 "cardiology" Urgency.critical ⟨1, 0⟩] }

/-- A cardiology hospital of capacity 2 and one of capacity 1, freshly created,
and two critical cardiology patients, each standing at one of the hospitals. -/
def bedClash : System ℚ :=
  { hospitals :=
      [createHospital 1 2 "cardiology" ⟨0, 0⟩, createHospital 2 1 "cardiology" ⟨5, 0⟩]
    patients :=
      [createPatient 1 "cardiology" Urgency.critical ⟨0, 0⟩,
       createPatient 2 "cardiology" Urgency.critical ⟨5, 0⟩] }

/-- The hospitals of `crossed` as `branchAndBound` resets them. -/
def crossedHospitals : List (Hospital ℚ) :=
  crossed.hospitals.map resetHospital

/-- The array `allAssignments` of `branchAndBound` on `crossed`. -/
def crossedEdges : List (Edge ℚ) :=
  allAssignments ratSqrt { crossed with hospitals := crossedHospitals }

/-- The call `solve(newRemainingPatients, ...)` made at the root of the search on
`crossed`, where the second patient remains. -/
def crossedRecurse (currentAssignments : List (Edge ℚ)) (currentCost : ℚ)
    (st : SearchState ℚ) : SearchState ℚ :=
  solve crossedHospitals crossedEdges (crossed.patients.drop 1) currentAssignments
    currentCost st

/-- The shared variables at the root of the search on `crossed` after the first
edge of the first patient, to hospital 1, was explored. -/
def crossedAfterFirstEdge : SearchState ℚ :=
  tryEdge crossedHospitals crossedRecurse 1 [] 0
    { bestSolution := none, bestCost := none,
      hospitalStates := crossedHospitals.map (fun h => { h with currentPatients := 0 }) }
    { patientId := 1, hospitalId := 1, distance := 10, urgency := Urgency.critical }

/-- The loop state of `knapsackDP` on `sharedSpecialization` after the first
cardiology hospital (identifier 0, position 0) was processed for the sorted
group `[0, 1]`: the state in which the second hospital is processed. -/
def sharedAfterFirst : KnapsackState ℚ :=
  processHospital ratSqrt [0, 1]
    { patients := sharedSpecialization.patients
      hospitals := sharedSpecialization.hospitals.map resetHospital
      assignments := [] }
    0

/-- The second hospital of `sharedSpecialization` (identifier 5, capacity 1) as
`knapsackDP` finds it when its turn comes. -/
def sharedSecond : Hospital ℚ :=
  resetHospital (createHospital 5 1 "cardiology" ⟨1, 0⟩)

/-- The patients that `knapsackDP` selects for the second hospital of
`sharedSpecialization`. -/
def sharedSelected : List (Pick ℚ) :=
  optimalSolution sharedSecond.capacity
    (candidates ratSqrt sharedAfterFirst.patients [0, 1] sharedSecond)

end HospitalAssignmentSystem

/-! ## Theorems -/

namespace HospitalAssignmentSystem

set_option linter.unusedSectionVars false

section Theorems

variable {α : Type} [LinearOrderedField α]

/-! ### The scan of `greedyMatching` -/

theorem getElem?_snoc_cases {β : Type} (l : List β) (x : β) (j : Nat) (y : β)
    (h : (l ++ [x])[j]? = some y) : l[j]? = some y ∨ (j = l.length ∧ y = x) := by
  rcases Nat.lt_or_ge j l.length with hj | hj
  · left
    rwa [List.getElem?_append_left hj] at h
  · right
    rw [List.getElem?_append_right hj] at h
    rcases Nat.eq_zero_or_pos (j - l.length) with h0 | h0
    · rw [h0] at h
      simp at h
      exact ⟨by omega, h.symm⟩
    · have : ([x] : List β)[j - l.length]? = none := by
        apply List.getElem?_eq_none
        simp
        omega
      rw [this] at h
      cases h

theorem bestSpec_snoc (sqrt : α → α) (hs : List (Hospital α)) (p : Patient α) (av : List Nat)
    (x : Nat) (best : Option (α × Nat × Nat)) (hb : BestSpec sqrt hs p av best) :
    BestSpec sqrt hs p (av ++ [x]) (scanHospital sqrt hs p best (av.length, x)) := by
  unfold scanHospital
  simp only []
  cases hx : hs[x]? with
  | none =>
    simp only []
    cases best with
    | none =>
      simp only [BestSpec] at hb ⊢
      intro j h' hosp' hj hh
      rcases getElem?_snoc_cases av x j h' hj with h1 | ⟨_, h2⟩
      · exact hb j h' hosp' h1 hh
      · subst h2
        rw [hx] at hh
        cases hh
    | some t =>
      obtain ⟨d, h, i⟩ := t
      simp only [BestSpec] at hb ⊢
      obtain ⟨h1, hosp, h2, h3, h4, h5⟩ := hb
      refine ⟨?_, hosp, h2, h3, h4, ?_⟩
      · have hi : i < av.length := by
          by_contra hc
          rw [List.getElem?_eq_none (by omega)] at h1
          cases h1
        rw [List.getElem?_append_left hi]
        exact h1
      · intro j h' hosp' hj hh he
        rcases getElem?_snoc_cases av x j h' hj with h6 | ⟨_, h7⟩
        · exact h5 j h' hosp' h6 hh he
        · subst h7
          rw [hx] at hh
          cases hh
  | some hospital =>
    simp only []
    by_cases hel : eligible hospital p
    · rw [if_pos hel]
      cases best with
      | none =>
        simp only [BestSpec] at hb ⊢
        refine ⟨by simp, hospital, hx, hel, rfl, ?_⟩
        intro j h' hosp' hj hh he
        rcases getElem?_snoc_cases av x j h' hj with h6 | ⟨h7, h8⟩
        · exact absurd he (hb j h' hosp' h6 hh)
        · subst h8
          rw [hx] at hh
          cases hh
          exact ⟨le_refl _, fun _ => by omega⟩
      | some t =>
        obtain ⟨d, h, i⟩ := t
        simp only [BestSpec] at hb
        obtain ⟨h1, hosp, h2, h3, h4, h5⟩ := hb
        have hi : i < av.length := by
          by_contra hc
          rw [List.getElem?_eq_none (by omega)] at h1
          cases h1
        by_cases hlt : calculateDistance sqrt p.location hospital.location < d
        · simp only [if_pos hlt, BestSpec]
          refine ⟨by simp, hospital, hx, hel, rfl, ?_⟩
          intro j h' hosp' hj hh he
          rcases getElem?_snoc_cases av x j h' hj with h6 | ⟨h7, h8⟩
          · have := h5 j h' hosp' h6 hh he
            refine ⟨le_of_lt (lt_of_lt_of_le hlt this.1), fun hc => ?_⟩
            rw [hc] at this
            exact absurd hlt (not_lt_of_le this.1)
          · subst h8
            rw [hx] at hh
            cases hh
            exact ⟨le_refl _, fun _ => by omega⟩
        · simp only [if_neg hlt, BestSpec]
          refine ⟨?_, hosp, h2, h3, h4, ?_⟩
          · rw [List.getElem?_append_left hi]
            exact h1
          · intro j h' hosp' hj hh he
            rcases getElem?_snoc_cases av x j h' hj with h6 | ⟨h7, h8⟩
            · exact h5 j h' hosp' h6 hh he
            · subst h8
              rw [hx] at hh
              cases hh
              exact ⟨not_lt.mp hlt, fun _ => by omega⟩
    · rw [if_neg hel]
      cases best with
      | none =>
        simp only [BestSpec] at hb ⊢
        intro j h' hosp' hj hh
        rcases getElem?_snoc_cases av x j h' hj with h1 | ⟨_, h2⟩
        · exact hb j h' hosp' h1 hh
        · subst h2
          rw [hx] at hh
          cases hh
          exact hel
      | some t =>
        obtain ⟨d, h, i⟩ := t
        simp only [BestSpec] at hb ⊢
        obtain ⟨h1, hosp, h2, h3, h4, h5⟩ := hb
        have hi : i < av.length := by
          by_contra hc
          rw [List.getElem?_eq_none (by omega)] at h1
          cases h1
        refine ⟨?_, hosp, h2, h3, h4, ?_⟩
        · rw [List.getElem?_append_left hi]
          exact h1
        · intro j h' hosp' hj hh he
          rcases getElem?_snoc_cases av x j h' hj with h6 | ⟨_, h7⟩
          · exact h5 j h' hosp' h6 hh he
          · subst h7
            rw [hx] at hh
            cases hh
            exact absurd he hel

theorem findBestHospital_spec (sqrt : α → α) (hs : List (Hospital α)) (p : Patient α)
    (av : List Nat) : BestSpec sqrt hs p av (findBestHospital sqrt hs av p) := by
  unfold findBestHospital
  induction av using List.reverseRecOn with
  | nil =>
    simp [BestSpec]
  | append_singleton l x ih =>
    rw [List.enum_append, List.foldl_append]
    simp only [List.enumFrom_singleton, List.foldl_cons, List.foldl_nil]
    have := bestSpec_snoc sqrt hs p l x _ ih
    simpa using this

/-! ### Greedy matching keeps every hospital within capacity -/

theorem assignBed_hospital (p : Patient α) (h : Hospital α) :
    (assignBed p h).2.currentPatients = h.currentPatients ∧
      (assignBed p h).2.capacity = h.capacity ∧ (assignBed p h).2.id = h.id ∧
      (assignBed p h).2.specialization = h.specialization ∧
      (assignBed p h).2.location = h.location ∧ (assignBed p h).2.doctors = h.doctors := by
  unfold assignBed
  cases h.availableBeds <;> simp

theorem assignDoctor_hospital (p : Patient α) (h : Hospital α) :
    (assignDoctor p h).2.currentPatients = h.currentPatients ∧
      (assignDoctor p h).2.capacity = h.capacity ∧ (assignDoctor p h).2.id = h.id ∧
      (assignDoctor p h).2.specialization = h.specialization ∧
      (assignDoctor p h).2.location = h.location := by
  unfold assignDoctor
  cases h.doctors.filter (fun d => decide (d.currentPatients < d.maxPatients)) <;> simp

theorem assignGreedy_hospitals (st : GreedyState α) (p : Nat) (patient : Patient α) (d : α)
    (h i : Nat) (bh : Hospital α) :
    (assignGreedy st p patient d h i bh).hospitals =
      st.hospitals.set h (greedyHospital patient d bh) := rfl

theorem greedyHospital_fields (patient : Patient α) (d : α) (bh : Hospital α) :
    (greedyHospital patient d bh).currentPatients = bh.currentPatients + 1 ∧
      (greedyHospital patient d bh).capacity = bh.capacity ∧
      (greedyHospital patient d bh).id = bh.id ∧
      (greedyHospital patient d bh).specialization = bh.specialization ∧
      (greedyHospital patient d bh).location = bh.location := by
  unfold greedyHospital
  simp only []
  have h1 := assignBed_hospital
    ({ patient with assignedHospital := some bh.id, travelDistance := d } : Patient α) bh
  have h2 := assignDoctor_hospital
    (assignBed ({ patient with assignedHospital := some bh.id, travelDistance := d } : Patient α) bh).1
    (assignBed ({ patient with assignedHospital := some bh.id, travelDistance := d } : Patient α) bh).2
  refine ⟨?_, ?_, ?_, ?_, ?_⟩
  · rw [h2.1, h1.1]
  · rw [h2.2.1, h1.2.1]
  · rw [h2.2.2.1, h1.2.2.1]
  · rw [h2.2.2.2.1, h1.2.2.2.1]
  · rw [h2.2.2.2.2, h1.2.2.2.2.1]

theorem greedyStep_withinCapacity (sqrt : α → α) (st : GreedyState α) (p : Nat)
    (hinv : WithinCapacity st.hospitals) : WithinCapacity (greedyStep sqrt st p).hospitals := by
  unfold greedyStep
  cases hp : st.patients[p]? with
  | none => exact hinv
  | some patient =>
    simp only []
    have hspec := findBestHospital_spec sqrt st.hospitals patient st.availableHospitals
    cases hb : findBestHospital sqrt st.hospitals st.availableHospitals patient with
    | none => exact hinv
    | some t =>
      obtain ⟨d, h, i⟩ := t
      rw [hb] at hspec
      simp only [BestSpec] at hspec
      obtain ⟨_, hosp, h2, h3, _, _⟩ := hspec
      simp only [h2, assignGreedy_hospitals]
      intro x hx
      rcases List.mem_or_eq_of_mem_set hx with hx | hx
      · exact hinv x hx
      · subst hx
        have hf := greedyHospital_fields patient d hosp
        rw [hf.1, hf.2.1]
        exact h3.1

theorem greedyRun_withinCapacity (sqrt : α → α) (sys : System α) (done : List Nat)
    (hinv : WithinCapacity sys.hospitals) : WithinCapacity (greedyRun sqrt sys done).hospitals := by
  unfold greedyRun
  induction done using List.reverseRecOn with
  | nil => exact hinv
  | append_singleton l x ih =>
    rw [List.foldl_append]
    exact greedyStep_withinCapacity sqrt _ x ih

/-- C1. If every hospital satisfies `0 ≤ currentPatients ≤ capacity` before
`greedyMatching` runs, every hospital satisfies it afterwards. -/
theorem greedyMatching_preserves_capacity (sqrt : α → α) (sys : System α)
    (hinv : ∀ h ∈ sys.hospitals, 0 ≤ h.currentPatients ∧ h.currentPatients ≤ h.capacity) :
    ∀ h ∈ (greedyMatching sqrt sys).system.hospitals,
      0 ≤ h.currentPatients ∧ h.currentPatients ≤ h.capacity := by
  intro h hh
  exact ⟨Nat.zero_le _, greedyRun_withinCapacity sqrt sys _ (fun x hx => (hinv x hx).2) h hh⟩
/-! ### Updating one object of a collection -/

theorem updateAt_length {β : Type} (l : List β) (i : Nat) (f : β → β) :
    (updateAt l i f).length = l.length := by
  unfold updateAt
  cases l[i]? <;> simp

theorem getElem?_updateAt {β : Type} (l : List β) (i k : Nat) (f : β → β) :
    (updateAt l i f)[k]? = if k = i then (l[k]?).map f else l[k]? := by
  unfold updateAt
  cases h : l[i]? with
  | none =>
    by_cases hk : k = i
    · subst hk
      simp [h]
    · simp [hk]
  | some x =>
    by_cases hk : k = i
    · subst hk
      simp only [if_pos, h, Option.map_some']
      rw [List.getElem?_set]
      simp
      by_contra hlen
      rw [List.getElem?_eq_none (by omega)] at h
      cases h
    · simp only [if_neg hk]
      exact List.getElem?_set_ne (fun hc => hk hc.symm)

theorem updateAt_updateAt {β : Type} (l : List β) (i : Nat) (f g : β → β) :
    updateAt (updateAt l i f) i g = updateAt l i (fun x => g (f x)) := by
  apply List.ext_getElem?
  intro k
  simp only [getElem?_updateAt]
  by_cases hk : k = i
  · subst hk
    cases l[k]? <;> simp
  · simp [hk]

theorem updateAt_id {β : Type} (l : List β) (i : Nat) : updateAt l i (fun x => x) = l := by
  apply List.ext_getElem?
  intro k
  simp only [getElem?_updateAt]
  by_cases hk : k = i <;> simp [hk]

theorem mem_updateAt {β : Type} (l : List β) (i : Nat) (f : β → β) (y : β)
    (hy : y ∈ updateAt l i f) : y ∈ l ∨ ∃ x, l[i]? = some x ∧ y = f x := by
  obtain ⟨k, hk⟩ := List.mem_iff_getElem?.mp hy
  rw [getElem?_updateAt] at hk
  by_cases hki : k = i
  · rw [if_pos hki] at hk
    subst hki
    cases hl : l[k]? with
    | none => rw [hl] at hk; cases hk
    | some x =>
      rw [hl] at hk
      simp at hk
      exact Or.inr ⟨x, rfl, hk.symm⟩
  · rw [if_neg hki] at hk
    exact Or.inl (List.mem_iff_getElem?.mpr ⟨k, hk⟩)

/-! ### The knapsack table -/

/-- Every entry `dp[w]` holds at most `w` patients and the table has `capacity + 1` entries. -/
theorem relax_bounded (item : Pick α) (dp : List (Cell α)) (w : Nat) (hw : 1 ≤ w)
    (hdp : ∀ (k : Nat) (c : Cell α), dp[k]? = some c → c.patients.length ≤ k) :
    ∀ (k : Nat) (c : Cell α), (relax item dp w)[k]? = some c → c.patients.length ≤ k := by
  unfold relax
  cases hb : dp[w - 1]? with
  | none => exact hdp
  | some below =>
    cases hh : dp[w]? with
    | none => exact hdp
    | some here =>
      simp only []
      split
      · intro k c hk
        rw [List.getElem?_set] at hk
        by_cases hkw : w = k
        · subst hkw
          rw [if_pos rfl] at hk
          split at hk
          · cases hk
            simp only [List.length_append, List.length_singleton]
            have := hdp (w - 1) below hb
            omega
          · cases hk
        · rw [if_neg hkw] at hk
          exact hdp k c hk
      · exact hdp

theorem relax_length (item : Pick α) (dp : List (Cell α)) (w : Nat) :
    (relax item dp w).length = dp.length := by
  unfold relax
  cases dp[w - 1]? with
  | none => rfl
  | some below =>
    cases dp[w]? with
    | none => rfl
    | some here =>
      simp only []
      split
      · simp
      · rfl

theorem mem_descending (capacity w : Nat) (h : w ∈ descending capacity) :
    1 ≤ w ∧ w ≤ capacity := by
  unfold descending at h
  simp only [List.mem_reverse, List.mem_map, List.mem_range] at h
  obtain ⟨k, hk, rfl⟩ := h
  omega

theorem considerPatient_bounded (capacity : Nat) (dp : List (Cell α)) (item : Pick α)
    (hdp : ∀ (k : Nat) (c : Cell α), dp[k]? = some c → c.patients.length ≤ k) :
    ∀ (k : Nat) (c : Cell α), (considerPatient capacity dp item)[k]? = some c →
      c.patients.length ≤ k := by
  unfold considerPatient
  have key : ∀ (ws : List Nat), (∀ w ∈ ws, 1 ≤ w) → ∀ (dp : List (Cell α)),
      (∀ (k : Nat) (c : Cell α), dp[k]? = some c → c.patients.length ≤ k) →
      ∀ (k : Nat) (c : Cell α), (ws.foldl (relax item) dp)[k]? = some c →
        c.patients.length ≤ k := by
    intro ws
    induction ws with
    | nil => intro _ dp h; exact h
    | cons w ws ih =>
      intro hws dp h
      simp only [List.foldl_cons]
      exact ih (fun v hv => hws v (List.mem_cons_of_mem _ hv)) _
        (relax_bounded item dp w (hws w (List.mem_cons_self _ _)) h)
  exact key _ (fun w hw => (mem_descending capacity w hw).1) dp hdp

theorem knapsackTable_bounded (capacity : Nat) (items : List (Pick α)) :
    ∀ (k : Nat) (c : Cell α), (knapsackTable capacity items)[k]? = some c →
      c.patients.length ≤ k := by
  unfold knapsackTable
  have key : ∀ (items : List (Pick α)) (dp : List (Cell α)),
      (∀ (k : Nat) (c : Cell α), dp[k]? = some c → c.patients.length ≤ k) →
      ∀ (k : Nat) (c : Cell α), (items.foldl (considerPatient capacity) dp)[k]? = some c →
        c.patients.length ≤ k := by
    intro items
    induction items with
    | nil => intro dp h; exact h
    | cons x xs ih =>
      intro dp h
      simp only [List.foldl_cons]
      exact ih _ (considerPatient_bounded capacity dp x h)
  apply key
  intro k c hk
  rw [List.getElem?_replicate] at hk
  split at hk
  · cases hk
    simp
  · cases hk

theorem optimalSolution_length_le (capacity : Nat) (items : List (Pick α)) :
    (optimalSolution capacity items).length ≤ capacity := by
  unfold optimalSolution
  cases h : (knapsackTable capacity items)[capacity]? with
  | none => simp
  | some cell => exact knapsackTable_bounded capacity items capacity cell h

/-! ### The knapsack table holds best selections -/

theorem totalDistance_append (l : List (Pick α)) (x : Pick α) :
    totalDistance (l ++ [x]) = totalDistance l + x.distance := by
  unfold totalDistance
  rw [List.foldl_append]
  rfl

theorem totalUrgency_append (l : List (Pick α)) (x : Pick α) :
    totalUrgency (l ++ [x]) = totalUrgency l + urgencyOrder x.patient.2.urgency := by
  unfold totalUrgency
  simp

theorem getElem?_relax (item : Pick α) (dp : List (Cell α)) (w k : Nat) :
    (relax item dp w)[k]? =
      if k = w then
        (match dp[w - 1]?, dp[w]? with
          | some below, some here => some (relaxCell item below here)
          | _, _ => dp[w]?)
      else dp[k]? := by
  unfold relax
  cases hb : dp[w - 1]? with
  | none =>
    simp only []
    by_cases hk : k = w
    · rw [if_pos hk, hk]
    · rw [if_neg hk]
  | some below =>
    cases hh : dp[w]? with
    | none =>
      simp only []
      by_cases hk : k = w
      · rw [if_pos hk, hk, hh]
      · rw [if_neg hk]
    | some here =>
      simp only []
      unfold relaxCell
      have hlt : w < dp.length := by
        by_contra hc
        rw [List.getElem?_eq_none (by omega)] at hh
        cases hh
      split
      · by_cases hk : k = w
        · subst hk
          rw [if_pos rfl, List.getElem?_set, if_pos rfl, if_pos hlt]
        · rw [if_neg hk, List.getElem?_set_ne (fun hc => hk hc.symm)]
      · by_cases hk : k = w
        · rw [if_pos hk, hk, hh]
        · rw [if_neg hk]

theorem descending_succ (n : Nat) : descending (n + 1) = (n + 1) :: descending n := by
  unfold descending
  rw [List.range_succ, List.map_append, List.reverse_append]
  rfl

theorem getElem?_fold_relax (item : Pick α) (n : Nat) :
    ∀ (dp : List (Cell α)) (k : Nat),
      ((descending n).foldl (relax item) dp)[k]? =
        if 1 ≤ k ∧ k ≤ n then
          (match dp[k - 1]?, dp[k]? with
            | some below, some here => some (relaxCell item below here)
            | _, _ => dp[k]?)
        else dp[k]? := by
  induction n with
  | zero =>
    intro dp k
    have : ¬ (1 ≤ k ∧ k ≤ 0) := by omega
    rw [if_neg this]
    rfl
  | succ n ih =>
    intro dp k
    rw [descending_succ, List.foldl_cons, ih]
    by_cases hk : 1 ≤ k ∧ k ≤ n
    · have hk' : 1 ≤ k ∧ k ≤ n + 1 := by omega
      rw [if_pos hk, if_pos hk', getElem?_relax, getElem?_relax,
        if_neg (by omega : ¬ k - 1 = n + 1), if_neg (by omega : ¬ k = n + 1)]
    · rw [if_neg hk, getElem?_relax]
      by_cases hk2 : k = n + 1
      · subst hk2
        rw [if_pos rfl, if_pos (by omega : 1 ≤ n + 1 ∧ n + 1 ≤ n + 1)]
      · rw [if_neg hk2, if_neg (by omega : ¬ (1 ≤ k ∧ k ≤ n + 1))]

theorem notBetter_refl (s : List (Pick α)) : NotBetter s s :=
  Or.inr ⟨rfl, le_refl _⟩

theorem notBetter_trans (s t u : List (Pick α)) (h1 : NotBetter s t) (h2 : NotBetter t u) :
    NotBetter s u := by
  unfold NotBetter at *
  rcases h1 with h1 | ⟨h1, h1'⟩ <;> rcases h2 with h2 | ⟨h2, h2'⟩
  · left; omega
  · left; omega
  · left; omega
  · right; exact ⟨by omega, le_trans h2' h1'⟩

theorem notBetter_snoc (s t : List (Pick α)) (x : Pick α) (h : NotBetter s t) :
    NotBetter (s ++ [x]) (t ++ [x]) := by
  unfold NotBetter at *
  simp only [totalUrgency_append, totalDistance_append]
  rcases h with h | ⟨h, h'⟩
  · left; omega
  · right; exact ⟨by omega, by linarith⟩

theorem relaxCell_spec (item : Pick α) (below here : Cell α)
    (hb : below.value = totalUrgency below.patients)
    (hh : here.value = totalUrgency here.patients) :
    ((relaxCell item below here).patients = here.patients ∨
        (relaxCell item below here).patients = below.patients ++ [item]) ∧
      (relaxCell item below here).value = totalUrgency (relaxCell item below here).patients ∧
      NotBetter here.patients (relaxCell item below here).patients ∧
      NotBetter (below.patients ++ [item]) (relaxCell item below here).patients := by
  unfold relaxCell
  split
  · rename_i hc
    refine ⟨Or.inr rfl, ?_, ?_, notBetter_refl _⟩
    · simp only [totalUrgency_append, hb]
    · unfold NotBetter
      simp only [totalUrgency_append, totalDistance_append]
      rcases hc with hc | ⟨hc1, hc2⟩
      · left; omega
      · right; exact ⟨by omega, le_of_lt hc2⟩
  · rename_i hc
    refine ⟨Or.inl rfl, hh, notBetter_refl _, ?_⟩
    unfold NotBetter
    simp only [totalUrgency_append, totalDistance_append]
    rw [not_or] at hc
    obtain ⟨hc1, hc2⟩ := hc
    rcases Nat.lt_or_ge (totalUrgency below.patients + urgencyOrder item.patient.2.urgency)
      (totalUrgency here.patients) with hlt | hge
    · left; exact hlt
    · right
      have heq : below.value + urgencyOrder item.patient.2.urgency = here.value := by omega
      refine ⟨by omega, ?_⟩
      by_contra hcon
      exact hc2 ⟨heq, not_le.mp hcon⟩

theorem sublist_snoc_cases {β : Type} (s l : List β) (x : β) (h : s.Sublist (l ++ [x])) :
    s.Sublist l ∨ ∃ r : List β, s = r ++ [x] ∧ r.Sublist l := by
  have h2 : s.reverse.Sublist (x :: l.reverse) := by
    have := List.reverse_sublist.mpr h
    simpa using this
  rcases List.sublist_cons_iff.mp h2 with h3 | ⟨r, h3, h4⟩
  · left
    exact List.reverse_sublist.mp h3
  · right
    refine ⟨r.reverse, ?_, ?_⟩
    · have := congrArg List.reverse h3
      simpa using this
    · have := List.reverse_sublist.mpr h4
      simpa using this

theorem bestTable_considerPatient (capacity : Nat) (done : List (Pick α)) (dp : List (Cell α))
    (item : Pick α) (h : BestTable capacity done dp) :
    BestTable capacity (done ++ [item]) (considerPatient capacity dp item) := by
  obtain ⟨hlen, hcells⟩ := h
  have hlen' : (considerPatient capacity dp item).length = capacity + 1 := by
    unfold considerPatient
    have key : ∀ (ws : List Nat) (dp : List (Cell α)),
        (ws.foldl (relax item) dp).length = dp.length := by
      intro ws
      induction ws with
      | nil => intro dp; rfl
      | cons w ws ih => intro dp; rw [List.foldl_cons, ih, relax_length]
    rw [key, hlen]
  refine ⟨hlen', ?_⟩
  intro w c hc
  unfold considerPatient at hc
  rw [getElem?_fold_relax] at hc
  have keep : ∀ (c : Cell α), dp[w]? = some c → w = 0 → BestCell (done ++ [item]) w c := by
    intro c hc hw
    obtain ⟨h1, h2, h3, h4⟩ := hcells w c hc
    refine ⟨h1.trans (List.sublist_append_left _ _), h2, h3, ?_⟩
    intro s hs hsl
    subst hw
    have : s = [] := List.eq_nil_of_length_eq_zero (by omega)
    subst this
    exact h4 [] (List.nil_sublist _) (by simp)
  by_cases hw : 1 ≤ w ∧ w ≤ capacity
  · rw [if_pos hw] at hc
    have hwl : w < dp.length := by omega
    have hwl' : w - 1 < dp.length := by omega
    obtain ⟨below, hbelow⟩ : ∃ b, dp[w - 1]? = some b :=
      ⟨dp[w - 1], List.getElem?_eq_getElem hwl'⟩
    obtain ⟨here, hhere⟩ : ∃ b, dp[w]? = some b := ⟨dp[w], List.getElem?_eq_getElem hwl⟩
    rw [hbelow, hhere] at hc
    simp only [Option.some.injEq] at hc
    subst hc
    obtain ⟨b1, b2, b3, b4⟩ := hcells (w - 1) below hbelow
    obtain ⟨h1, h2, h3, h4⟩ := hcells w here hhere
    obtain ⟨r1, r2, r3, r4⟩ := relaxCell_spec item below here b3 h3
    refine ⟨?_, ?_, r2, ?_⟩
    · rcases r1 with r1 | r1
      · rw [r1]; exact h1.trans (List.sublist_append_left _ _)
      · rw [r1]; exact List.Sublist.append b1 (List.Sublist.refl _)
    · rcases r1 with r1 | r1
      · rw [r1]; exact h2
      · rw [r1]; simp only [List.length_append, List.length_singleton]; omega
    · intro s hs hsl
      rcases sublist_snoc_cases s done item hs with hs1 | ⟨r, hr, hs2⟩
      · exact notBetter_trans _ _ _ (h4 s hs1 hsl) r3
      · subst hr
        have hrl : r.length ≤ w - 1 := by
          simp only [List.length_append, List.length_singleton] at hsl
          omega
        exact notBetter_trans _ _ _ (notBetter_snoc _ _ item (b4 r hs2 hrl)) r4
  · rw [if_neg hw] at hc
    have hwl : w < dp.length := by
      by_contra hcon
      rw [List.getElem?_eq_none (by omega)] at hc
      cases hc
    exact keep c hc (by omega)

theorem bestTable_knapsackTable (capacity : Nat) (items : List (Pick α)) :
    BestTable capacity items (knapsackTable capacity items) := by
  unfold knapsackTable
  induction items using List.reverseRecOn with
  | nil =>
    refine ⟨by simp, ?_⟩
    intro w c hc
    rw [List.foldl_nil, List.getElem?_replicate] at hc
    split at hc
    · cases hc
      refine ⟨List.Sublist.refl _, by simp, rfl, ?_⟩
      intro s hs _
      have : s = [] := List.sublist_nil.mp hs
      subst this
      exact notBetter_refl _
    · cases hc
  | append_singleton l x ih =>
    rw [List.foldl_append]
    exact bestTable_considerPatient capacity l _ x ih

theorem bestCell_optimalSolution (capacity : Nat) (items : List (Pick α)) :
    (optimalSolution capacity items).Sublist items ∧
      (optimalSolution capacity items).length ≤ capacity ∧
      ∀ s : List (Pick α), s.Sublist items → s.length ≤ capacity →
        NotBetter s (optimalSolution capacity items) := by
  obtain ⟨hlen, hcells⟩ := bestTable_knapsackTable capacity items
  unfold optimalSolution
  have hl : capacity < (knapsackTable capacity items).length := by omega
  rw [List.getElem?_eq_getElem hl]
  obtain ⟨h1, h2, _, h4⟩ := hcells capacity _ (List.getElem?_eq_getElem hl)
  exact ⟨h1, h2, h4⟩

/-- The knapsack table maximizes the urgency weight over the list it is given:
for the hospital that `knapsackDP` is processing, the patients selected from the
list `candidates` that the code builds (`availablePatients`, with their
distances) are at most `capacity` members of that list, and their total urgency
weight is the maximum over all selections of at most `capacity` members of that
list.  The list is filtered by `!p.assignedHospital`, so it also holds the
patients already assigned to a hospital with the identifier 0. -/
theorem knapsack_selection_maximizes_urgency (sqrt : α → α) (patients : List (Patient α))
    (group : List Nat) (hospital : Hospital α) :
    (optimalSolution hospital.capacity (candidates sqrt patients group hospital)).Sublist
        (candidates sqrt patients group hospital) ∧
      (optimalSolution hospital.capacity (candidates sqrt patients group hospital)).length ≤
        hospital.capacity ∧
      ∀ s : List (Pick α), s.Sublist (candidates sqrt patients group hospital) →
        s.length ≤ hospital.capacity →
        totalUrgency s ≤
          totalUrgency (optimalSolution hospital.capacity
            (candidates sqrt patients group hospital)) := by
  obtain ⟨h1, h2, h3⟩ :=
    bestCell_optimalSolution hospital.capacity (candidates sqrt patients group hospital)
  refine ⟨h1, h2, ?_⟩
  intro s hs hl
  rcases h3 s hs hl with h | ⟨h, _⟩
  · exact le_of_lt h
  · exact le_of_eq h

/-- The knapsack table breaks ties by distance over the list it is given: for the
hospital that `knapsackDP` is processing, every selection of at most `capacity`
members of the list `candidates` that the code builds, if it attains the total
urgency weight of the selected set, has a total distance to the hospital that is
at least that of the selected set. -/
theorem knapsack_selection_minimizes_distance (sqrt : α → α) (patients : List (Patient α))
    (group : List Nat) (hospital : Hospital α) :
    ∀ s : List (Pick α), s.Sublist (candidates sqrt patients group hospital) →
      s.length ≤ hospital.capacity →
      totalUrgency s =
        totalUrgency (optimalSolution hospital.capacity
          (candidates sqrt patients group hospital)) →
      totalDistance (optimalSolution hospital.capacity
          (candidates sqrt patients group hospital)) ≤ totalDistance s := by
  intro s hs hl heq
  rcases (bestCell_optimalSolution hospital.capacity
    (candidates sqrt patients group hospital)).2.2 s hs hl with h | ⟨_, h⟩
  · omega
  · exact h

/-- As long as no patient is assigned to a hospital with the identifier 0, the
candidate list that `knapsackDP` builds is the list of the still unassigned
patients of the group. -/
theorem unassignedCandidates_eq_candidates (sqrt : α → α) (patients : List (Patient α))
    (group : List Nat) (hospital : Hospital α)
    (h : ∀ p ∈ patients, p.assignedHospital ≠ some 0) :
    unassignedCandidates sqrt patients group hospital =
      candidates sqrt patients group hospital := by
  unfold unassignedCandidates
  rw [List.filter_eq_self]
  intro c hc
  unfold candidates availablePatients at hc
  rw [List.mem_map] at hc
  obtain ⟨e, he, rfl⟩ := hc
  rw [List.mem_filterMap] at he
  obtain ⟨i, _, hi⟩ := he
  cases hp : patients[i]? with
  | none =>
    rw [hp] at hi
    cases hi
  | some p =>
    rw [hp] at hi
    simp only at hi
    by_cases hn : notAssigned p = true
    · rw [if_pos hn] at hi
      cases hi
      have hmem : p ∈ patients := List.getElem?_mem hp
      have h0 := h p hmem
      unfold notAssigned at hn
      show p.assignedHospital.isNone = true
      cases ha : p.assignedHospital with
      | none => rfl
      | some k =>
        rw [ha] at hn h0
        simp only [decide_eq_true_eq] at hn
        subst hn
        exact absurd rfl h0
    · rw [if_neg hn] at hi
      cases hi

/-! ### `knapsackDP` keeps every hospital within capacity -/

theorem foldl_assignSelected_hospitals (hospitalId h : Nat) (sel : List (Pick α)) :
    ∀ st : KnapsackState α,
      (sel.foldl (assignSelected hospitalId h) st).hospitals =
        updateAt st.hospitals h (fun x =>
          { x with currentPatients := x.currentPatients + sel.length }) := by
  induction sel with
  | nil =>
    intro st
    simp only [List.foldl_nil, List.length_nil, Nat.add_zero]
    exact (updateAt_id _ _).symm
  | cons pick sel ih =>
    intro st
    rw [List.foldl_cons, ih]
    simp only [assignSelected, updateAt_updateAt, List.length_cons]
    congr 1
    funext x
    simp only [Hospital.mk.injEq, true_and, and_true]
    omega

theorem processHospital_hospitals (sqrt : α → α) (group : List Nat) (st : KnapsackState α)
    (h : Nat) :
    ∃ (n : Nat) (u : Hospital α → Option α),
      (∀ hosp : Hospital α, st.hospitals[h]? = some hosp → n ≤ hosp.capacity) ∧
      (processHospital sqrt group st h).hospitals =
        updateAt st.hospitals h (fun x =>
          { x with currentPatients := x.currentPatients + n, utilization := u x }) := by
  unfold processHospital
  cases hh : st.hospitals[h]? with
  | none =>
    refine ⟨0, fun x => x.utilization, ?_, ?_⟩
    · intro hosp hc
      cases hc
    · exact (updateAt_id _ _).symm
  | some hospital =>
    simp only []
    cases hc : candidates sqrt st.patients group hospital with
    | nil =>
      refine ⟨0, fun x => x.utilization, ?_, ?_⟩
      · intro hosp _
        exact Nat.zero_le _
      · exact (updateAt_id _ _).symm
    | cons item items =>
      simp only []
      refine ⟨(optimalSolution hospital.capacity (item :: items)).length,
        fun x => utilizationOf
          (x.currentPatients + (optimalSolution hospital.capacity (item :: items)).length)
          x.capacity, ?_, ?_⟩
      · intro hosp hhosp
        cases hhosp
        exact optimalSolution_length_le _ _
      · rw [foldl_assignSelected_hospitals, updateAt_updateAt]

theorem knapsackPending_processHospital (sqrt : α → α) (group : List Nat)
    (st : KnapsackState α) (rest : List String) (h : Nat) (pos : List Nat) (hnot : h ∉ pos)
    (hspec : ∀ x : Hospital α, st.hospitals[h]? = some x → x.specialization ∉ rest)
    (hinv : KnapsackPending rest (h :: pos) st.hospitals) :
    KnapsackPending rest pos (processHospital sqrt group st h).hospitals := by
  obtain ⟨n, u, hn, heq⟩ := processHospital_hospitals sqrt group st h
  rw [heq]
  intro k x hk
  rw [getElem?_updateAt] at hk
  by_cases hkh : k = h
  · subst hkh
    rw [if_pos rfl] at hk
    cases hx : st.hospitals[k]? with
    | none => rw [hx] at hk; cases hk
    | some y =>
      rw [hx] at hk
      simp only [Option.map_some', Option.some.injEq] at hk
      subst hk
      have h0 := (hinv k y hx).2 (Or.inr (List.mem_cons_self _ _))
      have hcap := hn y hx
      simp only []
      constructor
      · omega
      · intro hc
        rcases hc with hc | hc
        · exact absurd hc (hspec y hx)
        · exact absurd hc hnot
  · rw [if_neg hkh] at hk
    refine ⟨(hinv k x hk).1, ?_⟩
    intro hc
    apply (hinv k x hk).2
    rcases hc with hc | hc
    · exact Or.inl hc
    · exact Or.inr (List.mem_cons_of_mem _ hc)

theorem map_updateAt {β γ : Type} (l : List β) (i : Nat) (f : β → β) (g : β → γ)
    (hg : ∀ x, g (f x) = g x) : (updateAt l i f).map g = l.map g := by
  apply List.ext_getElem?
  intro k
  simp only [List.getElem?_map, getElem?_updateAt]
  by_cases hk : k = i
  · rw [if_pos hk]
    cases l[k]? with
    | none => rfl
    | some x => simp [hg]
  · rw [if_neg hk]

theorem getElem?_of_map_eq {β γ : Type} (l l' : List β) (g : β → γ) (h : l'.map g = l.map g)
    (k : Nat) (x' : β) (hx : l'[k]? = some x') : ∃ x, l[k]? = some x ∧ g x = g x' := by
  have h1 : (l'.map g)[k]? = some (g x') := by simp [List.getElem?_map, hx]
  rw [h, List.getElem?_map] at h1
  cases hl : l[k]? with
  | none => rw [hl] at h1; cases h1
  | some x =>
    rw [hl] at h1
    simp only [Option.map_some', Option.some.injEq] at h1
    exact ⟨x, rfl, h1⟩

theorem processHospital_keys (sqrt : α → α) (group : List Nat) (st : KnapsackState α)
    (h : Nat) :
    (processHospital sqrt group st h).hospitals.map hospitalKey =
      st.hospitals.map hospitalKey := by
  obtain ⟨n, u, _, heq⟩ := processHospital_hospitals sqrt group st h
  rw [heq]
  exact map_updateAt _ _ _ _ (fun _ => rfl)

theorem knapsackPending_fold (sqrt : α → α) (group : List Nat) (rest : List String) :
    ∀ (pos : List Nat), pos.Nodup → ∀ st : KnapsackState α,
      (∀ h ∈ pos, ∀ x : Hospital α, st.hospitals[h]? = some x → x.specialization ∉ rest) →
      KnapsackPending rest pos st.hospitals →
      KnapsackPending rest [] (pos.foldl (processHospital sqrt group) st).hospitals := by
  intro pos
  induction pos with
  | nil => intro _ st _ h; exact h
  | cons h pos ih =>
    intro hnd st hspec hinv
    rw [List.foldl_cons]
    rw [List.nodup_cons] at hnd
    apply ih hnd.2
    · intro k hk x hx
      obtain ⟨y, hy, hkey⟩ := getElem?_of_map_eq _ _ hospitalKey
        (processHospital_keys sqrt group st h) k x hx
      have := hspec k (List.mem_cons_of_mem _ hk) y hy
      simp only [hospitalKey, Prod.mk.injEq] at hkey
      rw [← hkey.2.1]
      exact this
    · exact knapsackPending_processHospital sqrt group st rest h pos hnd.1
        (hspec h (List.mem_cons_self _ _)) hinv

theorem mem_positionsWhere {β : Type} (p : β → Bool) (l : List β) (k : Nat) :
    k ∈ positionsWhere p l ↔ ∃ x, l[k]? = some x ∧ p x = true := by
  unfold positionsWhere
  simp only [List.mem_map, List.mem_filter, Prod.exists, exists_and_right, exists_eq_right,
    List.mk_mem_enum_iff_getElem?]

theorem nodup_positionsWhere {β : Type} (p : β → Bool) (l : List β) :
    (positionsWhere p l).Nodup := by
  unfold positionsWhere
  have h1 : ((l.enum.filter (fun e => p e.2)).map Prod.fst).Sublist (l.enum.map Prod.fst) :=
    List.Sublist.map _ (List.filter_sublist _)
  rw [List.enum_map_fst] at h1
  exact List.Nodup.sublist h1 (List.nodup_range _)

theorem processSpecialization_keys (sqrt : α → α) (st : KnapsackState α) (s : String) :
    (processSpecialization sqrt st s).hospitals.map hospitalKey =
      st.hospitals.map hospitalKey := by
  unfold processSpecialization
  split
  · rfl
  · simp only []
    generalize positionsWhere (fun h : Hospital α => decide (h.specialization = s))
      st.hospitals = pos
    generalize sortedGroup sqrt st.patients s _ _ = group
    have key : ∀ (pos : List Nat) (st : KnapsackState α),
        (pos.foldl (processHospital sqrt group) st).hospitals.map hospitalKey =
          st.hospitals.map hospitalKey := by
      intro pos
      induction pos with
      | nil => intro st; rfl
      | cons h pos ih => intro st; rw [List.foldl_cons, ih, processHospital_keys]
    exact key pos st

theorem knapsackPending_processSpecialization (sqrt : α → α) (st : KnapsackState α)
    (s : String) (rest : List String) (hs : s ∉ rest)
    (hinv : KnapsackPending (s :: rest) [] st.hospitals) :
    KnapsackPending rest [] (processSpecialization sqrt st s).hospitals := by
  have weaken : KnapsackPending rest [] st.hospitals := by
    intro k x hk
    refine ⟨(hinv k x hk).1, ?_⟩
    intro hc
    rcases hc with hc | hc
    · exact (hinv k x hk).2 (Or.inl (List.mem_cons_of_mem _ hc))
    · cases hc
  unfold processSpecialization
  split
  · exact weaken
  · simp only []
    apply knapsackPending_fold sqrt _ rest _ (nodup_positionsWhere _ _)
    · intro h hh x hx
      rw [mem_positionsWhere] at hh
      obtain ⟨y, hy, hp⟩ := hh
      rw [hx] at hy
      cases hy
      have : x.specialization = s := by simpa using hp
      rw [this]
      exact hs
    · intro k x hk
      refine ⟨(hinv k x hk).1, ?_⟩
      intro hc
      rcases hc with hc | hc
      · exact (hinv k x hk).2 (Or.inl (List.mem_cons_of_mem _ hc))
      · rw [mem_positionsWhere] at hc
        obtain ⟨y, hy, hp⟩ := hc
        rw [hk] at hy
        cases hy
        have : x.specialization = s := by simpa using hp
        exact (hinv k x hk).2 (Or.inl (this ▸ List.mem_cons_self _ _))

theorem specializationKeys_nodup (patients : List (Patient α)) :
    (specializationKeys patients).Nodup := by
  unfold specializationKeys
  have key : ∀ (ps : List (Patient α)) (keys : List String), keys.Nodup →
      (ps.foldl (fun keys p =>
        if p.requiredSpecialization ∈ keys then keys
        else keys ++ [p.requiredSpecialization]) keys).Nodup := by
    intro ps
    induction ps with
    | nil => intro keys h; exact h
    | cons p ps ih =>
      intro keys h
      rw [List.foldl_cons]
      apply ih
      split
      · exact h
      · rename_i hn
        rw [List.nodup_append]
        refine ⟨h, List.nodup_singleton _, ?_⟩
        intro a ha hb
        rw [List.mem_singleton] at hb
        subst hb
        exact hn ha
  exact key patients [] List.nodup_nil

theorem knapsackPending_foldSpecializations (sqrt : α → α) :
    ∀ (keys : List String), keys.Nodup → ∀ st : KnapsackState α,
      KnapsackPending keys [] st.hospitals →
      KnapsackPending [] [] (keys.foldl (processSpecialization sqrt) st).hospitals := by
  intro keys
  induction keys with
  | nil => intro _ st h; exact h
  | cons s keys ih =>
    intro hnd st hinv
    rw [List.foldl_cons]
    rw [List.nodup_cons] at hnd
    exact ih hnd.2 _ (knapsackPending_processSpecialization sqrt st s keys hnd.1 hinv)

/-- C2. The number of patients that `knapsackDP` selects for a hospital, the
length of `dp[capacity].patients`, is at most the capacity of the hospital, and
after `knapsackDP` every hospital satisfies `0 ≤ currentPatients ≤ capacity`. -/
theorem knapsackDP_within_capacity (sqrt : α → α) :
    (∀ (capacity : Nat) (items : List (Pick α)),
        (optimalSolution capacity items).length ≤ capacity) ∧
      ∀ (sys : System α), ∀ h ∈ (knapsackDP sqrt sys).system.hospitals,
        0 ≤ h.currentPatients ∧ h.currentPatients ≤ h.capacity := by
  refine ⟨optimalSolution_length_le, ?_⟩
  intro sys h hh
  refine ⟨Nat.zero_le _, ?_⟩
  have hinit : KnapsackPending (specializationKeys sys.patients) []
      (sys.hospitals.map resetHospital) := by
    intro k x hk
    rw [List.getElem?_map] at hk
    cases hy : sys.hospitals[k]? with
    | none => rw [hy] at hk; cases hk
    | some y =>
      rw [hy] at hk
      simp only [Option.map_some', Option.some.injEq] at hk
      subst hk
      exact ⟨Nat.zero_le _, fun _ => rfl⟩
  have hfinal := knapsackPending_foldSpecializations sqrt _
    (specializationKeys_nodup sys.patients)
    ({ patients := sys.patients, hospitals := sys.hospitals.map resetHospital,
       assignments := [] } : KnapsackState α) hinit
  obtain ⟨k, hk⟩ := List.mem_iff_getElem?.mp hh
  exact (hfinal k h hk).1

/-! ### The shared occupancy counters of `solve` -/

theorem updateAt_cons_zero {β : Type} (x : β) (xs : List β) (f : β → β) :
    updateAt (x :: xs) 0 f = f x :: xs := by
  simp [updateAt]

theorem updateAt_cons_succ {β : Type} (x : β) (xs : List β) (n : Nat) (f : β → β) :
    updateAt (x :: xs) (n + 1) f = x :: updateAt xs n f := by
  unfold updateAt
  simp only [List.getElem?_cons_succ]
  cases xs[n]? <;> rfl

theorem find?_eq_getElem?_findIdx {β : Type} (p : β → Bool) (l : List β) :
    l.find? p = l[l.findIdx p]? := by
  induction l with
  | nil => rfl
  | cons x xs ih =>
    rw [List.findIdx_cons, List.find?_cons]
    cases hp : p x with
    | true => simp
    | false => simp [ih]

theorem firstState_bump (hid hid' : Nat) (f : Hospital α → Hospital α)
    (hf : ∀ x, (f x).id = x.id) (l : List (Hospital α)) :
    firstState hid' (updateAt l (l.findIdx (fun h => decide (h.id = hid))) f) =
      if hid' = hid then (firstState hid l).map f else firstState hid' l := by
  unfold firstState
  induction l with
  | nil =>
    simp [updateAt]
  | cons x xs ih =>
    rw [List.findIdx_cons]
    by_cases hx : x.id = hid
    · simp only [hx, decide_True, cond_true, updateAt_cons_zero, List.find?_cons, hf]
      by_cases hh : hid' = hid
      · subst hh
        simp
      · have : ¬ hid = hid' := fun hc => hh hc.symm
        simp [hh, this]
    · simp only [hx, decide_False, cond_false, updateAt_cons_succ, List.find?_cons]
      by_cases hx' : x.id = hid'
      · have : ¬ hid' = hid := fun hc => hx (hc ▸ hx')
        simp [hx', this]
      · simp only [hx', decide_False]
        exact ih

theorem set_eq_updateAt {β : Type} (l : List β) (i : Nat) (x y : β) (h : l[i]? = some x) :
    l.set i y = updateAt l i (fun _ => y) := by
  unfold updateAt
  rw [h]

theorem updateAt_congr {β : Type} (l : List β) (i : Nat) (f g : β → β)
    (h : ∀ x, l[i]? = some x → f x = g x) : updateAt l i f = updateAt l i g := by
  unfold updateAt
  cases hx : l[i]? with
  | none => rfl
  | some x => simp only []; rw [h x hx]

theorem countP_snoc {β : Type} (p : β → Bool) (l : List β) (x : β) :
    (l ++ [x]).countP p = l.countP p + if p x then 1 else 0 := by
  rw [List.countP_append, List.countP_cons, List.countP_nil]
  simp

/-- Raising the counter of the first state that carries `hid`. -/
theorem bump_counters (states : List (Hospital α)) (hid : Nat) (state : Hospital α)
    (hstate : states[states.findIdx (fun h => decide (h.id = hid))]? = some state) :
    (∀ hid' : Nat,
        cpOf hid' (states.set (states.findIdx (fun h => decide (h.id = hid)))
          { state with currentPatients := state.currentPatients + 1 }) =
          if hid' = hid then cpOf hid' states + 1 else cpOf hid' states) ∧
      (∀ hid' : Nat,
        capOf hid' (states.set (states.findIdx (fun h => decide (h.id = hid)))
          { state with currentPatients := state.currentPatients + 1 }) = capOf hid' states) ∧
      cpOf hid states = state.currentPatients ∧ capOf hid states = state.capacity := by
  have hfirst : firstState hid states = some state := by
    unfold firstState
    rw [find?_eq_getElem?_findIdx]
    exact hstate
  have hset : states.set (states.findIdx (fun h => decide (h.id = hid)))
      { state with currentPatients := state.currentPatients + 1 } =
      updateAt states (states.findIdx (fun h => decide (h.id = hid)))
        (fun x => { x with currentPatients := x.currentPatients + 1 }) := by
    rw [set_eq_updateAt _ _ state _ hstate]
    apply updateAt_congr
    intro x hx
    rw [hstate] at hx
    cases hx
    rfl
  have hnew : ∀ hid' : Nat,
      firstState hid' (states.set (states.findIdx (fun h => decide (h.id = hid)))
        { state with currentPatients := state.currentPatients + 1 }) =
      if hid' = hid then some { state with currentPatients := state.currentPatients + 1 }
      else firstState hid' states := by
    intro hid'
    rw [hset, firstState_bump hid hid'
      (fun x => { x with currentPatients := x.currentPatients + 1 }) (fun _ => rfl), hfirst]
    rfl
  refine ⟨?_, ?_, ?_, ?_⟩
  · intro hid'
    unfold cpOf
    rw [hnew]
    by_cases hh : hid' = hid
    · subst hh
      simp only [if_pos, hfirst]
    · simp only [if_neg hh]
  · intro hid'
    unfold capOf
    rw [hnew]
    by_cases hh : hid' = hid
    · subst hh
      simp only [if_pos, hfirst]
    · simp only [if_neg hh]
  · unfold cpOf; rw [hfirst]
  · unfold capOf; rw [hfirst]

/-- The effect of one iteration of the edge loop of `solve`, for a recursive call
`recurse` that keeps the invariant and only raises counters. -/
theorem tryEdge_inv (initial : List (Hospital α)) (edges : List (Edge α))
    (hospitals : List (Hospital α))
    (recurse : List (Edge α) → α → SearchState α → SearchState α)
    (hrec : ∀ (cur : List (Edge α)) (cost : α) (st : SearchState α),
      SearchInv initial edges st → (∀ e ∈ cur, e ∈ edges) →
      (∀ hid : Nat, namedBy hid cur ≤ cpOf hid st.hospitalStates) →
      SearchInv initial edges (recurse cur cost st) ∧
        ∀ hid : Nat, cpOf hid st.hospitalStates ≤ cpOf hid (recurse cur cost st).hospitalStates)
    (patientId : Nat) (cur : List (Edge α)) (cost : α) (st : SearchState α) (a : Edge α)
    (ha : a ∈ edges) (hinv : SearchInv initial edges st) (hcur : ∀ e ∈ cur, e ∈ edges)
    (hfit : ∀ hid : Nat, namedBy hid cur ≤ cpOf hid st.hospitalStates) :
    SearchInv initial edges (tryEdge hospitals recurse patientId cur cost st a) ∧
      ∀ hid : Nat, cpOf hid st.hospitalStates ≤
        cpOf hid (tryEdge hospitals recurse patientId cur cost st a).hospitalStates := by
  unfold tryEdge
  split
  · cases hfind : hospitals.find? (fun h => decide (h.id = a.hospitalId)) with
    | none => exact ⟨hinv, fun _ => le_refl _⟩
    | some hospital =>
      simp only []
      have hid_eq : hospital.id = a.hospitalId := by
        have := List.find?_some hfind
        simpa using this
      rw [hid_eq]
      cases hstate : st.hospitalStates[st.hospitalStates.findIdx
          (fun h => decide (h.id = a.hospitalId))]? with
      | none => exact ⟨hinv, fun _ => le_refl _⟩
      | some state =>
        simp only []
        split
        · rename_i hlt
          obtain ⟨hcp, hcap, hcpa, hcapa⟩ := bump_counters st.hospitalStates a.hospitalId state hstate
          generalize st.hospitalStates.set _ _ = bumped at hcp hcap ⊢
          obtain ⟨i1, i2, i3⟩ := hinv
          have hinv1 : SearchInv initial edges { st with hospitalStates := bumped } := by
            refine ⟨?_, ?_, i3⟩
            · intro hid
              simp only [hcap]
              exact i1 hid
            · intro hid
              simp only [hcp]
              by_cases hh : hid = a.hospitalId
              · subst hh
                rw [if_pos rfl, ← i1, hcpa, hcapa]
                omega
              · rw [if_neg hh]
                exact i2 hid
          have hcur1 : ∀ e ∈ cur ++ [a], e ∈ edges := by
            intro e he
            rcases List.mem_append.mp he with he | he
            · exact hcur e he
            · rw [List.mem_singleton] at he
              rw [he]
              exact ha
          have hfit1 : ∀ hid : Nat, namedBy hid (cur ++ [a]) ≤
              cpOf hid ({ st with hospitalStates := bumped } : SearchState α).hospitalStates := by
            intro hid
            simp only [hcp]
            unfold namedBy
            rw [countP_snoc]
            have := hfit hid
            unfold namedBy at this
            by_cases hh : hid = a.hospitalId
            · subst hh
              simp only [decide_True, if_true]
              omega
            · have hh' : ¬ a.hospitalId = hid := fun hc => hh hc.symm
              simp only [hh', decide_False, if_neg hh]
              simpa using this
          obtain ⟨r1, r2⟩ := hrec (cur ++ [a])
            (cost + a.distance - (urgencyOrder a.urgency : α) * 10) _ hinv1 hcur1 hfit1
          refine ⟨r1, ?_⟩
          intro hid
          refine le_trans ?_ (r2 hid)
          simp only [hcp]
          split <;> omega
        · exact ⟨hinv, fun _ => le_refl _⟩
  · exact ⟨hinv, fun _ => le_refl _⟩

theorem foldl_tryEdge_inv (initial : List (Hospital α)) (edges : List (Edge α))
    (hospitals : List (Hospital α))
    (recurse : List (Edge α) → α → SearchState α → SearchState α)
    (hrec : ∀ (cur : List (Edge α)) (cost : α) (st : SearchState α),
      SearchInv initial edges st → (∀ e ∈ cur, e ∈ edges) →
      (∀ hid : Nat, namedBy hid cur ≤ cpOf hid st.hospitalStates) →
      SearchInv initial edges (recurse cur cost st) ∧
        ∀ hid : Nat, cpOf hid st.hospitalStates ≤ cpOf hid (recurse cur cost st).hospitalStates)
    (patientId : Nat) (cur : List (Edge α)) (cost : α) (hcur : ∀ e ∈ cur, e ∈ edges) :
    ∀ (es : List (Edge α)), (∀ e ∈ es, e ∈ edges) → ∀ st : SearchState α,
      SearchInv initial edges st →
      (∀ hid : Nat, namedBy hid cur ≤ cpOf hid st.hospitalStates) →
      SearchInv initial edges (es.foldl (tryEdge hospitals recurse patientId cur cost) st) ∧
        ∀ hid : Nat, cpOf hid st.hospitalStates ≤
          cpOf hid (es.foldl (tryEdge hospitals recurse patientId cur cost) st).hospitalStates := by
  intro es
  induction es with
  | nil => intro _ st hinv _; exact ⟨hinv, fun _ => le_refl _⟩
  | cons a es ih =>
    intro hes st hinv hfit
    rw [List.foldl_cons]
    obtain ⟨s1, s2⟩ := tryEdge_inv initial edges hospitals recurse hrec patientId cur cost st a
      (hes a (List.mem_cons_self _ _)) hinv hcur hfit
    obtain ⟨t1, t2⟩ := ih (fun e he => hes e (List.mem_cons_of_mem _ he)) _ s1
      (fun hid => le_trans (hfit hid) (s2 hid))
    exact ⟨t1, fun hid => le_trans (s2 hid) (t2 hid)⟩

/-- The invariant of `solve`: the shared variables stay consistent and the
counters never go down. -/
theorem solve_inv (initial : List (Hospital α)) (edges : List (Edge α))
    (hospitals : List (Hospital α)) :
    ∀ (remaining : List (Patient α)) (cur : List (Edge α)) (cost : α) (st : SearchState α),
      SearchInv initial edges st → (∀ e ∈ cur, e ∈ edges) →
      (∀ hid : Nat, namedBy hid cur ≤ cpOf hid st.hospitalStates) →
      SearchInv initial edges (solve hospitals edges remaining cur cost st) ∧
        ∀ hid : Nat, cpOf hid st.hospitalStates ≤
          cpOf hid (solve hospitals edges remaining cur cost st).hospitalStates := by
  intro remaining
  induction remaining with
  | nil =>
    intro cur cost st hinv hcur hfit
    unfold solve
    split
    · exact ⟨hinv, fun _ => le_refl _⟩
    · split
      · refine ⟨⟨hinv.1, hinv.2.1, ?_⟩, fun _ => le_refl _⟩
        intro sol hsol
        simp only [Option.some.injEq] at hsol
        subst hsol
        exact ⟨hcur, fun hid => le_trans (hfit hid) (hinv.2.1 hid)⟩
      · exact ⟨hinv, fun _ => le_refl _⟩
  | cons patient rest ih =>
    intro cur cost st hinv hcur hfit
    unfold solve
    split
    · exact ⟨hinv, fun _ => le_refl _⟩
    · exact foldl_tryEdge_inv initial edges hospitals _ ih patient.id cur cost hcur edges
        (fun _ h => h) st hinv hfit

theorem firstState_map (hid : Nat) (f : Hospital α → Hospital α) (hf : ∀ x, (f x).id = x.id)
    (l : List (Hospital α)) : firstState hid (l.map f) = (firstState hid l).map f := by
  unfold firstState
  induction l with
  | nil => rfl
  | cons x xs ih =>
    simp only [List.map_cons, List.find?_cons, hf]
    by_cases hx : x.id = hid
    · simp [hx]
    · simp only [hx, decide_False]
      exact ih

/-- The best solution of `search` consists of candidate edges and names no
identifier more often than the capacity of the first hospital that carries it. -/
theorem search_bestSolution (sqrt : α → α) (sys : System α) (sol : List (Edge α))
    (hsol : (search sqrt sys).bestSolution = some sol) :
    (∀ e ∈ sol, e ∈ allAssignments sqrt
        { sys with hospitals := sys.hospitals.map resetHospital }) ∧
      ∀ hid : Nat, namedBy hid sol ≤ capOf hid sys.hospitals := by
  have hcap : ∀ hid : Nat,
      capOf hid ((sys.hospitals.map resetHospital).map
        (fun h => { h with currentPatients := 0 })) = capOf hid sys.hospitals := by
    intro hid
    unfold capOf
    rw [List.map_map, firstState_map hid
      ((fun h : Hospital α => { h with currentPatients := 0 }) ∘ resetHospital) (fun _ => rfl)]
    cases firstState hid sys.hospitals <;> rfl
  have hcp : ∀ hid : Nat,
      cpOf hid ((sys.hospitals.map resetHospital).map
        (fun h => { h with currentPatients := 0 })) = 0 := by
    intro hid
    unfold cpOf
    rw [List.map_map, firstState_map hid
      ((fun h : Hospital α => { h with currentPatients := 0 }) ∘ resetHospital) (fun _ => rfl)]
    cases firstState hid sys.hospitals <;> rfl
  have hinit : SearchInv ((sys.hospitals.map resetHospital).map
      (fun h => { h with currentPatients := 0 }))
      (allAssignments sqrt { sys with hospitals := sys.hospitals.map resetHospital })
      { bestSolution := none, bestCost := none,
        hospitalStates := (sys.hospitals.map resetHospital).map
          (fun h => { h with currentPatients := 0 }) } := by
    refine ⟨fun _ => rfl, ?_, ?_⟩
    · intro hid
      simp only [hcp]
      exact Nat.zero_le _
    · intro sol hs
      cases hs
  obtain ⟨⟨_, _, r3⟩, _⟩ := solve_inv _ _ (sys.hospitals.map resetHospital)
    ((sys.patients.enum.insertionSort urgencyBefore).map Prod.snd) [] 0 _ hinit
    (fun _ he => by cases he) (fun hid => by simp [namedBy])
  obtain ⟨h1, h2⟩ := r3 sol hsol
  exact ⟨h1, fun hid => by rw [← hcap]; exact h2 hid⟩

/-! ### Applying the best solution -/

theorem findIdx_of_map_eq {β γ : Type} (g : β → γ) (q : γ → Bool) :
    ∀ (l l' : List β), l.map g = l'.map g →
      l.findIdx (fun x => q (g x)) = l'.findIdx (fun x => q (g x)) := by
  intro l
  induction l with
  | nil =>
    intro l' h
    cases l' with
    | nil => rfl
    | cons y ys => simp at h
  | cons x xs ih =>
    intro l' h
    cases l' with
    | nil => simp at h
    | cons y ys =>
      simp only [List.map_cons, List.cons.injEq] at h
      rw [List.findIdx_cons, List.findIdx_cons, h.1, ih ys h.2]

theorem findIdx_id_of_keys (l l' : List (Hospital α)) (h : l.map hospitalKey = l'.map hospitalKey)
    (c : Nat) :
    l.findIdx (fun x => decide (x.id = c)) = l'.findIdx (fun x => decide (x.id = c)) :=
  findIdx_of_map_eq hospitalKey (fun key => decide (key.1 = c)) l l' h

theorem namedBy_snoc_le (hid : Nat) (done : List (Edge α)) (a : Edge α) :
    namedBy hid done ≤ namedBy hid (done ++ [a]) := by
  unfold namedBy
  rw [countP_snoc]
  omega

theorem applyEdge_hospitals (sys : System α) (a : Edge α) :
    (applyEdge sys a).hospitals = sys.hospitals ∨
      ((sys.hospitals.findIdx (fun h => decide (h.id = a.hospitalId))) < sys.hospitals.length ∧
        (applyEdge sys a).hospitals =
          updateAt sys.hospitals (sys.hospitals.findIdx (fun h => decide (h.id = a.hospitalId)))
            (fun x =>
              { x with currentPatients := x.currentPatients + 1,
                       utilization := utilizationOf (x.currentPatients + 1) x.capacity })) := by
  unfold applyEdge
  cases hp : sys.patients.findIdx? (fun p => decide (p.id = a.patientId)) with
  | none => left; rfl
  | some p =>
    cases hh : sys.hospitals.findIdx? (fun h => decide (h.id = a.hospitalId)) with
    | none => left; rfl
    | some h =>
      right
      rw [List.findIdx?_eq_some_iff_findIdx_eq] at hh
      simp only []
      rw [hh.2]
      exact ⟨hh.1, rfl⟩

theorem applyInv_applyEdge (reset : List (Hospital α)) (done : List (Edge α)) (sys : System α)
    (a : Edge α) (hinv : ApplyInv reset done sys.hospitals) :
    ApplyInv reset (done ++ [a]) (applyEdge sys a).hospitals := by
  obtain ⟨hkeys, hcp⟩ := hinv
  have weaken : ApplyInv reset (done ++ [a]) sys.hospitals := by
    refine ⟨hkeys, ?_⟩
    intro k x hx
    refine le_trans (hcp k x hx) ?_
    split
    · exact namedBy_snoc_le _ _ _
    · exact le_refl _
  rcases applyEdge_hospitals sys a with h | ⟨hlt, h⟩
  · rw [h]; exact weaken
  · rw [h]
    refine ⟨?_, ?_⟩
    · refine Eq.trans ?_ hkeys
      apply map_updateAt
      intro x
      rfl
    · intro k x hx
      rw [getElem?_updateAt] at hx
      by_cases hk : k = sys.hospitals.findIdx (fun h => decide (h.id = a.hospitalId))
      · rw [if_pos hk] at hx
        cases hy : sys.hospitals[k]? with
        | none => rw [hy] at hx; cases hx
        | some y =>
          rw [hy] at hx
          simp only [Option.map_some', Option.some.injEq] at hx
          subst hx
          simp only []
          have hyid : y.id = a.hospitalId := by
            have hy' := hy
            rw [hk] at hy'
            have := List.findIdx_of_getElem?_eq_some hy'
            simpa using this
          have hfirst : reset.findIdx (fun h => decide (h.id = y.id)) = k := by
            rw [hk, hyid]
            exact (findIdx_id_of_keys _ _ hkeys a.hospitalId).symm
          have hold := hcp k y hy
          rw [if_pos hfirst] at hold
          rw [if_pos hfirst]
          unfold namedBy at hold ⊢
          rw [countP_snoc]
          simp only [hyid, decide_True, if_true]
          rw [hyid] at hold
          omega
      · rw [if_neg hk] at hx
        exact weaken.2 k x hx

theorem applyInv_foldl (reset : List (Hospital α)) :
    ∀ (sol done : List (Edge α)) (sys : System α), ApplyInv reset done sys.hospitals →
      ApplyInv reset (done ++ sol) (sol.foldl applyEdge sys).hospitals := by
  intro sol
  induction sol with
  | nil => intro done sys h; simpa using h
  | cons a sol ih =>
    intro done sys h
    rw [List.foldl_cons]
    have := ih (done ++ [a]) _ (applyInv_applyEdge reset done sys a h)
    simpa using this

theorem applyInv_reset (hs : List (Hospital α)) :
    ApplyInv (hs.map resetHospital) [] (hs.map resetHospital) := by
  refine ⟨rfl, ?_⟩
  intro k x hx
  rw [List.getElem?_map] at hx
  cases hy : hs[k]? with
  | none => rw [hy] at hx; cases hx
  | some y =>
    rw [hy] at hx
    simp only [Option.map_some', Option.some.injEq] at hx
    subst hx
    exact Nat.zero_le _

/-- The hospitals that `branchAndBound` leaves behind, in terms of the records it returns. -/
theorem branchAndBound_applyInv (sqrt : α → α) (sys : System α) :
    ApplyInv (sys.hospitals.map resetHospital) (branchAndBound sqrt sys).assignments
      (branchAndBound sqrt sys).system.hospitals := by
  unfold branchAndBound
  cases (search sqrt sys).bestSolution with
  | none => exact applyInv_reset _
  | some sol =>
    simp only []
    have := applyInv_foldl (sys.hospitals.map resetHospital) sol []
      { sys with hospitals := sys.hospitals.map resetHospital } (applyInv_reset _)
    simpa using this

theorem branchAndBound_namedBy (sqrt : α → α) (sys : System α) (hid : Nat) :
    namedBy hid (branchAndBound sqrt sys).assignments ≤ capOf hid sys.hospitals := by
  unfold branchAndBound
  cases hs : (search sqrt sys).bestSolution with
  | none => simp [namedBy]
  | some sol => exact (search_bestSolution sqrt sys sol hs).2 hid

theorem capOf_eq_of_first (l : List (Hospital α)) (k : Nat) (x : Hospital α)
    (hx : l[k]? = some x) (hk : l.findIdx (fun h => decide (h.id = x.id)) = k) :
    capOf x.id l = x.capacity := by
  unfold capOf firstState
  rw [find?_eq_getElem?_findIdx, hk, hx]

theorem capOf_reset (hid : Nat) (l : List (Hospital α)) :
    capOf hid (l.map resetHospital) = capOf hid l := by
  unfold capOf
  rw [firstState_map hid resetHospital (fun _ => rfl)]
  cases firstState hid l <;> rfl

theorem findIdx_of_nodup_ids (l : List (Hospital α)) (hnd : (l.map (fun h => h.id)).Nodup)
    (k : Nat) (x : Hospital α) (hx : l[k]? = some x) :
    l.findIdx (fun h => decide (h.id = x.id)) = k := by
  induction l generalizing k with
  | nil => simp at hx
  | cons y ys ih =>
    rw [List.map_cons, List.nodup_cons] at hnd
    rw [List.findIdx_cons]
    cases k with
    | zero =>
      simp only [List.getElem?_cons_zero, Option.some.injEq] at hx
      subst hx
      simp
    | succ k =>
      simp only [List.getElem?_cons_succ] at hx
      have hne : y.id ≠ x.id := by
        intro hc
        apply hnd.1
        rw [hc]
        exact List.mem_map.mpr ⟨x, List.mem_iff_getElem?.mpr ⟨k, hx⟩, rfl⟩
      simp only [hne, decide_False, cond_false]
      rw [ih hnd.2 k hx]

/-- C3. For every input with unique hospital identifiers, after `branchAndBound`
every hospital satisfies `0 ≤ currentPatients ≤ capacity`, and no hospital is
named by more records of the applied best solution than its capacity. -/
theorem branchAndBound_within_capacity (sqrt : α → α) (sys : System α)
    (hids : (sys.hospitals.map (fun h => h.id)).Nodup) :
    ∀ h ∈ (branchAndBound sqrt sys).system.hospitals,
      (0 ≤ h.currentPatients ∧ h.currentPatients ≤ h.capacity) ∧
        namedBy h.id (branchAndBound sqrt sys).assignments ≤ h.capacity := by
  intro h hh
  obtain ⟨hkeys, hcp⟩ := branchAndBound_applyInv sqrt sys
  obtain ⟨k, hk⟩ := List.mem_iff_getElem?.mp hh
  obtain ⟨y, hy, hkey⟩ := getElem?_of_map_eq _ _ hospitalKey hkeys k h hk
  simp only [hospitalKey, Prod.mk.injEq] at hkey
  have hids' : ((sys.hospitals.map resetHospital).map (fun h => h.id)).Nodup := by
    rw [List.map_map]
    exact hids
  have hfirst := findIdx_of_nodup_ids _ hids' k y hy
  have hcapy : capOf y.id (sys.hospitals.map resetHospital) = y.capacity :=
    capOf_eq_of_first _ k y hy hfirst
  have hnamed : namedBy h.id (branchAndBound sqrt sys).assignments ≤ h.capacity := by
    have hc : capOf h.id sys.hospitals = h.capacity := by
      rw [← capOf_reset, ← hkey.1, hcapy, hkey.2.2.1]
    have := branchAndBound_namedBy sqrt sys h.id
    rw [hc] at this
    exact this
  refine ⟨⟨Nat.zero_le _, ?_⟩, hnamed⟩
  have := hcp k h hk
  rw [← hkey.1, hfirst, if_pos rfl, hkey.1] at this
  exact le_trans this hnamed

/-! ### Assigned patients are matched to their required specialization -/

theorem assignBed_patient (p : Patient α) (h : Hospital α) :
    patientKey (assignBed p h).1 = patientKey p ∧
      (assignBed p h).1.assignedHospital = p.assignedHospital ∧
      (assignBed p h).1.travelDistance = p.travelDistance ∧
      (assignBed p h).1.assignedDoctor = p.assignedDoctor := by
  unfold assignBed
  cases h.availableBeds <;> simp [patientKey]

theorem assignDoctor_patient (p : Patient α) (h : Hospital α) :
    patientKey (assignDoctor p h).1 = patientKey p ∧
      (assignDoctor p h).1.assignedHospital = p.assignedHospital ∧
      (assignDoctor p h).1.travelDistance = p.travelDistance ∧
      (assignDoctor p h).1.bedNumber = p.bedNumber := by
  unfold assignDoctor
  cases h.doctors.filter (fun d => decide (d.currentPatients < d.maxPatients)) <;>
    simp [patientKey]

theorem greedyPatient_fields (patient : Patient α) (d : α) (bh : Hospital α) :
    patientKey (greedyPatient patient d bh) = patientKey patient ∧
      (greedyPatient patient d bh).assignedHospital = some bh.id ∧
      (greedyPatient patient d bh).travelDistance = d := by
  unfold greedyPatient
  simp only []
  have h1 := assignBed_patient
    ({ patient with assignedHospital := some bh.id, travelDistance := d } : Patient α) bh
  have h2 := assignDoctor_patient
    (assignBed ({ patient with assignedHospital := some bh.id, travelDistance := d } : Patient α) bh).1
    (assignBed ({ patient with assignedHospital := some bh.id, travelDistance := d } : Patient α) bh).2
  refine ⟨?_, ?_, ?_⟩
  · rw [h2.1, h1.1]; rfl
  · rw [h2.2.1, h1.2.1]
  · rw [h2.2.2.1, h1.2.2.1]

theorem assignGreedy_patients (st : GreedyState α) (p : Nat) (patient : Patient α) (d : α)
    (h i : Nat) (bh : Hospital α) :
    (assignGreedy st p patient d h i bh).patients =
      st.patients.set p (greedyPatient patient d bh) := rfl

/-- Either the step leaves the state alone, or it assigns the patient at `p` to
the hospital that the scan has chosen. -/
theorem greedyStep_cases (sqrt : α → α) (st : GreedyState α) (p : Nat) :
    greedyStep sqrt st p = st ∨
      ∃ (patient : Patient α) (d : α) (h i : Nat) (bh : Hospital α),
        st.patients[p]? = some patient ∧
        findBestHospital sqrt st.hospitals st.availableHospitals patient = some (d, h, i) ∧
        st.hospitals[h]? = some bh ∧
        greedyStep sqrt st p = assignGreedy st p patient d h i bh := by
  unfold greedyStep
  cases hp : st.patients[p]? with
  | none => left; rfl
  | some patient =>
    simp only []
    cases hb : findBestHospital sqrt st.hospitals st.availableHospitals patient with
    | none => left; rfl
    | some t =>
      obtain ⟨d, h, i⟩ := t
      simp only []
      cases hh : st.hospitals[h]? with
      | none => left; rfl
      | some bh =>
        right
        exact ⟨patient, d, h, i, bh, rfl, hb, hh, rfl⟩

theorem map_set_of_eq {β γ : Type} (l : List β) (i : Nat) (x y : β) (g : β → γ)
    (hx : l[i]? = some x) (hg : g y = g x) : (l.set i y).map g = l.map g := by
  rw [set_eq_updateAt l i x y hx]
  apply List.ext_getElem?
  intro k
  simp only [List.getElem?_map, getElem?_updateAt]
  by_cases hk : k = i
  · subst hk
    rw [if_pos rfl, hx]
    simp [hg]
  · rw [if_neg hk]

theorem matchInv_greedyStep (sqrt : α → α) (keys : List (Nat × String × Nat × Location α))
    (pkeys : List (Nat × String × Urgency × Location α)) (st : GreedyState α) (p : Nat)
    (hinv : MatchInv keys pkeys st.patients st.hospitals) :
    MatchInv keys pkeys (greedyStep sqrt st p).patients (greedyStep sqrt st p).hospitals := by
  rcases greedyStep_cases sqrt st p with h | ⟨patient, d, h, i, bh, hp, hb, hh, heq⟩
  · rw [h]; exact hinv
  · rw [heq, assignGreedy_patients, assignGreedy_hospitals]
    obtain ⟨i1, i2, i3⟩ := hinv
    have hspec := findBestHospital_spec sqrt st.hospitals patient st.availableHospitals
    rw [hb] at hspec
    simp only [BestSpec] at hspec
    obtain ⟨_, hosp, h2, h3, _, _⟩ := hspec
    rw [hh] at h2
    cases h2
    have hgf := greedyHospital_fields patient d bh
    have hpf := greedyPatient_fields patient d bh
    have hkey : hospitalKey (greedyHospital patient d bh) = hospitalKey bh := by
      unfold hospitalKey
      rw [hgf.2.1, hgf.2.2.1, hgf.2.2.2.1, hgf.2.2.2.2]
    refine ⟨?_, ?_, ?_⟩
    · rw [map_set_of_eq _ _ bh _ hospitalKey hh hkey]
      exact i1
    · rw [map_set_of_eq _ _ patient _ patientKey hp hpf.1]
      exact i2
    · intro x hx
      rcases List.mem_or_eq_of_mem_set hx with hx | hx
      · exact i3 x hx
      · subst hx
        intro hid hhid
        rw [hpf.2.1] at hhid
        cases hhid
        refine ⟨hospitalKey bh, ?_, rfl, ?_⟩
        · rw [← i1]
          exact List.mem_map.mpr ⟨bh, List.mem_iff_getElem?.mpr ⟨h, hh⟩, rfl⟩
        · have : (greedyPatient patient d bh).requiredSpecialization =
              patient.requiredSpecialization := by
            have := hpf.1
            simp only [patientKey, Prod.mk.injEq] at this
            exact this.2.1
          rw [this]
          exact h3.2

theorem matchInv_greedyRun (sqrt : α → α) (sys : System α) (done : List Nat)
    (hreset : ∀ p ∈ sys.patients, p.assignedHospital = none) :
    MatchInv (sys.hospitals.map hospitalKey) (sys.patients.map patientKey)
      (greedyRun sqrt sys done).patients (greedyRun sqrt sys done).hospitals := by
  unfold greedyRun
  induction done using List.reverseRecOn with
  | nil =>
    refine ⟨rfl, rfl, ?_⟩
    intro p hp hid hhid
    rw [hreset p hp] at hhid
    cases hhid
  | append_singleton l x ih =>
    rw [List.foldl_append]
    exact matchInv_greedyStep sqrt _ _ _ x ih

theorem getElem?_map_key {β γ : Type} (l : List β) (g : β → γ) (ks : List γ)
    (h : l.map g = ks) (i : Nat) (x : β) (hx : l[i]? = some x) : ks[i]? = some (g x) := by
  rw [← h, List.getElem?_map, hx]
  rfl

theorem matchInv_assignSelected (keys : List (Nat × String × Nat × Location α))
    (pkeys : List (Nat × String × Urgency × Location α)) (hid h : Nat) (s : String)
    (hkey : ∃ key ∈ keys, key.1 = hid ∧ key.2.1 = s) (st : KnapsackState α) (pick : Pick α)
    (hpick : ∀ key, pkeys[pick.patient.1]? = some key → key.2.1 = s)
    (hinv : MatchInv keys pkeys st.patients st.hospitals) :
    MatchInv keys pkeys (assignSelected hid h st pick).patients
      (assignSelected hid h st pick).hospitals := by
  obtain ⟨i1, i2, i3⟩ := hinv
  unfold assignSelected
  refine ⟨?_, ?_, ?_⟩
  · refine Eq.trans ?_ i1
    apply map_updateAt
    intro x
    rfl
  · refine Eq.trans ?_ i2
    apply map_updateAt
    intro x
    rfl
  · intro y hy
    rcases mem_updateAt _ _ _ y hy with hy | ⟨x, hx, hyx⟩
    · exact i3 y hy
    · subst hyx
      intro hid' hh
      simp only [Option.some.injEq] at hh
      subst hh
      obtain ⟨key, hk1, hk2, hk3⟩ := hkey
      refine ⟨key, hk1, hk2, ?_⟩
      rw [hk3]
      have := hpick _ (getElem?_map_key _ patientKey pkeys i2 _ x hx)
      exact this.symm

theorem matchInv_foldl_assignSelected (keys : List (Nat × String × Nat × Location α))
    (pkeys : List (Nat × String × Urgency × Location α)) (hid h : Nat) (s : String)
    (hkey : ∃ key ∈ keys, key.1 = hid ∧ key.2.1 = s) :
    ∀ (sel : List (Pick α)) (st : KnapsackState α),
      (∀ pick ∈ sel, ∀ key, pkeys[pick.patient.1]? = some key → key.2.1 = s) →
      MatchInv keys pkeys st.patients st.hospitals →
      MatchInv keys pkeys (sel.foldl (assignSelected hid h) st).patients
        (sel.foldl (assignSelected hid h) st).hospitals := by
  intro sel
  induction sel with
  | nil => intro st _ h; exact h
  | cons pick sel ih =>
    intro st hsel hinv
    rw [List.foldl_cons]
    apply ih
    · intro q hq
      exact hsel q (List.mem_cons_of_mem _ hq)
    · exact matchInv_assignSelected keys pkeys hid h s hkey st pick
        (hsel pick (List.mem_cons_self _ _)) hinv

theorem mem_candidates (sqrt : α → α) (patients : List (Patient α)) (group : List Nat)
    (hospital : Hospital α) (pick : Pick α)
    (h : pick ∈ candidates sqrt patients group hospital) :
    pick.patient.1 ∈ group ∧ patients[pick.patient.1]? = some pick.patient.2 ∧
      notAssigned pick.patient.2 = true ∧
      pick.distance = calculateDistance sqrt pick.patient.2.location hospital.location := by
  unfold candidates availablePatients at h
  rw [List.mem_map] at h
  obtain ⟨e, he, rfl⟩ := h
  rw [List.mem_filterMap] at he
  obtain ⟨i, hi, hie⟩ := he
  cases hp : patients[i]? with
  | none => rw [hp] at hie; cases hie
  | some p =>
    rw [hp] at hie
    simp only [] at hie
    split at hie
    · rename_i hna
      cases hie
      exact ⟨hi, hp, hna, rfl⟩
    · cases hie

theorem optimalSolution_subset (capacity : Nat) (items : List (Pick α)) (pick : Pick α)
    (h : pick ∈ optimalSolution capacity items) : pick ∈ items :=
  (bestCell_optimalSolution capacity items).1.subset h

theorem matchInv_processHospital (sqrt : α → α)
    (keys : List (Nat × String × Nat × Location α))
    (pkeys : List (Nat × String × Urgency × Location α)) (s : String) (group : List Nat)
    (hgroup : ∀ i ∈ group, ∀ key, pkeys[i]? = some key → key.2.1 = s)
    (st : KnapsackState α) (h : Nat) (hh : ∀ key, keys[h]? = some key → key.2.1 = s)
    (hinv : MatchInv keys pkeys st.patients st.hospitals) :
    MatchInv keys pkeys (processHospital sqrt group st h).patients
      (processHospital sqrt group st h).hospitals := by
  unfold processHospital
  cases hhosp : st.hospitals[h]? with
  | none => exact hinv
  | some hospital =>
    simp only []
    cases hc : candidates sqrt st.patients group hospital with
    | nil => exact hinv
    | cons item items =>
      simp only []
      have hkeyh := getElem?_map_key _ hospitalKey keys hinv.1 h hospital hhosp
      have hkey : ∃ key ∈ keys, key.1 = hospital.id ∧ key.2.1 = s :=
        ⟨hospitalKey hospital, List.mem_iff_getElem?.mpr ⟨h, hkeyh⟩, rfl, hh _ hkeyh⟩
      have hsel : ∀ pick ∈ optimalSolution hospital.capacity (item :: items),
          ∀ key, pkeys[pick.patient.1]? = some key → key.2.1 = s := by
        intro pick hpick key hk
        have h1 := optimalSolution_subset _ _ pick hpick
        rw [← hc] at h1
        exact hgroup _ (mem_candidates sqrt _ _ _ pick h1).1 key hk
      obtain ⟨j1, j2, j3⟩ := matchInv_foldl_assignSelected keys pkeys hospital.id h s hkey
        (optimalSolution hospital.capacity (item :: items)) st hsel hinv
      refine ⟨?_, j2, j3⟩
      refine Eq.trans ?_ j1
      apply map_updateAt
      intro x
      rfl

theorem mem_sortedGroup (sqrt : α → α) (patients : List (Patient α)) (s : String)
    (first : Hospital α) (others : List (Hospital α)) (i : Nat)
    (h : i ∈ sortedGroup sqrt patients s first others) :
    ∃ x, patients[i]? = some x ∧ x.requiredSpecialization = s := by
  unfold sortedGroup at h
  rw [List.mem_map] at h
  obtain ⟨e, he, rfl⟩ := h
  rw [List.mem_insertionSort, List.mem_filter] at he
  obtain ⟨h1, h2⟩ := he
  refine ⟨e.2, List.mem_enum_iff_getElem?.mp h1, ?_⟩
  simpa using h2

theorem matchInv_processSpecialization (sqrt : α → α)
    (keys : List (Nat × String × Nat × Location α))
    (pkeys : List (Nat × String × Urgency × Location α)) (st : KnapsackState α) (s : String)
    (hinv : MatchInv keys pkeys st.patients st.hospitals) :
    MatchInv keys pkeys (processSpecialization sqrt st s).patients
      (processSpecialization sqrt st s).hospitals := by
  unfold processSpecialization
  split
  · exact hinv
  · rename_i first others _
    simp only []
    have hgroup : ∀ i ∈ sortedGroup sqrt st.patients s first others,
        ∀ key, pkeys[i]? = some key → key.2.1 = s := by
      intro i hi key hk
      obtain ⟨x, hx, hxs⟩ := mem_sortedGroup sqrt _ _ _ _ i hi
      have := getElem?_map_key _ patientKey pkeys hinv.2.1 i x hx
      rw [this] at hk
      cases hk
      exact hxs
    have hpos : ∀ h ∈ positionsWhere (fun h : Hospital α => decide (h.specialization = s))
        st.hospitals, ∀ key, keys[h]? = some key → key.2.1 = s := by
      intro h hh key hk
      rw [mem_positionsWhere] at hh
      obtain ⟨x, hx, hxs⟩ := hh
      have := getElem?_map_key _ hospitalKey keys hinv.1 h x hx
      rw [this] at hk
      cases hk
      simpa using hxs
    generalize positionsWhere (fun h : Hospital α => decide (h.specialization = s))
      st.hospitals = pos at hpos
    generalize sortedGroup sqrt st.patients s first others = group at hgroup
    clear * - hinv hgroup hpos
    induction pos generalizing st with
    | nil => exact hinv
    | cons h pos ih =>
      rw [List.foldl_cons]
      apply ih
      · exact matchInv_processHospital sqrt keys pkeys s group hgroup st h
          (hpos h (List.mem_cons_self _ _)) hinv
      · intro k hk
        exact hpos k (List.mem_cons_of_mem _ hk)

theorem hospitalKey_reset (hs : List (Hospital α)) :
    (hs.map resetHospital).map hospitalKey = hs.map hospitalKey := by
  rw [List.map_map]
  rfl

theorem matchInv_foldSpecializations (sqrt : α → α)
    (keys : List (Nat × String × Nat × Location α))
    (pkeys : List (Nat × String × Urgency × Location α)) :
    ∀ (ks : List String) (st : KnapsackState α), MatchInv keys pkeys st.patients st.hospitals →
      MatchInv keys pkeys (ks.foldl (processSpecialization sqrt) st).patients
        (ks.foldl (processSpecialization sqrt) st).hospitals := by
  intro ks
  induction ks with
  | nil => intro st h; exact h
  | cons s ks ih =>
    intro st h
    rw [List.foldl_cons]
    exact ih _ (matchInv_processSpecialization sqrt keys pkeys st s h)

theorem matchInv_knapsackDP (sqrt : α → α) (sys : System α)
    (hreset : ∀ p ∈ sys.patients, p.assignedHospital = none) :
    MatchInv (sys.hospitals.map hospitalKey) (sys.patients.map patientKey)
      (knapsackDP sqrt sys).system.patients (knapsackDP sqrt sys).system.hospitals := by
  unfold knapsackDP
  simp only []
  apply matchInv_foldSpecializations
  refine ⟨hospitalKey_reset _, rfl, ?_⟩
  intro p hp hid hhid
  rw [hreset p hp] at hhid
  cases hhid

theorem mem_allAssignments (sqrt : α → α) (sys : System α) (e : Edge α)
    (h : e ∈ allAssignments sqrt sys) :
    ∃ q ∈ sys.patients, ∃ x ∈ sys.hospitals,
      x.specialization = q.requiredSpecialization ∧ e.patientId = q.id ∧
      e.hospitalId = x.id ∧
      e.distance = calculateDistance sqrt q.location x.location ∧ e.urgency = q.urgency := by
  unfold allAssignments at h
  rw [List.mem_flatMap] at h
  obtain ⟨q, hq, he⟩ := h
  rw [List.mem_map] at he
  obtain ⟨x, hx, rfl⟩ := he
  rw [List.mem_filter] at hx
  exact ⟨q, hq, x, hx.1, by simpa using hx.2, rfl, rfl, rfl, rfl⟩

theorem applyEdge_patients (sys : System α) (a : Edge α) :
    (applyEdge sys a).patients = sys.patients ∨
      ∃ (i : Nat) (x : Patient α), sys.patients[i]? = some x ∧ x.id = a.patientId ∧
        (applyEdge sys a).patients =
          updateAt sys.patients i (fun y =>
            { y with assignedHospital := some a.hospitalId, travelDistance := a.distance }) := by
  unfold applyEdge
  cases hp : sys.patients.findIdx? (fun p => decide (p.id = a.patientId)) with
  | none => left; rfl
  | some p =>
    cases hh : sys.hospitals.findIdx? (fun h => decide (h.id = a.hospitalId)) with
    | none => left; rfl
    | some h =>
      right
      rw [List.findIdx?_eq_some_iff_getElem] at hp
      obtain ⟨hlt, hpx, _⟩ := hp
      refine ⟨p, sys.patients[p], List.getElem?_eq_getElem hlt, by simpa using hpx, rfl⟩

theorem matchInv_applyEdge (keys : List (Nat × String × Nat × Location α))
    (pkeys : List (Nat × String × Urgency × Location α))
    (hnd : (pkeys.map Prod.fst).Nodup) (sys : System α) (a : Edge α)
    (ha : ∃ pk ∈ pkeys, ∃ hk ∈ keys, hk.2.1 = pk.2.1 ∧ a.patientId = pk.1 ∧ a.hospitalId = hk.1)
    (hinv : MatchInv keys pkeys sys.patients sys.hospitals) :
    MatchInv keys pkeys (applyEdge sys a).patients (applyEdge sys a).hospitals := by
  obtain ⟨i1, i2, i3⟩ := hinv
  have hkeys : (applyEdge sys a).hospitals.map hospitalKey = keys := by
    rcases applyEdge_hospitals sys a with h | ⟨_, h⟩
    · rw [h]; exact i1
    · rw [h]
      refine Eq.trans ?_ i1
      apply map_updateAt
      intro x
      rfl
  rcases applyEdge_patients sys a with h | ⟨i, x, hx, hxid, h⟩
  · rw [h]; exact ⟨hkeys, i2, i3⟩
  · rw [h]
    refine ⟨hkeys, ?_, ?_⟩
    · refine Eq.trans ?_ i2
      apply map_updateAt
      intro y
      rfl
    · intro y hy
      rcases mem_updateAt _ _ _ y hy with hy | ⟨z, hz, hyz⟩
      · exact i3 y hy
      · subst hyz
        rw [hx] at hz
        cases hz
        intro hid hh
        simp only [Option.some.injEq] at hh
        subst hh
        obtain ⟨pk, hpk, hk, hhk, hspec, hpid, hhid⟩ := ha
        refine ⟨hk, hhk, hhid.symm, ?_⟩
        have hxk : patientKey x ∈ pkeys := by
          rw [← i2]
          exact List.mem_map.mpr ⟨x, List.mem_iff_getElem?.mpr ⟨i, hx⟩, rfl⟩
        have hsame : patientKey x = pk := by
          apply List.inj_on_of_nodup_map hnd hxk hpk
          show x.id = pk.1
          rw [hxid, hpid]
        rw [hspec, ← hsame]
        rfl

theorem matchInv_foldl_applyEdge (keys : List (Nat × String × Nat × Location α))
    (pkeys : List (Nat × String × Urgency × Location α))
    (hnd : (pkeys.map Prod.fst).Nodup) :
    ∀ (sol : List (Edge α)) (sys : System α),
      (∀ a ∈ sol, ∃ pk ∈ pkeys, ∃ hk ∈ keys,
        hk.2.1 = pk.2.1 ∧ a.patientId = pk.1 ∧ a.hospitalId = hk.1) →
      MatchInv keys pkeys sys.patients sys.hospitals →
      MatchInv keys pkeys (sol.foldl applyEdge sys).patients
        (sol.foldl applyEdge sys).hospitals := by
  intro sol
  induction sol with
  | nil => intro sys _ h; exact h
  | cons a sol ih =>
    intro sys hsol hinv
    rw [List.foldl_cons]
    apply ih
    · intro b hb
      exact hsol b (List.mem_cons_of_mem _ hb)
    · exact matchInv_applyEdge keys pkeys hnd sys a (hsol a (List.mem_cons_self _ _)) hinv

theorem matchInv_branchAndBound (sqrt : α → α) (sys : System α)
    (hreset : ∀ p ∈ sys.patients, p.assignedHospital = none)
    (hnd : (sys.patients.map (fun p => p.id)).Nodup) :
    MatchInv (sys.hospitals.map hospitalKey) (sys.patients.map patientKey)
      (branchAndBound sqrt sys).system.patients (branchAndBound sqrt sys).system.hospitals := by
  have hinit : MatchInv (sys.hospitals.map hospitalKey) (sys.patients.map patientKey)
      sys.patients (sys.hospitals.map resetHospital) := by
    refine ⟨hospitalKey_reset _, rfl, ?_⟩
    intro p hp hid hhid
    rw [hreset p hp] at hhid
    cases hhid
  unfold branchAndBound
  cases hs : (search sqrt sys).bestSolution with
  | none => exact hinit
  | some sol =>
    simp only []
    refine matchInv_foldl_applyEdge _ _ ?_ sol
      { sys with hospitals := sys.hospitals.map resetHospital } ?_ hinit
    · rw [List.map_map]
      exact hnd
    · intro a ha
      obtain ⟨q, hq, x, hx, h1, h2, h3, _, _⟩ :=
        mem_allAssignments sqrt _ a ((search_bestSolution sqrt sys sol hs).1 a ha)
      refine ⟨patientKey q, List.mem_map.mpr ⟨q, hq, rfl⟩, hospitalKey x, ?_, h1, h2, h3⟩
      rw [← hospitalKey_reset]
      exact List.mem_map.mpr ⟨x, hx, rfl⟩

theorem specializationRespected_of_matchInv (sys out : System α)
    (hids : (sys.hospitals.map (fun h => h.id)).Nodup)
    (hinv : MatchInv (sys.hospitals.map hospitalKey) (sys.patients.map patientKey)
      out.patients out.hospitals) : SpecializationRespected out := by
  obtain ⟨i1, _, i3⟩ := hinv
  intro p hp hid hh
  obtain ⟨key, hkey, hk1, hk2⟩ := i3 p hp hid hh
  have hnd : ((sys.hospitals.map hospitalKey).map Prod.fst).Nodup := by
    rw [List.map_map]
    exact hids
  constructor
  · rw [← i1, List.mem_map] at hkey
    obtain ⟨h, hh1, hh2⟩ := hkey
    refine ⟨h, hh1, ?_⟩
    rw [← hk1, ← hh2]
    rfl
  · intro h hh1 hh2
    have hmem : hospitalKey h ∈ sys.hospitals.map hospitalKey := by
      rw [← i1]
      exact List.mem_map.mpr ⟨h, hh1, rfl⟩
    have hsame : hospitalKey h = key := by
      apply List.inj_on_of_nodup_map hnd hmem hkey
      show h.id = key.1
      rw [hh2, hk1]
    rw [← hk2, ← hsame]
    rfl

/-- C4. Starting from a reset state (every patient unassigned) with unique
hospital identifiers, the patient identifiers being unique as the data model
has them, after any one of
`greedyMatching`, `knapsackDP` and `branchAndBound` every patient whose
`assignedHospital` is not `null` is assigned to a hospital whose specialization
equals the patient's `requiredSpecialization`. -/
theorem allocators_respect_specialization (sqrt : α → α) (sys : System α)
    (hreset : ∀ p ∈ sys.patients, p.assignedHospital = none)
    (hids : (sys.hospitals.map (fun h => h.id)).Nodup)
    (hpids : (sys.patients.map (fun p => p.id)).Nodup) :
    SpecializationRespected (greedyMatching sqrt sys).system ∧
      SpecializationRespected (knapsackDP sqrt sys).system ∧
      SpecializationRespected (branchAndBound sqrt sys).system :=
  ⟨specializationRespected_of_matchInv sys _ hids
      (matchInv_greedyRun sqrt sys (sortedPatients sys.patients) hreset),
    specializationRespected_of_matchInv sys _ hids (matchInv_knapsackDP sqrt sys hreset),
    specializationRespected_of_matchInv sys _ hids
      (matchInv_branchAndBound sqrt sys hreset hpids)⟩

/-! ### The choice of `greedyMatching` -/

theorem availInv_init (sys : System α) : AvailInv (greedyInit sys) := by
  refine ⟨List.pairwise_lt_range _, ?_⟩
  intro j x hx _
  have hj : j < sys.hospitals.length := by
    by_contra hc
    have : (greedyInit sys).hospitals[j]? = none := List.getElem?_eq_none (by
      show sys.hospitals.length ≤ j
      omega)
    rw [this] at hx
    cases hx
  exact List.mem_range.mpr hj

theorem availInv_greedyStep (sqrt : α → α) (st : GreedyState α) (p : Nat)
    (hinv : AvailInv st) : AvailInv (greedyStep sqrt st p) := by
  rcases greedyStep_cases sqrt st p with h | ⟨patient, d, h, i, bh, hp, hb, hh, heq⟩
  · rw [h]; exact hinv
  · rw [heq]
    obtain ⟨i1, i2⟩ := hinv
    have hspec := findBestHospital_spec sqrt st.hospitals patient st.availableHospitals
    rw [hb] at hspec
    simp only [BestSpec] at hspec
    obtain ⟨hav, _, _, _, _, _⟩ := hspec
    have hgf := greedyHospital_fields patient d bh
    have hav' : (assignGreedy st p patient d h i bh).availableHospitals =
        if (greedyHospital patient d bh).capacity ≤ (greedyHospital patient d bh).currentPatients
        then st.availableHospitals.eraseIdx i else st.availableHospitals := rfl
    refine ⟨?_, ?_⟩
    · rw [hav']
      split
      · exact List.Pairwise.sublist (List.eraseIdx_sublist _ _) i1
      · exact i1
    · intro j x hx hlt
      rw [assignGreedy_hospitals] at hx
      rw [hav']
      by_cases hj : j = h
      · subst hj
        rw [List.getElem?_set] at hx
        simp only [if_true] at hx
        split at hx
        · cases hx
          rw [if_neg (by omega)]
          exact List.mem_iff_getElem?.mpr ⟨i, hav⟩
        · cases hx
      · rw [List.getElem?_set_ne (fun hc => hj hc.symm)] at hx
        have hmem := i2 j x hx hlt
        split
        · rw [List.mem_eraseIdx_iff_getElem?]
          obtain ⟨k, hk⟩ := List.mem_iff_getElem?.mp hmem
          refine ⟨k, ?_, hk⟩
          intro hc
          subst hc
          rw [hav] at hk
          cases hk
          exact hj rfl
        · exact hmem

theorem availInv_greedyRun (sqrt : α → α) (sys : System α) (done : List Nat) :
    AvailInv (greedyRun sqrt sys done) := by
  unfold greedyRun
  induction done using List.reverseRecOn with
  | nil => exact availInv_init sys
  | append_singleton l x ih =>
    rw [List.foldl_append]
    exact availInv_greedyStep sqrt _ x ih

theorem pairwise_lt_index (l : List Nat) (hl : l.Pairwise (fun a b => a < b)) (i j a b : Nat)
    (hi : l[i]? = some a) (hj : l[j]? = some b) (hij : i ≤ j) : a ≤ b := by
  rcases Nat.eq_or_lt_of_le hij with h | h
  · subst h
    rw [hi] at hj
    cases hj
    exact le_refl _
  · have hjl : j < l.length := by
      by_contra hc
      rw [List.getElem?_eq_none (by omega)] at hj
      cases hj
    have hil : i < l.length := by omega
    have := List.pairwise_iff_getElem.mp hl i j hil hjl h
    rw [List.getElem?_eq_getElem hil] at hi
    rw [List.getElem?_eq_getElem hjl] at hj
    cases hi
    cases hj
    exact le_of_lt this

/-- In a state that satisfies the invariant, a successful scan returns the
nearest eligible hospital of the whole hospital list, the first one among
equally near ones. -/
theorem findBestHospital_nearest (sqrt : α → α) (st : GreedyState α) (hinv : AvailInv st)
    (patient : Patient α) (d : α) (h i : Nat)
    (hb : findBestHospital sqrt st.hospitals st.availableHospitals patient = some (d, h, i)) :
    ∃ bh, NearestEligible sqrt st.hospitals patient h bh ∧
      d = calculateDistance sqrt patient.location bh.location := by
  have hspec := findBestHospital_spec sqrt st.hospitals patient st.availableHospitals
  rw [hb] at hspec
  simp only [BestSpec] at hspec
  obtain ⟨hav, bh, h2, h3, h4, h5⟩ := hspec
  refine ⟨bh, ⟨h2, h3, ?_⟩, h4⟩
  intro j x hx hel
  obtain ⟨k, hk⟩ := List.mem_iff_getElem?.mp (hinv.2 j x hx hel.1)
  obtain ⟨m1, m2⟩ := h5 k j x hk hx hel
  rw [h4] at m1 m2
  exact ⟨m1, fun hc => pairwise_lt_index _ hinv.1 i k h j hav hk (m2 hc)⟩

theorem findBestHospital_none (sqrt : α → α) (st : GreedyState α) (hinv : AvailInv st)
    (patient : Patient α)
    (hb : findBestHospital sqrt st.hospitals st.availableHospitals patient = none) :
    ∀ (j : Nat) (x : Hospital α), st.hospitals[j]? = some x → ¬ eligible x patient := by
  have hspec := findBestHospital_spec sqrt st.hospitals patient st.availableHospitals
  rw [hb] at hspec
  simp only [BestSpec] at hspec
  intro j x hx hel
  obtain ⟨k, hk⟩ := List.mem_iff_getElem?.mp (hinv.2 j x hx hel.1)
  exact hspec k j x hk hx hel

theorem sortedPatients_perm (patients : List (Patient α)) :
    (sortedPatients patients).Perm (List.range patients.length) := by
  unfold sortedPatients
  have h := (List.perm_insertionSort urgencyBefore patients.enum).map Prod.fst
  rw [List.enum_map_fst] at h
  exact h

theorem sortedPatients_nodup (patients : List (Patient α)) :
    (sortedPatients patients).Nodup :=
  (sortedPatients_perm patients).nodup_iff.mpr (List.nodup_range _)

theorem mem_sortedPatients (patients : List (Patient α)) (p : Nat) :
    p ∈ sortedPatients patients ↔ p < patients.length := by
  rw [(sortedPatients_perm patients).mem_iff, List.mem_range]

theorem greedyStep_patients_length (sqrt : α → α) (st : GreedyState α) (q : Nat) :
    (greedyStep sqrt st q).patients.length = st.patients.length := by
  rcases greedyStep_cases sqrt st q with h | ⟨patient, d, h, i, bh, _, _, _, heq⟩
  · rw [h]
  · rw [heq, assignGreedy_patients, List.length_set]

theorem greedyStep_patients_frame (sqrt : α → α) (st : GreedyState α) (q p : Nat)
    (hne : q ≠ p) : (greedyStep sqrt st q).patients[p]? = st.patients[p]? := by
  rcases greedyStep_cases sqrt st q with h | ⟨patient, d, h, i, bh, _, _, _, heq⟩
  · rw [h]
  · rw [heq, assignGreedy_patients, List.getElem?_set_ne hne]

theorem foldl_greedyStep_patients_frame (sqrt : α → α) (p : Nat) :
    ∀ (qs : List Nat) (st : GreedyState α), p ∉ qs →
      (qs.foldl (greedyStep sqrt) st).patients[p]? = st.patients[p]? := by
  intro qs
  induction qs with
  | nil => intro st _; rfl
  | cons q qs ih =>
    intro st hp
    rw [List.foldl_cons, ih _ (fun hc => hp (List.mem_cons_of_mem _ hc))]
    exact greedyStep_patients_frame sqrt st q p (fun hc => hp (hc ▸ List.mem_cons_self _ _))

theorem foldl_greedyStep_patients_length (sqrt : α → α) :
    ∀ (qs : List Nat) (st : GreedyState α),
      (qs.foldl (greedyStep sqrt) st).patients.length = st.patients.length := by
  intro qs
  induction qs with
  | nil => intro st; rfl
  | cons q qs ih =>
    intro st
    rw [List.foldl_cons, ih, greedyStep_patients_length]

/-- C10. Take the moment `greedyMatching` processes the patient at position `p`
(after the patients `before`).  Either no hospital has room and the required
specialization, and the run leaves the patient record as it was; or the patient
is assigned to a hospital that at that moment had `currentPatients < capacity`
and the required specialization, whose distance to the patient is at most that
of every such hospital, and which is the first in hospital list order among
those at that distance, and the run leaves the patient with `assignedHospital`
that hospital and `travelDistance` that distance. -/
theorem greedyMatching_chooses_nearest (sqrt : α → α) (sys : System α)
    (before after : List Nat) (p : Nat)
    (hrun : sortedPatients sys.patients = before ++ p :: after) :
    ∃ patient : Patient α, (greedyRun sqrt sys before).patients[p]? = some patient ∧
      (((∀ (j : Nat) (x : Hospital α), (greedyRun sqrt sys before).hospitals[j]? = some x →
            ¬ eligible x patient) ∧
          (greedyMatching sqrt sys).system.patients[p]? = some patient) ∨
        ∃ (h : Nat) (bh : Hospital α) (assigned : Patient α),
          NearestEligible sqrt (greedyRun sqrt sys before).hospitals patient h bh ∧
            (greedyMatching sqrt sys).system.patients[p]? = some assigned ∧
            assigned.assignedHospital = some bh.id ∧
            assigned.travelDistance = calculateDistance sqrt patient.location bh.location) := by
  have hnd := sortedPatients_nodup sys.patients
  rw [hrun] at hnd
  have hpafter : p ∉ after := by
    have := (List.nodup_append.mp hnd).2.1
    exact (List.nodup_cons.mp this).1
  have hplt : p < sys.patients.length := by
    rw [← mem_sortedPatients, hrun]
    simp
  have hfinal : (greedyMatching sqrt sys).system.patients[p]? =
      (greedyStep sqrt (greedyRun sqrt sys before) p).patients[p]? := by
    unfold greedyMatching
    simp only []
    rw [hrun]
    unfold greedyRun
    rw [List.foldl_append, List.foldl_cons]
    exact foldl_greedyStep_patients_frame sqrt p after _ hpafter
  have hlen : (greedyRun sqrt sys before).patients.length = sys.patients.length := by
    unfold greedyRun
    rw [foldl_greedyStep_patients_length]
    rfl
  have hinv := availInv_greedyRun sqrt sys before
  generalize greedyRun sqrt sys before = st at hfinal hlen hinv
  have hpst : p < st.patients.length := by omega
  refine ⟨st.patients[p], List.getElem?_eq_getElem hpst, ?_⟩
  rw [hfinal]
  have hget : st.patients[p]? = some st.patients[p] := List.getElem?_eq_getElem hpst
  cases hb : findBestHospital sqrt st.hospitals st.availableHospitals st.patients[p] with
  | none =>
    left
    refine ⟨findBestHospital_none sqrt st hinv _ hb, ?_⟩
    unfold greedyStep
    rw [hget]
    simp only [hb]
    exact hget
  | some t =>
    obtain ⟨d, h, i⟩ := t
    right
    obtain ⟨bh, hne, hd⟩ := findBestHospital_nearest sqrt st hinv _ d h i hb
    have hstep : greedyStep sqrt st p = assignGreedy st p st.patients[p] d h i bh := by
      unfold greedyStep
      rw [hget]
      simp only [hb, hne.1]
    have hpf := greedyPatient_fields st.patients[p] d bh
    refine ⟨h, bh, greedyPatient st.patients[p] d bh, hne, ?_, hpf.2.1, ?_⟩
    · rw [hstep, assignGreedy_patients, List.getElem?_set]
      simp [hpst]
    · rw [hpf.2.2, hd]

/-! ### The allocators on concrete inputs -/

/-- Witness for C1: the scenario of the specification. -/
theorem greedyMatching_preserves_capacity_witness :
    (∀ h ∈ scenario.hospitals, 0 ≤ h.currentPatients ∧ h.currentPatients ≤ h.capacity) ∧
      ∀ h ∈ (greedyMatching ratSqrt scenario).system.hospitals,
        0 ≤ h.currentPatients ∧ h.currentPatients ≤ h.capacity :=
  ⟨by decide!, greedyMatching_preserves_capacity ratSqrt scenario (by decide!)⟩

/-- Witness for C3: two hospitals with the identifiers 1 and 2. -/
theorem branchAndBound_within_capacity_witness :
    (crossed.hospitals.map (fun h => h.id)).Nodup ∧
      ∀ h ∈ (branchAndBound ratSqrt crossed).system.hospitals,
        (0 ≤ h.currentPatients ∧ h.currentPatients ≤ h.capacity) ∧
          namedBy h.id (branchAndBound ratSqrt crossed).assignments ≤ h.capacity :=
  ⟨by decide!, branchAndBound_within_capacity ratSqrt crossed (by decide!)⟩

/-- Why `branchAndBound` needs the unique patient identifiers of the data model:
on `duplicatePatientIds`, where two patients carry the identifier 7 against the
data model, `find(p => p.id === assignment.patientId)` returns the first of them for both edges, and that patient, who requires
cardiology, ends in the hospital 2, whose specialization is neurology. -/
theorem branchAndBound_mismatch_with_duplicate_patient_ids :
    (∀ p ∈ duplicatePatientIds.patients, p.assignedHospital = none) ∧
      (duplicatePatientIds.hospitals.map (fun h => h.id)).Nodup ∧
      ∃ p ∈ (branchAndBound ratSqrt duplicatePatientIds).system.patients,
        ∃ h ∈ (branchAndBound ratSqrt duplicatePatientIds).system.hospitals,
          p.assignedHospital = some h.id ∧ p.requiredSpecialization = "cardiology" ∧
            h.specialization = "neurology" := by
  decide!

/-- Witness for C4: the two cardiology patients and hospitals of `crossed`. -/
theorem allocators_respect_specialization_witness :
    (∀ p ∈ crossed.patients, p.assignedHospital = none) ∧
      (crossed.hospitals.map (fun h => h.id)).Nodup ∧
      (crossed.patients.map (fun p => p.id)).Nodup ∧
      SpecializationRespected (greedyMatching ratSqrt crossed).system ∧
      SpecializationRespected (knapsackDP ratSqrt crossed).system ∧
      SpecializationRespected (branchAndBound ratSqrt crossed).system :=
  ⟨by decide!, by decide!, by decide!,
    allocators_respect_specialization ratSqrt crossed (by decide!) (by decide!) (by decide!)⟩

/-- C5 (failing input). From a reset state with unique patient and hospital
identifiers, `knapsackDP` returns two records for the patient 0: one for the
hospital 0 and one for the hospital 5. -/
theorem knapsackDP_assigns_patient_twice :
    (∀ p ∈ sharedSpecialization.patients, p.assignedHospital = none) ∧
      (sharedSpecialization.patients.map (fun p => p.id)).Nodup ∧
      (sharedSpecialization.hospitals.map (fun h => h.id)).Nodup ∧
      (knapsackDP ratSqrt sharedSpecialization).assignments.map
        (fun a => (a.patientId, a.hospitalId)) = [(0, 0), (0, 5)] := by
  decide!

/-- C6 (failing input). On `crossed` a complete assignment of total cost `-60`
exists, and `branchAndBound` returns a complete assignment of total cost `-40`. -/
theorem branchAndBound_not_minimal :
    IsCompleteAssignment ratSqrt crossed crossedNearest ∧
      totalCost crossedNearest = -60 ∧
      IsCompleteAssignment ratSqrt crossed (branchAndBound ratSqrt crossed).assignments ∧
      totalCost (branchAndBound ratSqrt crossed).assignments = -40 := by
  decide!

/-- C7 (failing input). On `crossedMixed`, from a reset state, `greedyMatching`
assigns both patients at total cost `-30`, and `branchAndBound` returns an
assignment of total cost `30`. -/
theorem branchAndBound_costlier_than_greedy :
    (∀ p ∈ crossedMixed.patients, p.assignedHospital = none) ∧
      (∀ p ∈ (greedyMatching ratSqrt crossedMixed).system.patients,
        p.assignedHospital ≠ none) ∧
      greedyCost crossedMixed.patients (greedyMatching ratSqrt crossedMixed).assignments = -30 ∧
      totalCost (branchAndBound ratSqrt crossedMixed).assignments = 30 := by
  decide!

/-- An instance of `knapsack_selection_maximizes_urgency`: the first hospital of
`crossed` and the farther candidate. -/
theorem knapsack_selection_maximizes_urgency_witness :
    [farPick].Sublist (candidates ratSqrt crossed.patients [0, 1]
        (createHospital 1 1 "cardiology" ⟨0, 0⟩)) ∧
      totalUrgency [farPick] ≤
        totalUrgency (optimalSolution 1 (candidates ratSqrt crossed.patients [0, 1]
          (createHospital 1 1 "cardiology" ⟨0, 0⟩))) :=
  ⟨by decide!,
    (knapsack_selection_maximizes_urgency ratSqrt crossed.patients [0, 1]
      (createHospital 1 1 "cardiology" ⟨0, 0⟩)).2.2 [farPick] (by decide!) (by decide!)⟩

/-- An instance of `knapsack_selection_minimizes_distance`: the first hospital of
`crossed` and the farther candidate, which has the same urgency as the selected
one. -/
theorem knapsack_selection_minimizes_distance_witness :
    [farPick].Sublist (candidates ratSqrt crossed.patients [0, 1]
        (createHospital 1 1 "cardiology" ⟨0, 0⟩)) ∧
      totalDistance (optimalSolution 1 (candidates ratSqrt crossed.patients [0, 1]
          (createHospital 1 1 "cardiology" ⟨0, 0⟩))) ≤ totalDistance [farPick] :=
  ⟨by decide!,
    knapsack_selection_minimizes_distance ratSqrt crossed.patients [0, 1]
      (createHospital 1 1 "cardiology" ⟨0, 0⟩) [farPick] (by decide!) (by decide!)
      (by decide!)⟩

/-- C8 (failing input). On `sharedSpecialization`, a reset state with unique
patient and hospital identifiers, `knapsackDP` processes the second cardiology
hospital (identifier 5, capacity 1) when the patient 0 is already assigned to
the hospital 0; the test `!p.assignedHospital` keeps that patient in the
candidate list, and the selected set is that patient, of urgency weight 3.  The
still unassigned candidates are the patient 1 alone, and the maximum total
urgency weight over their subsets of at most `capacity` members is 1. -/
theorem knapsack_selects_patient_of_hospital_zero :
    (∀ p ∈ sharedSpecialization.patients, p.assignedHospital = none) ∧
      (sharedSpecialization.patients.map (fun p => p.id)).Nodup ∧
      (sharedSpecialization.hospitals.map (fun h => h.id)).Nodup ∧
      sortedGroup ratSqrt sharedSpecialization.patients "cardiology"
        (resetHospital (createHospital 0 1 "cardiology" ⟨0, 0⟩)) [sharedSecond] = [0, 1] ∧
      (knapsackDP ratSqrt sharedSpecialization).assignments =
        (processHospital ratSqrt [0, 1] sharedAfterFirst 1).assignments ∧
      sharedAfterFirst.hospitals[1]? = some sharedSecond ∧
      sharedSecond.capacity = 1 ∧
      (candidates ratSqrt sharedAfterFirst.patients [0, 1] sharedSecond).map
          (fun c => (c.patient.2.id, c.patient.2.assignedHospital, c.distance)) =
        [(0, some 0, 10), (1, none, 0)] ∧
      sharedSelected.map (fun c => (c.patient.2.id, c.patient.2.assignedHospital)) =
        [(0, some 0)] ∧
      totalUrgency sharedSelected = 3 ∧
      (unassignedCandidates ratSqrt sharedAfterFirst.patients [0, 1] sharedSecond).map
          (fun c => c.patient.2.id) = [1] ∧
      (∀ s ∈ (unassignedCandidates ratSqrt sharedAfterFirst.patients [0, 1]
          sharedSecond).sublists, s.length ≤ sharedSecond.capacity → totalUrgency s ≤ 1) ∧
      (∃ s ∈ (unassignedCandidates ratSqrt sharedAfterFirst.patients [0, 1]
          sharedSecond).sublists, s.length ≤ sharedSecond.capacity ∧ totalUrgency s = 1) ∧
      (knapsackDP ratSqrt sharedSpecialization).assignments.map
        (fun a => (a.patientId, a.hospitalId)) = [(0, 0), (0, 5)] := by
  decide!

/-- C9 (failing input). On `sharedSpecialization`, for the second cardiology
hospital (identifier 5, capacity 1) the subsets of at most `capacity` still
unassigned candidates reach the total urgency weight 1 at most, and one that
reaches it, the patient 1, has the total distance 0.  The set that `knapsackDP`
selects is none of these subsets: it is the patient 0, already assigned to the
hospital 0, at the distance 10. -/
theorem knapsack_selection_farther_than_unassigned :
    (∀ p ∈ sharedSpecialization.patients, p.assignedHospital = none) ∧
      (sharedSpecialization.patients.map (fun p => p.id)).Nodup ∧
      (sharedSpecialization.hospitals.map (fun h => h.id)).Nodup ∧
      (knapsackDP ratSqrt sharedSpecialization).assignments =
        (processHospital ratSqrt [0, 1] sharedAfterFirst 1).assignments ∧
      sharedAfterFirst.hospitals[1]? = some sharedSecond ∧
      sharedSecond.capacity = 1 ∧
      (∀ s ∈ (unassignedCandidates ratSqrt sharedAfterFirst.patients [0, 1]
          sharedSecond).sublists, s.length ≤ sharedSecond.capacity → totalUrgency s ≤ 1) ∧
      (∃ s ∈ (unassignedCandidates ratSqrt sharedAfterFirst.patients [0, 1]
          sharedSecond).sublists,
        s.length ≤ sharedSecond.capacity ∧ totalUrgency s = 1 ∧ totalDistance s = 0) ∧
      totalDistance sharedSelected = 10 ∧
      ¬ sharedSelected.Sublist
        (unassignedCandidates ratSqrt sharedAfterFirst.patients [0, 1] sharedSecond) ∧
      (knapsackDP ratSqrt sharedSpecialization).assignments.map
        (fun a => (a.patientId, a.hospitalId, a.distance)) = [(0, 0, 0), (0, 5, 10)] := by
  decide!

/-- Witness for C10: in the scenario of the specification the urgent patient,
at position 2, is processed second. -/
theorem greedyMatching_chooses_nearest_witness :
    sortedPatients scenario.patients = [0] ++ 2 :: [1] ∧
      ∃ patient : Patient ℚ, (greedyRun ratSqrt scenario [0]).patients[2]? = some patient ∧
        (((∀ (j : Nat) (x : Hospital ℚ), (greedyRun ratSqrt scenario [0]).hospitals[j]? = some x →
              ¬ eligible x patient) ∧
            (greedyMatching ratSqrt scenario).system.patients[2]? = some patient) ∨
          ∃ (h : Nat) (bh : Hospital ℚ) (assigned : Patient ℚ),
            NearestEligible ratSqrt (greedyRun ratSqrt scenario [0]).hospitals patient h bh ∧
              (greedyMatching ratSqrt scenario).system.patients[2]? = some assigned ∧
              assigned.assignedHospital = some bh.id ∧
              assigned.travelDistance =
                calculateDistance ratSqrt patient.location bh.location) :=
  ⟨by decide!, greedyMatching_chooses_nearest ratSqrt scenario [0] [1] 2 (by decide!)⟩

/-- On `detour` no hospital can run out of room, yet `branchAndBound` returns a
complete assignment of total cost `-10` while one of total cost `-20` exists:
the branch that starts with the first patient at the second hospital has the
partial cost `0`, which is not below the best cost `-10` found so far, and is
cut, although its completion would cost `-20`. -/
theorem branchAndBound_prunes_cheaper_branch :
    IsCompleteAssignment ratSqrt detour detourNearest ∧
      totalCost detourNearest = -20 ∧
      IsCompleteAssignment ratSqrt detour (branchAndBound ratSqrt detour).assignments ∧
      totalCost (branchAndBound ratSqrt detour).assignments = -10 ∧
      greedyCost detour.patients (greedyMatching ratSqrt detour).assignments = -20 := by
  decide!

end Theorems

/-! ## Reset, metrics and the allocation runner -/

section RunnerTheorems

variable {α : Type} [LinearOrderedField α] [FloorRing α]

/-- C14. Reset is idempotent: applying the reset to a state that was just reset
gives the same state. -/
theorem resetSimulation_idempotent (sys : System α) :
    resetSimulation (resetSimulation sys) = resetSimulation sys := by
  unfold resetSimulation
  simp only [List.map_map]
  congr 1

end RunnerTheorems

section RunnerTheorems2

variable {α : Type} [LinearOrderedField α] [FloorRing α] [Rounding α]

theorem calculateEfficiencyScore_zero_patients (assignedCount : Nat)
    (avgDistance utilization : Option α) :
    calculateEfficiencyScore 0 assignedCount avgDistance utilization = none := by
  unfold calculateEfficiencyScore jsRound jsDiv
  simp

theorem greedyMatching_no_patients (sqrt : α → α) (hospitals : List (Hospital α)) :
    (greedyMatching sqrt { patients := [], hospitals := hospitals }).assignments = [] ∧
      (greedyMatching sqrt { patients := [], hospitals := hospitals }).system.patients = [] :=
  ⟨rfl, rfl⟩

theorem knapsackDP_no_patients (sqrt : α → α) (hospitals : List (Hospital α)) :
    (knapsackDP sqrt { patients := [], hospitals := hospitals }).assignments = [] ∧
      (knapsackDP sqrt { patients := [], hospitals := hospitals }).system.patients = [] :=
  ⟨rfl, rfl⟩

theorem search_no_patients (sqrt : α → α) (hospitals : List (Hospital α)) :
    (search sqrt { patients := [], hospitals := hospitals }).bestSolution = some [] := by
  unfold search
  simp [solve, pruned, improves, List.insertionSort]

/-- C16 (amended). For an empty patient list each of `greedyMatching`,
`knapsackDP` and `branchAndBound` returns `patientsAssigned = 0` and an
`efficiencyScore` that is `NaN`, because `assignmentRate` is the quotient
`0 / 0`; the `avgDistance` of `greedyMatching` and of `knapsackDP` is the
unguarded quotient `0 / 0`, which is `NaN`. -/
theorem empty_patient_list_metrics (sqrt : α → α) (sys : System α) (h : sys.patients = []) :
    ((greedyMatchingResult sqrt sys).patientsAssigned = 0 ∧
        (greedyMatchingResult sqrt sys).avgDistance = none ∧
        (greedyMatchingResult sqrt sys).efficiencyScore = none) ∧
      ((knapsackDPResult sqrt sys).patientsAssigned = 0 ∧
        (knapsackDPResult sqrt sys).avgDistance = none ∧
        (knapsackDPResult sqrt sys).efficiencyScore = none) ∧
      ((branchAndBoundResult sqrt sys).patientsAssigned = 0 ∧
        (branchAndBoundResult sqrt sys).efficiencyScore = none) := by
  obtain ⟨patients, hospitals⟩ := sys
  simp only at h
  subst h
  have hb := search_no_patients sqrt hospitals
  have hbp : (branchAndBound sqrt { patients := [], hospitals := hospitals }).system.patients
      = [] := by
    unfold branchAndBound
    rw [hb]
    rfl
  refine ⟨⟨rfl, ?_, ?_⟩, ⟨rfl, ?_, ?_⟩, ⟨?_, ?_⟩⟩
  · simp [greedyMatchingResult, (greedyMatching_no_patients sqrt hospitals).1, averageDistance,
      jsDiv]
  · simp only [greedyMatchingResult, (greedyMatching_no_patients sqrt hospitals).2,
      List.length_nil]
    exact calculateEfficiencyScore_zero_patients _ _ _
  · simp [knapsackDPResult, (knapsackDP_no_patients sqrt hospitals).1, averageDistance, jsDiv]
  · simp only [knapsackDPResult, (knapsackDP_no_patients sqrt hospitals).2, List.length_nil]
    exact calculateEfficiencyScore_zero_patients _ _ _
  · simp [branchAndBoundResult, hb]
  · simp only [branchAndBoundResult, hbp, List.length_nil]
    exact calculateEfficiencyScore_zero_patients _ _ _

end RunnerTheorems2

/-! ## The efficiency score in double arithmetic -/

theorem pow2_eq_zpow (k : Int) : pow2 k = (2 : ℚ) ^ k := by
  unfold pow2
  by_cases h : 0 ≤ k
  · rw [if_pos h]
    obtain ⟨n, rfl⟩ := Int.eq_ofNat_of_zero_le h
    simp
  · rw [if_neg h]
    have hk : ((-k).toNat : Int) = -k := Int.toNat_of_nonneg (by omega)
    have e : (2 : ℚ) ^ k = ((2 : ℚ) ^ (-k).toNat)⁻¹ := by
      rw [← zpow_natCast, hk, zpow_neg, inv_inv]
    rw [e]
    simp

theorem pow2_pos (k : Int) : 0 < pow2 k := by
  rw [pow2_eq_zpow]
  positivity

theorem log2Floor_spec : ∀ (fuel n : Nat), n ≤ fuel → 0 < n →
    2 ^ log2Floor fuel n ≤ n ∧ n < 2 ^ (log2Floor fuel n + 1)
  | 0, n, h, hp => by omega
  | fuel + 1, n, h, hp => by
    unfold log2Floor
    by_cases h2 : n < 2
    · rw [if_pos h2]
      constructor
      · simp; omega
      · simp; omega
    · rw [if_neg h2]
      obtain ⟨h1, h3⟩ := log2Floor_spec fuel (n / 2) (by omega) (by omega)
      have e1 : 2 ^ (log2Floor fuel (n / 2) + 1) = 2 ^ log2Floor fuel (n / 2) * 2 :=
        pow_succ _ _
      have e2 : 2 ^ (log2Floor fuel (n / 2) + 1 + 1) = 2 ^ log2Floor fuel (n / 2) * 2 * 2 := by
        rw [pow_succ, pow_succ]
      rw [e1] at h3
      rw [e1, e2]
      generalize 2 ^ log2Floor fuel (n / 2) = p at h1 h3 ⊢
      constructor
      · omega
      · omega

theorem natLog2_spec (n : Nat) (hn : 0 < n) :
    2 ^ natLog2 n ≤ n ∧ n < 2 ^ (natLog2 n + 1) :=
  log2Floor_spec n n (Nat.le_refl n) hn

theorem abs_eq_natAbs_div (x : ℚ) : |x| = (x.num.natAbs : ℚ) / (x.den : ℚ) := by
  conv_lhs => rw [← Rat.num_div_den x]
  rw [abs_div, Nat.cast_natAbs, Int.cast_abs]
  congr 1
  exact abs_of_nonneg (Nat.cast_nonneg _)

/-- The exponent is the floor of the binary logarithm. -/
theorem exponent_spec (x : ℚ) (hx : x ≠ 0) :
    pow2 (exponent x) ≤ |x| ∧ |x| < pow2 (exponent x + 1) := by
  have hnum : 0 < x.num.natAbs := Int.natAbs_pos.mpr (Rat.num_ne_zero.mpr hx)
  have hden : 0 < x.den := x.den_pos
  obtain ⟨ha1, ha2⟩ := natLog2_spec _ hnum
  obtain ⟨hb1, hb2⟩ := natLog2_spec _ hden
  have hA1 : ((2 : ℚ) ^ natLog2 x.num.natAbs) ≤ (x.num.natAbs : ℚ) := by exact_mod_cast ha1
  have hA2 : (x.num.natAbs : ℚ) < (2 : ℚ) ^ (natLog2 x.num.natAbs + 1) := by exact_mod_cast ha2
  have hB1 : ((2 : ℚ) ^ natLog2 x.den) ≤ (x.den : ℚ) := by exact_mod_cast hb1
  have hB2 : (x.den : ℚ) < (2 : ℚ) ^ (natLog2 x.den + 1) := by exact_mod_cast hb2
  have hdenq : (0 : ℚ) < (x.den : ℚ) := by exact_mod_cast hden
  have habs := abs_eq_natAbs_div x
  have hpa : (0 : ℚ) < (2 : ℚ) ^ natLog2 x.num.natAbs := by positivity
  have hpb : (0 : ℚ) < (2 : ℚ) ^ natLog2 x.den := by positivity
  have hlow : pow2 ((natLog2 x.num.natAbs : Int) - (natLog2 x.den : Int) - 1) ≤ |x| := by
    rw [pow2_eq_zpow, habs, sub_sub, zpow_sub₀ (by norm_num : (2 : ℚ) ≠ 0)]
    have e1 : (2 : ℚ) ^ ((natLog2 x.den : Int) + 1) = (2 : ℚ) ^ (natLog2 x.den + 1) := by
      norm_cast
    rw [e1, zpow_natCast, div_le_div_iff₀ (by positivity) hdenq]
    have := mul_le_mul hA1 (le_of_lt hB2) (le_of_lt hdenq) (by positivity)
    linarith
  have hup : |x| < pow2 ((natLog2 x.num.natAbs : Int) - (natLog2 x.den : Int) + 1) := by
    rw [pow2_eq_zpow, habs, sub_add_eq_add_sub, zpow_sub₀ (by norm_num : (2 : ℚ) ≠ 0)]
    have e1 : (2 : ℚ) ^ ((natLog2 x.num.natAbs : Int) + 1) =
        (2 : ℚ) ^ (natLog2 x.num.natAbs + 1) := by
      norm_cast
    rw [e1, zpow_natCast, div_lt_div_iff₀ hdenq hpb]
    have := mul_lt_mul hA2 hB1 hpb (by positivity)
    linarith
  unfold exponent
  simp only []
  by_cases hc : pow2 ((natLog2 x.num.natAbs : Int) - (natLog2 x.den : Int)) ≤ |x|
  · rw [if_pos hc]
    exact ⟨hc, hup⟩
  · rw [if_neg hc]
    refine ⟨hlow, ?_⟩
    rw [sub_add_cancel]
    exact lt_of_not_le hc

theorem roundHalfEven_near (m : ℚ) : |(roundHalfEven m : ℚ) - m| ≤ 1 / 2 := by
  have h1 : (⌊m⌋ : ℚ) ≤ m := Int.floor_le m
  have h2 : m < (⌊m⌋ : ℚ) + 1 := Int.lt_floor_add_one m
  unfold roundHalfEven
  rw [abs_le]
  split_ifs with ha hb hc
  · constructor <;> linarith
  · push_cast
    constructor <;> linarith
  · constructor <;> linarith
  · push_cast
    constructor <;> linarith

theorem roundHalfEven_nonneg (m : ℚ) (hm : 0 ≤ m) : 0 ≤ roundHalfEven m := by
  have h0 : 0 ≤ ⌊m⌋ := Int.floor_nonneg.mpr hm
  unfold roundHalfEven
  split_ifs <;> omega

theorem roundHalfEven_nonpos (m : ℚ) (hm : m ≤ 0) : roundHalfEven m ≤ 0 := by
  have h1 : (⌊m⌋ : ℚ) ≤ m := Int.floor_le m
  rcases eq_or_lt_of_le hm with h | h
  · subst h
    unfold roundHalfEven
    simp
  · have h0 : ⌊m⌋ < 0 := by
      rw [Int.floor_lt]
      exact_mod_cast h
    unfold roundHalfEven
    split_ifs <;> omega

theorem binary64_nonneg (x : ℚ) (hx : 0 ≤ x) : 0 ≤ binary64 x := by
  unfold binary64
  apply mul_nonneg _ (le_of_lt (pow2_pos _))
  exact_mod_cast roundHalfEven_nonneg _ (div_nonneg hx (le_of_lt (pow2_pos _)))

theorem binary64_nonpos (x : ℚ) (hx : x ≤ 0) : binary64 x ≤ 0 := by
  unfold binary64
  apply mul_nonpos_of_nonpos_of_nonneg _ (le_of_lt (pow2_pos _))
  exact_mod_cast roundHalfEven_nonpos _ (div_nonpos_of_nonpos_of_nonneg hx (le_of_lt (pow2_pos _)))

/-- The error of one rounding: half a unit in the last place of a normal number,
or half the spacing of the subnormal numbers. -/
theorem binary64_error (x : ℚ) :
    |binary64 x - x| ≤ |x| / 2 ^ 53 + pow2 (-1075) := by
  have hη : 0 < pow2 (-1075) := pow2_pos _
  by_cases hx : x = 0
  · subst hx
    have : binary64 0 = 0 := by
      unfold binary64
      simp [roundHalfEven]
    rw [this]
    simp
    exact le_of_lt hη
  · have hp := pow2_pos (max (exponent x) (-1022) - 52)
    have hnear := roundHalfEven_near (x / pow2 (max (exponent x) (-1022) - 52))
    have herr : |binary64 x - x| ≤ pow2 (max (exponent x) (-1022) - 52) / 2 := by
      have e : binary64 x - x =
          ((roundHalfEven (x / pow2 (max (exponent x) (-1022) - 52)) : ℚ) -
            x / pow2 (max (exponent x) (-1022) - 52)) *
            pow2 (max (exponent x) (-1022) - 52) := by
        unfold binary64
        field_simp
      rw [e, abs_mul, abs_of_pos hp]
      have := mul_le_mul_of_nonneg_right hnear (le_of_lt hp)
      linarith
    have hlow := (exponent_spec x hx).1
    have habs : 0 ≤ |x| := abs_nonneg x
    by_cases he : -1022 ≤ exponent x
    · rw [max_eq_left he] at herr
      have e2 : pow2 (exponent x - 52) = pow2 (exponent x) / 2 ^ 52 := by
        rw [pow2_eq_zpow, pow2_eq_zpow, zpow_sub₀ (by norm_num : (2 : ℚ) ≠ 0)]
        norm_cast
      rw [e2] at herr
      have : pow2 (exponent x) / 2 ^ 52 / 2 ≤ |x| / 2 ^ 53 := by
        rw [div_div, div_le_div_iff₀ (by positivity) (by positivity)]
        have : (2 : ℚ) ^ 53 = 2 ^ 52 * 2 := by norm_num
        rw [this]
        nlinarith
      linarith
    · have he2 : exponent x ≤ -1022 := by omega
      rw [max_eq_right he2] at herr
      have e3 : pow2 (-1022 - 52) / 2 = pow2 (-1075) := by
        rw [pow2_eq_zpow, pow2_eq_zpow]
        have : (-1075 : Int) = (-1022 - 52) - 1 := by norm_num
        rw [this, zpow_sub_one₀ (by norm_num : (2 : ℚ) ≠ 0)]
        field_simp
      rw [e3] at herr
      have : 0 ≤ |x| / 2 ^ 53 := by positivity
      linarith

theorem pow2_tiny : pow2 (-1075) ≤ 1 / 2 ^ 45 := by
  rw [pow2_eq_zpow]
  have : (-1075 : Int) = -((1075 : Nat) : Int) := by norm_num
  rw [this, zpow_neg, zpow_natCast, one_div]
  apply inv_anti₀ (by positivity)
  exact pow_le_pow_right₀ (by norm_num) (by norm_num)

/-- One rounding of a value of moderate size. -/
theorem binary64_near (y y0 ε : ℚ) (hy : |y - y0| ≤ ε) (hy0 : |y0| ≤ 200) (hε : ε ≤ 1) :
    |binary64 y - y0| ≤ ε + 1 / 2 ^ 44 := by
  have hb : |y| ≤ 201 := by
    have := abs_sub_abs_le_abs_sub y y0
    linarith
  have herr := binary64_error y
  have hη := pow2_tiny
  have h1 : |y| / 2 ^ 53 ≤ 1 / 2 ^ 45 := by
    rw [div_le_div_iff₀ (by positivity) (by positivity)]
    have : (2 : ℚ) ^ 53 = 256 * 2 ^ 45 := by norm_num
    rw [this]
    have : (0 : ℚ) < 2 ^ 45 := by positivity
    nlinarith
  have h2 : (1 : ℚ) / 2 ^ 45 + 1 / 2 ^ 45 = 1 / 2 ^ 44 := by norm_num
  calc |binary64 y - y0| = |(binary64 y - y) + (y - y0)| := by ring_nf
    _ ≤ |binary64 y - y| + |y - y0| := abs_add _ _
    _ ≤ ε + 1 / 2 ^ 44 := by linarith

theorem mul_near (x x0 c c0 ε1 ε2 : ℚ) (hx : |x - x0| ≤ ε1) (hc : |c - c0| ≤ ε2)
    (hx0 : |x0| ≤ 1) (hcb : |c| ≤ 1) : |x * c - x0 * c0| ≤ ε1 + ε2 := by
  have e : x * c - x0 * c0 = (x - x0) * c + x0 * (c - c0) := by ring
  rw [e]
  have h1 : |(x - x0) * c| ≤ ε1 := by
    rw [abs_mul]
    have := mul_le_mul hx hcb (abs_nonneg _) (le_trans (abs_nonneg _) hx)
    linarith
  have h2 : |x0 * (c - c0)| ≤ ε2 := by
    rw [abs_mul]
    have := mul_le_mul hx0 hc (abs_nonneg _) (by norm_num)
    linarith
  have := abs_add ((x - x0) * c) (x0 * (c - c0))
  linarith


/-- The distance score in double arithmetic next to the exact one. -/
theorem distanceScore_near (avgDistance : ℚ) (hd : 0 ≤ avgDistance) :
    |max 0 (binary64 (1 - binary64 (avgDistance / 50))) - max 0 (1 - avgDistance / 50)| ≤
      1 / 2 ^ 44 + 1 / 2 ^ 44 := by
  by_cases hle : avgDistance ≤ 100
  · have hy0 : 0 ≤ avgDistance / 50 := by positivity
    have hy1 : avgDistance / 50 ≤ 2 := by linarith
    have hq := binary64_near (avgDistance / 50) (avgDistance / 50) 0 (by simp)
      (by rw [abs_of_nonneg hy0]; linarith) (by norm_num)
    have h1q : |(1 - binary64 (avgDistance / 50)) - (1 - avgDistance / 50)| ≤ 0 + 1 / 2 ^ 44 := by
      have e : (1 - binary64 (avgDistance / 50)) - (1 - avgDistance / 50) =
          -(binary64 (avgDistance / 50) - avgDistance / 50) := by ring
      rw [e, abs_neg]
      exact hq
    have hs := binary64_near _ _ _ h1q
      (by rw [abs_le]; constructor <;> linarith) (by norm_num)
    have hm := abs_max_sub_max_le_abs (binary64 (1 - binary64 (avgDistance / 50)))
      (1 - avgDistance / 50) 0
    rw [max_comm _ (0 : ℚ), max_comm _ (0 : ℚ)] at hm
    linarith
  · have hy : 2 < avgDistance / 50 := by
      rw [lt_div_iff₀ (by norm_num)]
      linarith
    have herr := binary64_error (avgDistance / 50)
    rw [abs_of_pos (by linarith : (0 : ℚ) < avgDistance / 50)] at herr
    have ht := pow2_tiny
    have hq : 1 ≤ binary64 (avgDistance / 50) := by
      have := (abs_le.mp herr).1
      have h53 : avgDistance / 50 / 2 ^ 53 ≤ avgDistance / 50 / 4 := by
        apply div_le_div_of_nonneg_left (by linarith) (by norm_num) (by norm_num)
      have h45 : (1 : ℚ) / 2 ^ 45 ≤ 1 / 4 := by norm_num
      linarith
    have hs : binary64 (1 - binary64 (avgDistance / 50)) ≤ 0 :=
      binary64_nonpos _ (by linarith)
    rw [max_eq_left hs, max_eq_left (by linarith : 1 - avgDistance / 50 ≤ 0)]
    norm_num


theorem abs_le_one_of_near (x x0 ε : ℚ) (h : |x - x0| ≤ ε) (h0 : |x0| + ε ≤ 1) : |x| ≤ 1 := by
  have := abs_sub_abs_le_abs_sub x x0
  linarith

theorem near_add (x x0 y y0 ε1 ε2 : ℚ) (hx : |x - x0| ≤ ε1) (hy : |y - y0| ≤ ε2) :
    |(x + y) - (x0 + y0)| ≤ ε1 + ε2 := by
  have e : (x + y) - (x0 + y0) = (x - x0) + (y - y0) := by ring
  rw [e]
  have := abs_add (x - x0) (y - y0)
  linarith

theorem binary64_near_self (y : ℚ) (hy : |y| ≤ 200) : |binary64 y - y| ≤ 0 + 1 / 2 ^ 44 :=
  binary64_near y y 0 (by simp) hy (by norm_num)

/-- C17 (amended). For a patient count `n ≥ 1`, `assignedCount ≤ n`,
`avgDistance ≥ 0` and `0 ≤ utilization ≤ 100`, `calculateEfficiencyScore`
returns an integer between 0 and 100 that lies within `1 / 2 + 10 ^ (-9)` of
`100 * (0.4 * assignedCount / n + 0.3 * max(0, 1 - avgDistance / 50) +
0.3 * utilization / 100)`: the rounding of that value, except that a value
within `10 ^ (-9)` of a half can go to either neighbour. -/
theorem calculateEfficiencyScore_near_value (n assignedCount : Nat) (avgDistance utilization : ℚ)
    (hn : 1 ≤ n) (ha : assignedCount ≤ n) (hd : 0 ≤ avgDistance) (hu0 : 0 ≤ utilization)
    (hu1 : utilization ≤ 100) :
    ∃ score : Int,
      calculateEfficiencyScore n assignedCount (some avgDistance) (some utilization) =
        some score ∧
      0 ≤ score ∧ score ≤ 100 ∧
      |(score : ℚ) - 100 * (0.4 * ((assignedCount : ℚ) / (n : ℚ)) +
          0.3 * max 0 (1 - avgDistance / 50) + 0.3 * (utilization / 100))| ≤
        1 / 2 + 1 / 10 ^ 9 := by
  have hnpos : (0 : ℚ) < (n : ℚ) := by exact_mod_cast hn
  have hnne : (n : ℚ) ≠ 0 := ne_of_gt hnpos
  have hr0 : (0 : ℚ) ≤ (assignedCount : ℚ) / (n : ℚ) := div_nonneg (Nat.cast_nonneg _) (le_of_lt hnpos)
  have hr1 : (assignedCount : ℚ) / (n : ℚ) ≤ 1 := by
    rw [div_le_one hnpos]
    exact_mod_cast ha
  have hv0 : (0 : ℚ) ≤ utilization / 100 := div_nonneg hu0 (by norm_num)
  have hv1 : utilization / 100 ≤ (1 : ℚ) := by
    rw [div_le_one (by norm_num)]
    exact hu1
  have hd0 : (0 : ℚ) ≤ max 0 (1 - avgDistance / 50) := le_max_left _ _
  have hd1 : max 0 (1 - avgDistance / 50) ≤ (1 : ℚ) := by
    apply max_le
    · norm_num
    · have : (0 : ℚ) ≤ avgDistance / 50 := div_nonneg hd (by norm_num)
      linarith
  -- the three sub-scores and the two constants
  have hr := binary64_near_self ((assignedCount : ℚ) / (n : ℚ))
    (by rw [abs_of_nonneg hr0]; linarith)
  have hrn := binary64_nonneg _ hr0
  have hu := binary64_near_self (utilization / 100) (by rw [abs_of_nonneg hv0]; linarith)
  have hun := binary64_nonneg _ hv0
  have hdd := distanceScore_near avgDistance hd
  have hdn : (0 : ℚ) ≤ max 0 (binary64 (1 - binary64 (avgDistance / 50))) := le_max_left _ _
  have hc4 := binary64_near_self (2 / 5) (by norm_num [abs_of_pos])
  have hc4n := binary64_nonneg (2 / 5) (by norm_num)
  have hc3 := binary64_near_self (3 / 10) (by norm_num [abs_of_pos])
  have hc3n := binary64_nonneg (3 / 10) (by norm_num)
  have hc4b : |binary64 (2 / 5)| ≤ 1 :=
    abs_le_one_of_near _ _ _ hc4 (by norm_num [abs_of_pos])
  have hc3b : |binary64 (3 / 10)| ≤ 1 :=
    abs_le_one_of_near _ _ _ hc3 (by norm_num [abs_of_pos])
  -- the three products
  have hp1 := mul_near _ _ _ _ _ _ hr hc4 (by rw [abs_of_nonneg hr0]; exact hr1) hc4b
  have ht1 := binary64_near _ _ _ hp1
    (by rw [abs_of_nonneg (by positivity)]; linarith) (by norm_num)
  have ht1n := binary64_nonneg _ (mul_nonneg hrn hc4n)
  have hp2 := mul_near _ _ _ _ _ _ hdd hc3 (by rw [abs_of_nonneg hd0]; exact hd1) hc3b
  have ht2 := binary64_near _ _ _ hp2
    (by rw [abs_of_nonneg (by positivity)]; linarith) (by norm_num)
  have ht2n := binary64_nonneg _ (mul_nonneg hdn hc3n)
  have hp3 := mul_near _ _ _ _ _ _ hu hc3 (by rw [abs_of_nonneg hv0]; exact hv1) hc3b
  have ht3 := binary64_near _ _ _ hp3
    (by rw [abs_of_nonneg (by positivity)]; linarith) (by norm_num)
  have ht3n := binary64_nonneg _ (mul_nonneg hun hc3n)
  -- the two sums
  have ha1 := near_add _ _ _ _ _ _ ht1 ht2
  have hs1 := binary64_near _ _ _ ha1
    (by rw [abs_of_nonneg (by positivity)]; linarith) (by norm_num)
  have hs1n := binary64_nonneg _ (add_nonneg ht1n ht2n)
  have ha2 := near_add _ _ _ _ _ _ hs1 ht3
  have hs2 := binary64_near _ _ _ ha2
    (by rw [abs_of_nonneg (by positivity)]; linarith) (by norm_num)
  have hs2n := binary64_nonneg _ (add_nonneg hs1n ht3n)
  -- the factor 100
  have hm : |binary64 (binary64 (binary64 (binary64 ((assignedCount : ℚ) / (n : ℚ)) *
        binary64 (2 / 5)) +
        binary64 (max 0 (binary64 (1 - binary64 (avgDistance / 50))) * binary64 (3 / 10))) +
        binary64 (binary64 (utilization / 100) * binary64 (3 / 10))) * 100 -
      ((assignedCount : ℚ) / (n : ℚ) * (2 / 5) + max 0 (1 - avgDistance / 50) * (3 / 10) +
        utilization / 100 * (3 / 10)) * 100| ≤ 1200 / 2 ^ 44 := by
    rw [← sub_mul, abs_mul, abs_of_pos (by norm_num : (0 : ℚ) < 100)]
    linarith
  have hv := binary64_near _ _ _ hm
    (by rw [abs_of_nonneg (by positivity)]; linarith) (by norm_num)
  have hvn := binary64_nonneg _ (mul_nonneg hs2n (by norm_num : (0 : ℚ) ≤ 100))
  have hcode : calculateEfficiencyScore n assignedCount (some avgDistance) (some utilization) =
      some ⌊binary64 (binary64 (binary64 (binary64
        (binary64 ((assignedCount : ℚ) / (n : ℚ)) * binary64 (2 / 5)) +
        binary64 (max 0 (binary64 (1 - binary64 (avgDistance / 50))) * binary64 (3 / 10))) +
        binary64 (binary64 (utilization / 100) * binary64 (3 / 10))) * 100) + 1 / 2⌋ := by
    unfold calculateEfficiencyScore jsDiv jsRound
    simp only [if_neg hnne, Option.map_some']
    rfl
  have e : 100 * (0.4 * ((assignedCount : ℚ) / (n : ℚ)) +
        0.3 * max 0 (1 - avgDistance / 50) + 0.3 * (utilization / 100)) =
      ((assignedCount : ℚ) / (n : ℚ) * (2 / 5) + max 0 (1 - avgDistance / 50) * (3 / 10) +
        utilization / 100 * (3 / 10)) * 100 := by
    norm_num
    ring
  have hE0 : 0 ≤ ((assignedCount : ℚ) / (n : ℚ) * (2 / 5) +
      max 0 (1 - avgDistance / 50) * (3 / 10) + utilization / 100 * (3 / 10)) * 100 := by
    positivity
  have hE1 : ((assignedCount : ℚ) / (n : ℚ) * (2 / 5) +
      max 0 (1 - avgDistance / 50) * (3 / 10) + utilization / 100 * (3 / 10)) * 100 ≤ 100 := by
    linarith
  rw [hcode, e]
  generalize ((assignedCount : ℚ) / (n : ℚ) * (2 / 5) +
      max 0 (1 - avgDistance / 50) * (3 / 10) + utilization / 100 * (3 / 10)) * 100 = E
    at hv hE0 hE1 ⊢
  generalize binary64 (binary64 (binary64 (binary64
        (binary64 ((assignedCount : ℚ) / (n : ℚ)) * binary64 (2 / 5)) +
        binary64 (max 0 (binary64 (1 - binary64 (avgDistance / 50))) * binary64 (3 / 10))) +
        binary64 (binary64 (utilization / 100) * binary64 (3 / 10))) * 100) = V
    at hv hvn ⊢
  obtain ⟨hvl, hvu⟩ := abs_le.mp hv
  have hfl := Int.floor_le (V + 1 / 2)
  have hfu := Int.lt_floor_add_one (V + 1 / 2)
  have h44 : (1200 : ℚ) / 2 ^ 44 + 1 / 2 ^ 44 ≤ 1 / 10 ^ 9 := by norm_num
  refine ⟨⌊V + 1 / 2⌋, rfl, ?_, ?_, ?_⟩
  · apply Int.floor_nonneg.mpr
    linarith only [hvn]
  · have : ⌊V + 1 / 2⌋ < 101 := by
      rw [Int.floor_lt]
      push_cast
      have h9 : (1 : ℚ) / 10 ^ 9 ≤ 1 / 4 := by norm_num
      linarith only [h9, h44, hvu, hE1]
    omega
  · rw [abs_le]
    constructor
    · linarith only [hfu, hvl, h44]
    · linarith only [hfl, hvu, h44]

/-! ### The runner and the metrics on concrete inputs -/

/-- C12 (failing input). On `crossed`, `knapsackDP` run alone from a freshly reset
state returns two records, but in a session that runs all algorithms it returns
no record at all: `greedyMatching` has assigned both patients just before. -/
theorem knapsack_in_session_differs_from_alone :
    (runAllocation ratSqrt Algorithm.knapsack crossed).knapsack.map
        (fun r => r.assignments.map (fun a => (a.patientId, a.hospitalId))) =
        some [(2, 1), (1, 2)] ∧
      (knapsackDP ratSqrt (resetSimulation crossed)).assignments.map
        (fun a => (a.patientId, a.hospitalId)) = [(2, 1), (1, 2)] ∧
      (runAllocation ratSqrt Algorithm.all crossed).greedy.map
        (fun r => r.assignments.map (fun a => (a.patientId, a.hospitalId))) =
        some [(1, 2), (2, 1)] ∧
      (runAllocation ratSqrt Algorithm.all crossed).knapsack.map
        (fun r => r.assignments.map (fun a => (a.patientId, a.hospitalId))) = some [] := by
  decide!

/-- C13 (failing input). After a greedy run on `staffed`, the reset leaves the
patient with the doctor 0 and the bed 1, the doctor with one patient, and the
bed pool of the hospital empty. -/
theorem reset_keeps_bed_and_doctor :
    (resetSimulation (runAllocation ratSqrt Algorithm.greedy staffed).system).patients.map
        (fun p => (p.assignedHospital, p.assignedDoctor, p.bedNumber, p.travelDistance)) =
        [(none, some 0, some 1, 0)] ∧
      (allDoctors (resetSimulation (runAllocation ratSqrt Algorithm.greedy staffed).system)).map
        (fun d => d.currentPatients) = [1] ∧
      (resetSimulation (runAllocation ratSqrt Algorithm.greedy staffed).system).hospitals.map
        (fun h => (h.currentPatients, h.availableBeds, h.occupiedBeds)) = [(0, [], [1])] := by
  decide!

/-- C15 (failing input). From a reset state with unique patient and hospital
identifiers, `knapsackDP` reports `patientsAssigned = 2` on
`sharedSpecialization`, while one patient has a hospital after the run; for
`greedyMatching` and `branchAndBound` the two numbers agree there. -/
theorem knapsack_patientsAssigned_counts_twice :
    (∀ p ∈ sharedSpecialization.patients, p.assignedHospital = none) ∧
      (sharedSpecialization.patients.map (fun p => p.id)).Nodup ∧
      (sharedSpecialization.hospitals.map (fun h => h.id)).Nodup ∧
      (knapsackDPResult ratSqrt sharedSpecialization).patientsAssigned = 2 ∧
      ((knapsackDP ratSqrt sharedSpecialization).system.patients.filter
        (fun p => p.assignedHospital.isSome)).length = 1 ∧
      (knapsackDP ratSqrt sharedSpecialization).assignments.map
        (fun a => (a.patientId, a.hospitalId)) = [(0, 0), (0, 5)] ∧
      (greedyMatchingResult ratSqrt sharedSpecialization).patientsAssigned = 2 ∧
      ((greedyMatching ratSqrt sharedSpecialization).system.patients.filter
        (fun p => p.assignedHospital.isSome)).length = 2 ∧
      (branchAndBoundResult ratSqrt sharedSpecialization).patientsAssigned = 2 ∧
      ((branchAndBound ratSqrt sharedSpecialization).system.patients.filter
        (fun p => p.assignedHospital.isSome)).length = 2 := by
  decide!

/-- Counterexample for C16 as stated: with no patient and one hospital all three
allocators return `avgDistance = NaN`, not `0`, and `efficiencyScore = NaN`. -/
theorem empty_patient_list_gives_nan :
    emptyWard.patients = [] ∧ emptyWard.hospitals.length = 1 ∧
      (greedyMatchingResult ratSqrt emptyWard).avgDistance = none ∧
      (knapsackDPResult ratSqrt emptyWard).avgDistance = none ∧
      (branchAndBoundResult ratSqrt emptyWard).avgDistance = none ∧
      (greedyMatchingResult ratSqrt emptyWard).efficiencyScore = none ∧
      (knapsackDPResult ratSqrt emptyWard).efficiencyScore = none ∧
      (branchAndBoundResult ratSqrt emptyWard).efficiencyScore = none := by
  decide!

/-- Witness for C16 (amended). -/
theorem empty_patient_list_metrics_witness :
    emptyWard.patients = [] ∧
      ((greedyMatchingResult ratSqrt emptyWard).patientsAssigned = 0 ∧
        (greedyMatchingResult ratSqrt emptyWard).avgDistance = none ∧
        (greedyMatchingResult ratSqrt emptyWard).efficiencyScore = none) ∧
      ((knapsackDPResult ratSqrt emptyWard).patientsAssigned = 0 ∧
        (knapsackDPResult ratSqrt emptyWard).avgDistance = none ∧
        (knapsackDPResult ratSqrt emptyWard).efficiencyScore = none) ∧
      ((branchAndBoundResult ratSqrt emptyWard).patientsAssigned = 0 ∧
        (branchAndBoundResult ratSqrt emptyWard).efficiencyScore = none) :=
  ⟨rfl, empty_patient_list_metrics ratSqrt emptyWard rfl⟩

/-- The rounding on known values: the doubles of the literals `0.4` and `0.3`, the
sum `0.1 + 0.2`, which is `0.30000000000000004`, a tie in the subnormal range,
which goes to the even multiple of `2 ^ (-1074)`, and the double
`77.49999999999999` that `Math.round` receives for one patient, assigned at the
distance 0, and the utilization 25. -/
theorem binary64_examples :
    binary64 (2 / 5) = 3602879701896397 / 9007199254740992 ∧
      binary64 (3 / 10) = 5404319552844595 / 18014398509481984 ∧
      binary64 (binary64 (1 / 10) + binary64 (2 / 10)) = 1351079888211149 / 4503599627370496 ∧
      binary64 (pow2 (-1074) * (3 / 2)) = pow2 (-1074) * 2 ∧
      binary64 (pow2 (-1074) * (1 / 2)) = 0 ∧
      binary64 1 = 1 ∧ binary64 100 = 100 ∧ binary64 (-(1 / 3)) = -binary64 (1 / 3) ∧
      binary64 (binary64 (binary64 (binary64 (1 * binary64 (2 / 5)) +
          binary64 (1 * binary64 (3 / 10))) + binary64 (binary64 (25 / 100) * binary64 (3 / 10))) *
          100) = 5453577673768959 / 70368744177664 ∧
      (5453577673768959 / 70368744177664 : ℚ) < 155 / 2 := by
  decide!

/-- Counterexample for C17 as stated: for one patient, assigned at the distance 0,
and the utilization 25 the value `100 * (0.4 + 0.3 + 0.075)` is `77.5`, whose
rounding is 78, and `calculateEfficiencyScore` returns 77, because the double it
rounds is `77.49999999999999`; in the same way it returns 52 where the rounding
of the value `52.5` is 53. -/
theorem calculateEfficiencyScore_below_exact_rounding :
    calculateEfficiencyScore 1 1 (some (0 : ℚ)) (some 25) = some 77 ∧
      round (100 * (0.4 * (((1 : Nat) : ℚ) / ((1 : Nat) : ℚ)) +
          0.3 * max 0 (1 - (0 : ℚ) / 50) + 0.3 * ((25 : ℚ) / 100))) = 78 ∧
      calculateEfficiencyScore 1 0 (some (0 : ℚ)) (some 75) = some 52 ∧
      round (100 * (0.4 * (((0 : Nat) : ℚ) / ((1 : Nat) : ℚ)) +
          0.3 * max 0 (1 - (0 : ℚ) / 50) + 0.3 * ((75 : ℚ) / 100))) = 53 :=
  ⟨by decide!, by norm_num [round_eq], by decide!, by norm_num [round_eq]⟩

/-- Witness for C17 (amended): two of three patients assigned at an average
distance of 10 with full utilization give the score 81. -/
theorem calculateEfficiencyScore_near_value_witness :
    calculateEfficiencyScore 3 2 (some (10 : ℚ)) (some 100) = some 81 ∧
      ∃ score : Int,
        calculateEfficiencyScore 3 2 (some (10 : ℚ)) (some 100) = some score ∧
        0 ≤ score ∧ score ≤ 100 ∧
        |(score : ℚ) - 100 * (0.4 * (((2 : Nat) : ℚ) / ((3 : Nat) : ℚ)) +
            0.3 * max 0 (1 - (10 : ℚ) / 50) + 0.3 * ((100 : ℚ) / 100))| ≤
          1 / 2 + 1 / 10 ^ 9 :=
  ⟨by decide!,
    calculateEfficiencyScore_near_value 3 2 (10 : ℚ) 100 (by decide) (by decide) (by norm_num)
      (by norm_num) (by norm_num)⟩

/-! ## Urgency order of `greedyMatching` -/

section Priority

variable {α : Type} [LinearOrderedField α]

theorem greedyStep_keys (sqrt : α → α) (st : GreedyState α) (p : Nat) :
    (greedyStep sqrt st p).patients.map patientKey = st.patients.map patientKey ∧
      (greedyStep sqrt st p).hospitals.map hospitalKey = st.hospitals.map hospitalKey := by
  rcases greedyStep_cases sqrt st p with h | ⟨patient, d, h, i, bh, hp, _, hh, heq⟩
  · rw [h]
    exact ⟨rfl, rfl⟩
  · rw [heq, assignGreedy_patients, assignGreedy_hospitals]
    have hgf := greedyHospital_fields patient d bh
    have hkey : hospitalKey (greedyHospital patient d bh) = hospitalKey bh := by
      unfold hospitalKey
      rw [hgf.2.1, hgf.2.2.1, hgf.2.2.2.1, hgf.2.2.2.2]
    exact ⟨map_set_of_eq _ _ patient _ patientKey hp (greedyPatient_fields patient d bh).1,
      map_set_of_eq _ _ bh _ hospitalKey hh hkey⟩

theorem foldl_greedyStep_keys (sqrt : α → α) :
    ∀ (qs : List Nat) (st : GreedyState α),
      (qs.foldl (greedyStep sqrt) st).patients.map patientKey = st.patients.map patientKey ∧
        (qs.foldl (greedyStep sqrt) st).hospitals.map hospitalKey =
          st.hospitals.map hospitalKey := by
  intro qs
  induction qs with
  | nil => intro st; exact ⟨rfl, rfl⟩
  | cons q qs ih =>
    intro st
    rw [List.foldl_cons]
    obtain ⟨h1, h2⟩ := ih (greedyStep sqrt st q)
    obtain ⟨h3, h4⟩ := greedyStep_keys sqrt st q
    exact ⟨h1.trans h3, h2.trans h4⟩

theorem greedyRun_keys (sqrt : α → α) (sys : System α) (done : List Nat) :
    (greedyRun sqrt sys done).patients.map patientKey = sys.patients.map patientKey ∧
      (greedyRun sqrt sys done).hospitals.map hospitalKey = sys.hospitals.map hospitalKey :=
  foldl_greedyStep_keys sqrt done (greedyInit sys)

theorem noRoom_greedyStep (sqrt : α → α) (s : String) (st : GreedyState α) (p : Nat)
    (hno : NoRoom s st.hospitals) : NoRoom s (greedyStep sqrt st p).hospitals := by
  rcases greedyStep_cases sqrt st p with h | ⟨patient, d, h, i, bh, _, _, hh, heq⟩
  · rw [h]; exact hno
  · rw [heq, assignGreedy_hospitals]
    intro x hx hs
    rcases List.mem_or_eq_of_mem_set hx with hx | hx
    · exact hno x hx hs
    · subst hx
      have hgf := greedyHospital_fields patient d bh
      rw [hgf.2.2.2.1] at hs
      have := hno bh (List.mem_iff_getElem?.mpr ⟨h, hh⟩) hs
      rw [hgf.1, hgf.2.1]
      omega

theorem noRoom_foldl_greedyStep (sqrt : α → α) (s : String) :
    ∀ (qs : List Nat) (st : GreedyState α), NoRoom s st.hospitals →
      NoRoom s (qs.foldl (greedyStep sqrt) st).hospitals := by
  intro qs
  induction qs with
  | nil => intro st h; exact h
  | cons q qs ih =>
    intro st h
    rw [List.foldl_cons]
    exact ih _ (noRoom_greedyStep sqrt s st q h)

theorem findBestHospital_none_iff (sqrt : α → α) (st : GreedyState α) (hinv : AvailInv st)
    (patient : Patient α) :
    findBestHospital sqrt st.hospitals st.availableHospitals patient = none ↔
      NoRoom patient.requiredSpecialization st.hospitals := by
  constructor
  · intro hb x hx hs
    obtain ⟨j, hj⟩ := List.mem_iff_getElem?.mp hx
    have := findBestHospital_none sqrt st hinv patient hb j x hj
    unfold eligible at this
    by_contra hc
    exact this ⟨by omega, hs⟩
  · intro hno
    cases hb : findBestHospital sqrt st.hospitals st.availableHospitals patient with
    | none => rfl
    | some t =>
      obtain ⟨d, h, i⟩ := t
      obtain ⟨bh, hne, _⟩ := findBestHospital_nearest sqrt st hinv patient d h i hb
      have := hno bh (List.mem_iff_getElem?.mpr ⟨h, hne.1⟩) hne.2.1.2
      have := hne.2.1.1
      omega

theorem sortedPatients_pairwise (patients : List (Patient α)) :
    (sortedPatients patients).Pairwise (fun i j =>
      ∀ x y : Patient α, patients[i]? = some x → patients[j]? = some y →
        urgencyOrder y.urgency ≤ urgencyOrder x.urgency) := by
  unfold sortedPatients
  haveI : IsTotal (Nat × Patient α) urgencyBefore := ⟨fun a b => Nat.le_total _ _⟩
  haveI : IsTrans (Nat × Patient α) urgencyBefore :=
    ⟨fun a b c hab hbc => Nat.le_trans hbc hab⟩
  have hs := List.sorted_insertionSort urgencyBefore patients.enum
  rw [List.pairwise_map]
  refine List.Pairwise.imp_of_mem ?_ hs
  intro a b ha hb hab x y hx hy
  have ha' := List.mem_enum_iff_getElem?.mp ((List.mem_insertionSort urgencyBefore).mp ha)
  have hb' := List.mem_enum_iff_getElem?.mp ((List.mem_insertionSort urgencyBefore).mp hb)
  rw [ha'] at hx
  rw [hb'] at hy
  cases hx
  cases hy
  exact hab

theorem greedyFinds_eq_false_iff (sqrt : α → α) (sys : System α) (before : List Nat) (p : Nat)
    (patient : Patient α) (hp : (greedyRun sqrt sys before).patients[p]? = some patient) :
    greedyFinds sqrt sys before p = false ↔
      NoRoom patient.requiredSpecialization (greedyRun sqrt sys before).hospitals := by
  unfold greedyFinds
  rw [hp]
  simp only []
  rw [← findBestHospital_none_iff sqrt _ (availInv_greedyRun sqrt sys before) patient]
  cases findBestHospital sqrt (greedyRun sqrt sys before).hospitals
    (greedyRun sqrt sys before).availableHospitals patient <;> simp

theorem greedyRun_patient_key (sqrt : α → α) (sys : System α) (before : List Nat) (p : Nat)
    (x : Patient α) (hx : sys.patients[p]? = some x) :
    ∃ y, (greedyRun sqrt sys before).patients[p]? = some y ∧ patientKey y = patientKey x := by
  obtain ⟨y, hy, hk⟩ := getElem?_of_map_eq (greedyRun sqrt sys before).patients sys.patients
    patientKey (greedyRun_keys sqrt sys before).1.symm p x hx
  exact ⟨y, hy, hk⟩

/-- The core of C11: a patient for whom the scan finds nothing is not more urgent
than a patient of the same specialization for whom it finds a hospital. -/
theorem greedy_priority (sqrt : α → α) (sys : System α)
    (beforeP afterP beforeQ afterQ : List Nat) (p q : Nat) (x y : Patient α)
    (hrunP : sortedPatients sys.patients = beforeP ++ p :: afterP)
    (hrunQ : sortedPatients sys.patients = beforeQ ++ q :: afterQ)
    (hx : sys.patients[p]? = some x) (hy : sys.patients[q]? = some y)
    (hspec : x.requiredSpecialization = y.requiredSpecialization)
    (hp : greedyFinds sqrt sys beforeP p = false)
    (hq : greedyFinds sqrt sys beforeQ q = true) :
    urgencyOrder x.urgency ≤ urgencyOrder y.urgency := by
  obtain ⟨x', hx', hkx⟩ := greedyRun_patient_key sqrt sys beforeP p x hx
  obtain ⟨y', hy', hky⟩ := greedyRun_patient_key sqrt sys beforeQ q y hy
  have hxs : x'.requiredSpecialization = x.requiredSpecialization := by
    simp only [patientKey, Prod.mk.injEq] at hkx
    exact hkx.2.1
  have hys : y'.requiredSpecialization = y.requiredSpecialization := by
    simp only [patientKey, Prod.mk.injEq] at hky
    exact hky.2.1
  have hnoP := (greedyFinds_eq_false_iff sqrt sys beforeP p x' hx').mp hp
  have hq' : ¬ NoRoom y'.requiredSpecialization (greedyRun sqrt sys beforeQ).hospitals := by
    intro hc
    have := (greedyFinds_eq_false_iff sqrt sys beforeQ q y' hy').mpr hc
    rw [hq] at this
    cases this
  have hpw := sortedPatients_pairwise sys.patients
  have heq : beforeP ++ p :: afterP = beforeQ ++ q :: afterQ := hrunP.symm.trans hrunQ
  rcases List.append_eq_append_iff.mp heq with ⟨a, ha1, ha2⟩ | ⟨c, hc1, hc2⟩
  · -- beforeQ = beforeP ++ a
    cases a with
    | nil =>
      simp only [List.nil_append, List.cons.injEq] at ha2
      simp only [List.append_nil] at ha1
      exfalso
      apply hq'
      rw [ha1, hys, ← hspec, ← hxs]
      exact hnoP
    | cons a0 a =>
      simp only [List.cons_append, List.cons.injEq] at ha2
      exfalso
      apply hq'
      rw [ha1, hys, ← hspec, ← hxs]
      unfold greedyRun
      rw [List.foldl_append]
      exact noRoom_foldl_greedyStep sqrt _ _ _ hnoP
  · -- beforeP = beforeQ ++ c
    cases c with
    | nil =>
      simp only [List.nil_append, List.cons.injEq] at hc2
      simp only [List.append_nil] at hc1
      exfalso
      apply hq'
      rw [← hc1, hys, ← hspec, ← hxs]
      exact hnoP
    | cons c0 c =>
      simp only [List.cons_append, List.cons.injEq] at hc2
      have hqc : q = c0 := hc2.1
      have hmem : q ∈ beforeP := by
        rw [hc1, hqc]
        simp
      rw [hrunP, List.pairwise_append] at hpw
      exact hpw.2.2 q hmem p (List.mem_cons_self _ _) y x hy hx

end Priority

section PriorityClaim

variable {α : Type} [LinearOrderedField α]

theorem greedyRun_patient_untouched (sqrt : α → α) (sys : System α) (before : List Nat)
    (p : Nat) (hp : p ∉ before) :
    (greedyRun sqrt sys before).patients[p]? = sys.patients[p]? := by
  unfold greedyRun
  rw [foldl_greedyStep_patients_frame sqrt p before _ hp]
  rfl

/-- What the run leaves at a position of the patient list: the record as it was
when nothing was found, a record with a hospital otherwise. -/
theorem greedy_final_patient (sqrt : α → α) (sys : System α) (before after : List Nat)
    (p : Nat) (x : Patient α)
    (hrun : sortedPatients sys.patients = before ++ p :: after)
    (hx : sys.patients[p]? = some x) :
    (greedyFinds sqrt sys before p = false ∧
        (greedyMatching sqrt sys).system.patients[p]? = some x) ∨
      (greedyFinds sqrt sys before p = true ∧
        ∃ y, (greedyMatching sqrt sys).system.patients[p]? = some y ∧
          y.assignedHospital ≠ none) := by
  have hnd := sortedPatients_nodup sys.patients
  rw [hrun] at hnd
  have hpafter : p ∉ after := by
    have := (List.nodup_append.mp hnd).2.1
    exact (List.nodup_cons.mp this).1
  have hpbefore : p ∉ before := by
    intro hc
    exact (List.nodup_append.mp hnd).2.2 hc (List.mem_cons_self _ _)
  have hfinal : (greedyMatching sqrt sys).system.patients[p]? =
      (greedyStep sqrt (greedyRun sqrt sys before) p).patients[p]? := by
    unfold greedyMatching
    simp only []
    rw [hrun]
    unfold greedyRun
    rw [List.foldl_append, List.foldl_cons]
    exact foldl_greedyStep_patients_frame sqrt p after _ hpafter
  have hget : (greedyRun sqrt sys before).patients[p]? = some x := by
    rw [greedyRun_patient_untouched sqrt sys before p hpbefore, hx]
  have hinv := availInv_greedyRun sqrt sys before
  have hfinds : greedyFinds sqrt sys before p =
      (findBestHospital sqrt (greedyRun sqrt sys before).hospitals
        (greedyRun sqrt sys before).availableHospitals x).isSome := by
    unfold greedyFinds
    rw [hget]
  rw [hfinal, hfinds]
  generalize greedyRun sqrt sys before = st at hget hinv
  cases hb : findBestHospital sqrt st.hospitals st.availableHospitals x with
  | none =>
    left
    refine ⟨rfl, ?_⟩
    unfold greedyStep
    rw [hget]
    simp only [hb]
    exact hget
  | some t =>
    obtain ⟨d, h, i⟩ := t
    right
    obtain ⟨bh, hne, hd⟩ := findBestHospital_nearest sqrt st hinv _ d h i hb
    have hstep : greedyStep sqrt st p = assignGreedy st p x d h i bh := by
      unfold greedyStep
      rw [hget]
      simp only [hb, hne.1]
    have hpf := greedyPatient_fields x d bh
    have hpst : p < st.patients.length := by
      by_contra hc
      rw [List.getElem?_eq_none (by omega)] at hget
      cases hget
    refine ⟨rfl, greedyPatient x d bh, ?_, ?_⟩
    · rw [hstep, assignGreedy_patients, List.getElem?_set]
      simp [hpst]
    · rw [hpf.2.1]
      simp

/-- C11. In every run of `greedyMatching`: if the run finds no hospital for the
patient at position `p` when it takes that patient up, and finds one for the
patient at position `q`, who requires the same specialization, then the urgency
weight of the patient at `q` is at least that of the patient at `p`.  From a
reset state this reads on the state after the run: a patient left with
`assignedHospital` null is not more urgent than a patient of the same
specialization left with a hospital. -/
theorem greedyMatching_assigns_by_urgency (sqrt : α → α) (sys : System α) :
    (∀ (beforeP afterP beforeQ afterQ : List Nat) (p q : Nat) (x y : Patient α),
        sortedPatients sys.patients = beforeP ++ p :: afterP →
        sortedPatients sys.patients = beforeQ ++ q :: afterQ →
        sys.patients[p]? = some x → sys.patients[q]? = some y →
        x.requiredSpecialization = y.requiredSpecialization →
        greedyFinds sqrt sys beforeP p = false → greedyFinds sqrt sys beforeQ q = true →
        urgencyOrder x.urgency ≤ urgencyOrder y.urgency) ∧
      ((∀ x ∈ sys.patients, x.assignedHospital = none) →
        ∀ (p q : Nat) (x y : Patient α),
          (greedyMatching sqrt sys).system.patients[p]? = some x →
          (greedyMatching sqrt sys).system.patients[q]? = some y →
          x.requiredSpecialization = y.requiredSpecialization →
          x.assignedHospital = none → y.assignedHospital ≠ none →
          urgencyOrder x.urgency ≤ urgencyOrder y.urgency) := by
  refine ⟨fun bP aP bQ aQ p q x y h1 h2 h3 h4 h5 h6 h7 =>
    greedy_priority sqrt sys bP aP bQ aQ p q x y h1 h2 h3 h4 h5 h6 h7, ?_⟩
  intro hreset p q x y hx hy hspec hxn hyn
  have hkeys : (greedyMatching sqrt sys).system.patients.map patientKey =
      sys.patients.map patientKey := by
    unfold greedyMatching
    simp only []
    exact (greedyRun_keys sqrt sys (sortedPatients sys.patients)).1
  obtain ⟨x0, hx0, hkx⟩ := getElem?_of_map_eq sys.patients _ patientKey hkeys p x hx
  obtain ⟨y0, hy0, hky⟩ := getElem?_of_map_eq sys.patients _ patientKey hkeys q y hy
  simp only [patientKey, Prod.mk.injEq] at hkx hky
  have hpm : p ∈ sortedPatients sys.patients := by
    rw [mem_sortedPatients]
    by_contra hc
    rw [List.getElem?_eq_none (by omega)] at hx0
    cases hx0
  have hqm : q ∈ sortedPatients sys.patients := by
    rw [mem_sortedPatients]
    by_contra hc
    rw [List.getElem?_eq_none (by omega)] at hy0
    cases hy0
  obtain ⟨bP, aP, hrunP⟩ := List.append_of_mem hpm
  obtain ⟨bQ, aQ, hrunQ⟩ := List.append_of_mem hqm
  have hPf : greedyFinds sqrt sys bP p = false := by
    rcases greedy_final_patient sqrt sys bP aP p x0 hrunP hx0 with ⟨hf, _⟩ | ⟨_, z, hz, hzn⟩
    · exact hf
    · rw [hx] at hz
      cases hz
      exact absurd hxn hzn
  have hQf : greedyFinds sqrt sys bQ q = true := by
    rcases greedy_final_patient sqrt sys bQ aQ q y0 hrunQ hy0 with ⟨_, hz⟩ | ⟨hf, _⟩
    · rw [hy] at hz
      cases hz
      exact absurd (hreset y (List.mem_iff_getElem?.mpr ⟨q, hy0⟩)) hyn
    · exact hf
  have := greedy_priority sqrt sys bP aP bQ aQ p q x0 y0 hrunP hrunQ hx0 hy0
    (by rw [hkx.2.1, hky.2.1, hspec]) hPf hQf
  rw [hkx.2.2.1, hky.2.2.1] at this
  exact this

end PriorityClaim

/-! ## The utilization of the result -/

section Utilization

variable {α : Type} [LinearOrderedField α]

theorem utilizationOf_pos (cp cap : Nat) (hcap : 1 ≤ cap) :
    (utilizationOf cp cap : Option α) = some (100 * (cp : α) / (cap : α)) := by
  unfold utilizationOf jsDiv
  have : (cap : α) ≠ 0 := by
    have : (0 : α) < (cap : α) := by exact_mod_cast hcap
    exact ne_of_gt this
  rw [if_neg this]
  simp only [Option.map_some', Option.some.injEq]
  ring

theorem foldl_sumUtilization (hs : List (Hospital α)) (hcur : UtilizationCurrent hs)
    (hcap : ∀ h ∈ hs, 1 ≤ h.capacity) :
    ∀ a : α, hs.foldl
        (fun sum h =>
          match sum, h.utilization with
          | some s, some u => some (s + u)
          | _, _ => none)
        (some a) = some (a + (hs.map occupancy).sum) := by
  induction hs with
  | nil => intro a; simp
  | cons h hs ih =>
    intro a
    have hu : h.utilization = some (occupancy h) := by
      rw [hcur h (List.mem_cons_self _ _)]
      exact utilizationOf_pos _ _ (hcap h (List.mem_cons_self _ _))
    rw [List.foldl_cons, hu]
    simp only []
    rw [ih (fun x hx => hcur x (List.mem_cons_of_mem _ hx))
      (fun x hx => hcap x (List.mem_cons_of_mem _ hx))]
    simp only [List.map_cons, List.sum_cons, Option.some.injEq]
    ring

theorem greedyHospital_utilization (patient : Patient α) (d : α) (bh : Hospital α) :
    (greedyHospital patient d bh).utilization =
      utilizationOf (bh.currentPatients + 1) bh.capacity := by
  unfold greedyHospital
  simp only []
  have h1 := assignBed_hospital
    ({ patient with assignedHospital := some bh.id, travelDistance := d } : Patient α) bh
  have h2 := assignDoctor_hospital
    (assignBed ({ patient with assignedHospital := some bh.id, travelDistance := d } : Patient α) bh).1
    (assignBed ({ patient with assignedHospital := some bh.id, travelDistance := d } : Patient α) bh).2
  rw [h2.1, h1.1, h2.2.1, h1.2.1]

theorem utilizationCurrent_greedyStep (sqrt : α → α) (st : GreedyState α) (p : Nat)
    (hcur : UtilizationCurrent st.hospitals) :
    UtilizationCurrent (greedyStep sqrt st p).hospitals := by
  rcases greedyStep_cases sqrt st p with h | ⟨patient, d, h, i, bh, _, _, hh, heq⟩
  · rw [h]; exact hcur
  · rw [heq, assignGreedy_hospitals]
    intro x hx
    rcases List.mem_or_eq_of_mem_set hx with hx | hx
    · exact hcur x hx
    · subst hx
      have hgf := greedyHospital_fields patient d bh
      rw [hgf.1, hgf.2.1]
      exact greedyHospital_utilization patient d bh

theorem utilizationCurrent_foldl_greedyStep (sqrt : α → α) :
    ∀ (qs : List Nat) (st : GreedyState α), UtilizationCurrent st.hospitals →
      UtilizationCurrent (qs.foldl (greedyStep sqrt) st).hospitals := by
  intro qs
  induction qs with
  | nil => intro st h; exact h
  | cons q qs ih =>
    intro st h
    rw [List.foldl_cons]
    exact ih _ (utilizationCurrent_greedyStep sqrt st q h)

theorem utilizationCurrent_reset (hs : List (Hospital α)) (hcap : ∀ h ∈ hs, 1 ≤ h.capacity) :
    UtilizationCurrent (hs.map resetHospital) := by
  intro x hx
  rw [List.mem_map] at hx
  obtain ⟨h, hh, rfl⟩ := hx
  unfold resetHospital
  simp only []
  rw [utilizationOf_pos 0 h.capacity (hcap h hh)]
  simp

theorem utilizationCurrent_updateAt (hs : List (Hospital α)) (k : Nat)
    (f : Hospital α → Hospital α) (hcur : UtilizationCurrent hs)
    (hf : ∀ x, hs[k]? = some x →
      (f x).utilization = utilizationOf (f x).currentPatients (f x).capacity) :
    UtilizationCurrent (updateAt hs k f) := by
  intro x hx
  rcases mem_updateAt hs k f x hx with hx | ⟨y, hy, rfl⟩
  · exact hcur x hx
  · exact hf y hy

theorem utilizationCurrent_applyEdge (sys : System α) (a : Edge α)
    (hcur : UtilizationCurrent sys.hospitals) :
    UtilizationCurrent (applyEdge sys a).hospitals := by
  rcases applyEdge_hospitals sys a with h | ⟨_, h⟩
  · rw [h]; exact hcur
  · rw [h]
    apply utilizationCurrent_updateAt _ _ _ hcur
    intro x _
    rfl

theorem utilizationCurrent_foldl_applyEdge :
    ∀ (sol : List (Edge α)) (sys : System α), UtilizationCurrent sys.hospitals →
      UtilizationCurrent (sol.foldl applyEdge sys).hospitals := by
  intro sol
  induction sol with
  | nil => intro sys h; exact h
  | cons a sol ih =>
    intro sys h
    rw [List.foldl_cons]
    exact ih _ (utilizationCurrent_applyEdge sys a h)

theorem utilizationCurrent_processHospital (sqrt : α → α) (group : List Nat)
    (st : KnapsackState α) (h : Nat) (hcur : UtilizationCurrent st.hospitals) :
    UtilizationCurrent (processHospital sqrt group st h).hospitals := by
  unfold processHospital
  cases hh : st.hospitals[h]? with
  | none => exact hcur
  | some hospital =>
    simp only []
    cases hc : candidates sqrt st.patients group hospital with
    | nil => exact hcur
    | cons item items =>
      simp only []
      rw [foldl_assignSelected_hospitals, updateAt_updateAt]
      apply utilizationCurrent_updateAt _ _ _ hcur
      intro x _
      rfl

theorem utilizationCurrent_processSpecialization (sqrt : α → α) (st : KnapsackState α)
    (s : String) (hcur : UtilizationCurrent st.hospitals) :
    UtilizationCurrent (processSpecialization sqrt st s).hospitals := by
  unfold processSpecialization
  cases st.hospitals.filter (fun h => decide (h.specialization = s)) with
  | nil => exact hcur
  | cons first others =>
    simp only []
    have : ∀ (ps : List Nat) (st0 : KnapsackState α), UtilizationCurrent st0.hospitals →
        UtilizationCurrent
          (ps.foldl (processHospital sqrt (sortedGroup sqrt st.patients s first others))
            st0).hospitals := by
      intro ps
      induction ps with
      | nil => intro st0 h0; exact h0
      | cons q ps ih =>
        intro st0 h0
        rw [List.foldl_cons]
        exact ih _ (utilizationCurrent_processHospital sqrt _ st0 q h0)
    exact this _ st hcur

theorem utilizationCurrent_foldSpecializations (sqrt : α → α) :
    ∀ (ks : List String) (st : KnapsackState α), UtilizationCurrent st.hospitals →
      UtilizationCurrent (ks.foldl (processSpecialization sqrt) st).hospitals := by
  intro ks
  induction ks with
  | nil => intro st h; exact h
  | cons k ks ih =>
    intro st h
    rw [List.foldl_cons]
    exact ih _ (utilizationCurrent_processSpecialization sqrt st k h)

theorem foldSpecializations_keys (sqrt : α → α) :
    ∀ (ks : List String) (st : KnapsackState α),
      (ks.foldl (processSpecialization sqrt) st).hospitals.map hospitalKey =
        st.hospitals.map hospitalKey := by
  intro ks
  induction ks with
  | nil => intro st; rfl
  | cons k ks ih =>
    intro st
    rw [List.foldl_cons, ih, processSpecialization_keys]

theorem capacity_of_keys (hs hs' : List (Hospital α))
    (hkeys : hs'.map hospitalKey = hs.map hospitalKey) (hcap : ∀ h ∈ hs, 1 ≤ h.capacity) :
    ∀ h ∈ hs', 1 ≤ h.capacity := by
  intro h hh
  obtain ⟨k, hk⟩ := List.mem_iff_getElem?.mp hh
  obtain ⟨y, hy, hkey⟩ := getElem?_of_map_eq hs hs' hospitalKey hkeys k h hk
  simp only [hospitalKey, Prod.mk.injEq] at hkey
  have := hcap y (List.mem_iff_getElem?.mpr ⟨k, hy⟩)
  omega

theorem totalUtilization_eq (hs : List (Hospital α)) (hne : hs ≠ [])
    (hcur : UtilizationCurrent hs) (hcap : ∀ h ∈ hs, 1 ≤ h.capacity) :
    totalUtilization hs = some (meanOccupancy hs) := by
  unfold totalUtilization sumUtilization
  rw [foldl_sumUtilization hs hcur hcap 0]
  simp only []
  unfold jsDiv meanOccupancy
  have hlen : (hs.length : α) ≠ 0 := by
    have : 0 < hs.length := List.length_pos.mpr hne
    have : (0 : α) < (hs.length : α) := by exact_mod_cast this
    exact ne_of_gt this
  rw [if_neg hlen, zero_add]

end Utilization

section UtilizationClaim

variable {α : Type} [LinearOrderedField α] [FloorRing α] [Rounding α]

theorem greedyMatching_utilizationCurrent (sqrt : α → α) (sys : System α)
    (hreset : ∀ h ∈ sys.hospitals, h.currentPatients = 0 ∧ h.utilization = some 0)
    (hcap : ∀ h ∈ sys.hospitals, 1 ≤ h.capacity) :
    UtilizationCurrent (greedyMatching sqrt sys).system.hospitals := by
  unfold greedyMatching greedyRun
  simp only []
  apply utilizationCurrent_foldl_greedyStep
  intro h hh
  have hh' : h ∈ sys.hospitals := hh
  rw [(hreset h hh').1, (hreset h hh').2, utilizationOf_pos 0 h.capacity (hcap h hh')]
  simp

theorem knapsackDP_utilizationCurrent (sqrt : α → α) (sys : System α)
    (hcap : ∀ h ∈ sys.hospitals, 1 ≤ h.capacity) :
    UtilizationCurrent (knapsackDP sqrt sys).system.hospitals := by
  unfold knapsackDP
  simp only []
  apply utilizationCurrent_foldSpecializations
  exact utilizationCurrent_reset sys.hospitals hcap

theorem branchAndBound_utilizationCurrent (sqrt : α → α) (sys : System α)
    (hcap : ∀ h ∈ sys.hospitals, 1 ≤ h.capacity) :
    UtilizationCurrent (branchAndBound sqrt sys).system.hospitals := by
  unfold branchAndBound
  cases (search sqrt sys).bestSolution with
  | none => exact utilizationCurrent_reset sys.hospitals hcap
  | some sol =>
    simp only []
    apply utilizationCurrent_foldl_applyEdge
    exact utilizationCurrent_reset sys.hospitals hcap

theorem knapsackDP_hospital_keys (sqrt : α → α) (sys : System α) :
    (knapsackDP sqrt sys).system.hospitals.map hospitalKey = sys.hospitals.map hospitalKey := by
  unfold knapsackDP
  simp only []
  rw [foldSpecializations_keys, hospitalKey_reset]

theorem branchAndBound_hospital_keys (sqrt : α → α) (sys : System α) :
    (branchAndBound sqrt sys).system.hospitals.map hospitalKey =
      sys.hospitals.map hospitalKey := by
  rw [(branchAndBound_applyInv sqrt sys).1, hospitalKey_reset]

theorem greedyMatching_hospital_keys (sqrt : α → α) (sys : System α) :
    (greedyMatching sqrt sys).system.hospitals.map hospitalKey =
      sys.hospitals.map hospitalKey := by
  unfold greedyMatching
  simp only []
  exact (greedyRun_keys sqrt sys (sortedPatients sys.patients)).2

theorem ne_nil_of_keys (hs hs' : List (Hospital α))
    (hkeys : hs'.map hospitalKey = hs.map hospitalKey) (hne : hs ≠ []) : hs' ≠ [] := by
  intro hc
  rw [hc] at hkeys
  simp only [List.map_nil] at hkeys
  exact hne (List.map_eq_nil_iff.mp hkeys.symm)

/-- C18. From a state in which every hospital has `currentPatients = 0` and
`utilization = 0`, with at least one hospital and every capacity at least 1, the
`utilization` of the result of each of the three allocators is the mean, over
all hospitals, of `100 * currentPatients / capacity` in the state after the
run. -/
theorem result_utilization_is_mean_occupancy (sqrt : α → α) (sys : System α)
    (hne : sys.hospitals ≠ [])
    (hcap : ∀ h ∈ sys.hospitals, 1 ≤ h.capacity)
    (hreset : ∀ h ∈ sys.hospitals, h.currentPatients = 0 ∧ h.utilization = some 0) :
    (greedyMatchingResult sqrt sys).utilization =
        some (meanOccupancy (greedyMatching sqrt sys).system.hospitals) ∧
      (knapsackDPResult sqrt sys).utilization =
        some (meanOccupancy (knapsackDP sqrt sys).system.hospitals) ∧
      (branchAndBoundResult sqrt sys).utilization =
        some (meanOccupancy (branchAndBound sqrt sys).system.hospitals) := by
  refine ⟨?_, ?_, ?_⟩
  · unfold greedyMatchingResult
    simp only []
    exact totalUtilization_eq _
      (ne_nil_of_keys _ _ (greedyMatching_hospital_keys sqrt sys) hne)
      (greedyMatching_utilizationCurrent sqrt sys hreset hcap)
      (capacity_of_keys _ _ (greedyMatching_hospital_keys sqrt sys) hcap)
  · unfold knapsackDPResult
    simp only []
    exact totalUtilization_eq _
      (ne_nil_of_keys _ _ (knapsackDP_hospital_keys sqrt sys) hne)
      (knapsackDP_utilizationCurrent sqrt sys hcap)
      (capacity_of_keys _ _ (knapsackDP_hospital_keys sqrt sys) hcap)
  · unfold branchAndBoundResult
    simp only []
    exact totalUtilization_eq _
      (ne_nil_of_keys _ _ (branchAndBound_hospital_keys sqrt sys) hne)
      (branchAndBound_utilizationCurrent sqrt sys hcap)
      (capacity_of_keys _ _ (branchAndBound_hospital_keys sqrt sys) hcap)

end UtilizationClaim

/-- Witness for C18: the scenario of the specification, where the one hospital
ends full and the utilization of each result is 100. -/
theorem result_utilization_is_mean_occupancy_witness :
    scenario.hospitals ≠ [] ∧
      (∀ h ∈ scenario.hospitals, 1 ≤ h.capacity) ∧
      (∀ h ∈ scenario.hospitals, h.currentPatients = 0 ∧ h.utilization = some 0) ∧
      meanOccupancy (greedyMatching ratSqrt scenario).system.hospitals = 100 ∧
      ((greedyMatchingResult ratSqrt scenario).utilization =
          some (meanOccupancy (greedyMatching ratSqrt scenario).system.hospitals) ∧
        (knapsackDPResult ratSqrt scenario).utilization =
          some (meanOccupancy (knapsackDP ratSqrt scenario).system.hospitals) ∧
        (branchAndBoundResult ratSqrt scenario).utilization =
          some (meanOccupancy (branchAndBound ratSqrt scenario).system.hospitals)) :=
  ⟨by decide!, by decide!, by decide!, by decide!,
    result_utilization_is_mean_occupancy ratSqrt scenario (by decide!) (by decide!)
      (by decide!)⟩

/-- Witness for C11: the scenario of the specification.  The critical patient
and then the urgent patient are assigned at distance 10 each, the stable patient
is taken up last and left unassigned, and `patientsAssigned` is 2. -/
theorem greedyMatching_assigns_by_urgency_witness :
    sortedPatients scenario.patients = [0, 2, 1] ∧
      (greedyMatching ratSqrt scenario).assignments.map
          (fun a => (a.patientId, a.hospitalId, a.distance)) = [(0, 0, 10), (2, 0, 10)] ∧
      (greedyMatching ratSqrt scenario).system.patients.map
          (fun p => (p.id, p.urgency, p.assignedHospital)) =
        [(0, Urgency.critical, some 0), (1, Urgency.stable, none),
          (2, Urgency.urgent, some 0)] ∧
      (greedyMatchingResult ratSqrt scenario).patientsAssigned = 2 ∧
      greedyFinds ratSqrt scenario [0, 2] 1 = false ∧
      greedyFinds ratSqrt scenario [0] 2 = true ∧
      urgencyOrder Urgency.stable ≤ urgencyOrder Urgency.urgent :=
  ⟨by decide!, by decide!, by decide!, by decide!, by decide!, by decide!,
    (greedyMatching_assigns_by_urgency ratSqrt scenario).1 [0, 2] [] [0] [1] 1 2
      (createPatient 1 "cardiology" Urgency.stable ⟨2, 0⟩)
      (createPatient 2 "cardiology" Urgency.urgent ⟨0, 1⟩)
      (by decide!) (by decide!) (by decide!) (by decide!) (by decide!) (by decide!)
      (by decide!)⟩

/-- Counterexample for C19 as stated: in `unmatched` the cardiology patient has a
compatible hospital with a free bed and the neurology patient has none;
`branchAndBound` returns no record at all and leaves the cardiology patient
unassigned, while `greedyMatching` assigns that patient. -/
theorem branchAndBound_drops_placeable_patient :
    (unmatched.patients.map (fun p => p.id)).Nodup ∧
      (unmatched.hospitals.map (fun h => h.id)).Nodup ∧
      (∀ p ∈ unmatched.patients, p.assignedHospital = none) ∧
      unmatched.patients.map (fun p => (p.id, p.requiredSpecialization)) =
        [(1, "cardiology"), (2, "neurology")] ∧
      unmatched.hospitals.map (fun h => (h.id, h.specialization, h.capacity)) =
        [(1, "cardiology", 1)] ∧
      (branchAndBound ratSqrt unmatched).assignments = [] ∧
      (branchAndBound ratSqrt unmatched).system.patients.map
          (fun p => (p.id, p.assignedHospital)) = [(1, none), (2, none)] ∧
      (branchAndBoundResult ratSqrt unmatched).patientsAssigned = 0 ∧
      (greedyMatching ratSqrt unmatched).system.patients.map
          (fun p => (p.id, p.assignedHospital)) = [(1, some 1), (2, none)] := by
  decide!

/-- Why the unique patient identifiers of the data model are needed for the
patient without a hospital: in `sharedPatientId` two patients carry the
identifier 7 against the data model; the first is unassigned and requires
cardiology, which no hospital offers, and after `branchAndBound` that patient is
assigned to the neurology hospital 2, the records naming the identifier 7. -/
theorem branchAndBound_assigns_unmatched_patient :
    sharedPatientId.patients.map
        (fun p => (p.id, p.requiredSpecialization, p.assignedHospital)) =
        [(7, "cardiology", none), (7, "neurology", none)] ∧
      (∀ h ∈ sharedPatientId.hospitals, h.specialization ≠ "cardiology") ∧
      (branchAndBound ratSqrt sharedPatientId).system.patients.map
          (fun p => (p.id, p.requiredSpecialization, p.assignedHospital)) =
        [(7, "cardiology", some 2), (7, "neurology", none)] ∧
      (branchAndBound ratSqrt sharedPatientId).assignments.map
          (fun e => (e.patientId, e.hospitalId)) = [(7, 2), (7, 2)] := by
  decide!

/-! ## The patient for whom no hospital exists -/

section Unmatched

variable {α : Type} [LinearOrderedField α]

theorem not_placeable (pkeys : List (Nat × String × Urgency × Location α))
    (keys : List (Nat × String × Nat × Location α)) (p : Nat) (x : Patient α)
    (hnd : (pkeys.map Prod.fst).Nodup) (hx : pkeys[p]? = some (patientKey x))
    (hnone : ∀ hk ∈ keys, hk.2.1 ≠ x.requiredSpecialization) :
    ¬ Placeable pkeys keys x.id := by
  rintro ⟨pk, hpk, hid, hk, hhk, hspec⟩
  have hxk : patientKey x ∈ pkeys := List.mem_iff_getElem?.mpr ⟨p, hx⟩
  have hsame : pk = patientKey x := by
    apply List.inj_on_of_nodup_map hnd hpk hxk
    exact hid
  apply hnone hk hhk
  rw [hspec, hsame]
  rfl

theorem assignGreedy_assignments (st : GreedyState α) (p : Nat) (patient : Patient α) (d : α)
    (h i : Nat) (bh : Hospital α) :
    ∃ r : Assignment α, (assignGreedy st p patient d h i bh).assignments =
        st.assignments ++ [r] ∧ r.patientId = patient.id := by
  refine ⟨_, rfl, ?_⟩
  have := (greedyPatient_fields patient d bh).1
  simp only [patientKey, Prod.mk.injEq] at this
  exact this.1

theorem unmatchedInv_greedyStep (sqrt : α → α)
    (pkeys : List (Nat × String × Urgency × Location α))
    (keys : List (Nat × String × Nat × Location α)) (p : Nat) (x : Patient α)
    (hnone : ∀ hk ∈ keys, hk.2.1 ≠ x.requiredSpecialization)
    (st : GreedyState α) (q : Nat)
    (hinv : UnmatchedInv pkeys keys p x st.patients st.hospitals
      (st.assignments.map (fun a => a.patientId))) :
    UnmatchedInv pkeys keys p x (greedyStep sqrt st q).patients (greedyStep sqrt st q).hospitals
      ((greedyStep sqrt st q).assignments.map (fun a => a.patientId)) := by
  obtain ⟨i1, i2, i3, i4⟩ := hinv
  obtain ⟨k1, k2⟩ := greedyStep_keys sqrt st q
  rcases greedyStep_cases sqrt st q with h | ⟨patient, d, h, i, bh, hp, hb, hh, heq⟩
  · rw [h]; exact ⟨i1, i2, i3, i4⟩
  · have hspec := findBestHospital_spec sqrt st.hospitals patient st.availableHospitals
    rw [hb] at hspec
    simp only [BestSpec] at hspec
    obtain ⟨_, hosp, hhosp, hel, _⟩ := hspec
    rw [hh] at hhosp
    cases hhosp
    have hbk : hospitalKey bh ∈ keys := by
      rw [← i2]
      exact List.mem_map.mpr ⟨bh, List.mem_iff_getElem?.mpr ⟨h, hh⟩, rfl⟩
    have hpk : patientKey patient ∈ pkeys := by
      rw [← i1]
      exact List.mem_map.mpr ⟨patient, List.mem_iff_getElem?.mpr ⟨q, hp⟩, rfl⟩
    have hqp : q ≠ p := by
      intro hc
      subst hc
      rw [i3] at hp
      cases hp
      exact hnone _ hbk hel.2
    refine ⟨k1.trans i1, k2.trans i2, ?_, ?_⟩
    · rw [greedyStep_patients_frame sqrt st q p hqp]
      exact i3
    · obtain ⟨r, hr, hrid⟩ := assignGreedy_assignments st q patient d h i bh
      rw [heq, hr]
      intro id hid
      rw [List.map_append, List.mem_append] at hid
      rcases hid with hid | hid
      · exact i4 id hid
      · simp only [List.map_cons, List.map_nil, List.mem_singleton] at hid
        subst hid
        exact ⟨patientKey patient, hpk, hrid.symm, hospitalKey bh, hbk, hel.2⟩

theorem unmatchedInv_foldl_greedyStep (sqrt : α → α)
    (pkeys : List (Nat × String × Urgency × Location α))
    (keys : List (Nat × String × Nat × Location α)) (p : Nat) (x : Patient α)
    (hnone : ∀ hk ∈ keys, hk.2.1 ≠ x.requiredSpecialization) :
    ∀ (qs : List Nat) (st : GreedyState α),
      UnmatchedInv pkeys keys p x st.patients st.hospitals
        (st.assignments.map (fun a => a.patientId)) →
      UnmatchedInv pkeys keys p x (qs.foldl (greedyStep sqrt) st).patients
        (qs.foldl (greedyStep sqrt) st).hospitals
        ((qs.foldl (greedyStep sqrt) st).assignments.map (fun a => a.patientId)) := by
  intro qs
  induction qs with
  | nil => intro st h; exact h
  | cons q qs ih =>
    intro st h
    rw [List.foldl_cons]
    exact ih _ (unmatchedInv_greedyStep sqrt pkeys keys p x hnone st q h)

theorem unmatchedInv_assignSelected (pkeys : List (Nat × String × Urgency × Location α))
    (keys : List (Nat × String × Nat × Location α)) (p : Nat) (x : Patient α)
    (hid h : Nat) (st : KnapsackState α) (pick : Pick α)
    (hne : pick.patient.1 ≠ p) (hplace : Placeable pkeys keys pick.patient.2.id)
    (hinv : UnmatchedInv pkeys keys p x st.patients st.hospitals
      (st.assignments.map (fun a => a.patientId))) :
    UnmatchedInv pkeys keys p x (assignSelected hid h st pick).patients
      (assignSelected hid h st pick).hospitals
      ((assignSelected hid h st pick).assignments.map (fun a => a.patientId)) := by
  obtain ⟨i1, i2, i3, i4⟩ := hinv
  unfold assignSelected
  refine ⟨?_, ?_, ?_, ?_⟩
  · refine Eq.trans ?_ i1
    apply map_updateAt
    intro y
    rfl
  · refine Eq.trans ?_ i2
    apply map_updateAt
    intro y
    rfl
  · simp only []
    rw [getElem?_updateAt, if_neg (Ne.symm hne)]
    exact i3
  · intro id hid
    simp only [List.map_append, List.mem_append, List.map_cons, List.map_nil,
      List.mem_singleton] at hid
    rcases hid with hid | hid
    · exact i4 id hid
    · subst hid
      exact hplace

theorem unmatchedInv_foldl_assignSelected
    (pkeys : List (Nat × String × Urgency × Location α))
    (keys : List (Nat × String × Nat × Location α)) (p : Nat) (x : Patient α) (hid h : Nat) :
    ∀ (sel : List (Pick α)) (st : KnapsackState α),
      (∀ pick ∈ sel, pick.patient.1 ≠ p ∧ Placeable pkeys keys pick.patient.2.id) →
      UnmatchedInv pkeys keys p x st.patients st.hospitals
        (st.assignments.map (fun a => a.patientId)) →
      UnmatchedInv pkeys keys p x (sel.foldl (assignSelected hid h) st).patients
        (sel.foldl (assignSelected hid h) st).hospitals
        ((sel.foldl (assignSelected hid h) st).assignments.map (fun a => a.patientId)) := by
  intro sel
  induction sel with
  | nil => intro st _ h; exact h
  | cons pick sel ih =>
    intro st hsel hinv
    rw [List.foldl_cons]
    apply ih
    · intro q hq
      exact hsel q (List.mem_cons_of_mem _ hq)
    · exact unmatchedInv_assignSelected pkeys keys p x hid h st pick
        (hsel pick (List.mem_cons_self _ _)).1 (hsel pick (List.mem_cons_self _ _)).2 hinv

theorem unmatchedInv_processHospital (sqrt : α → α)
    (pkeys : List (Nat × String × Urgency × Location α))
    (keys : List (Nat × String × Nat × Location α)) (p : Nat) (x : Patient α)
    (hnone : ∀ hk ∈ keys, hk.2.1 ≠ x.requiredSpecialization)
    (s : String) (group : List Nat)
    (hgroup : ∀ i ∈ group, ∀ key, pkeys[i]? = some key → key.2.1 = s)
    (st : KnapsackState α) (h : Nat) (hh : ∀ key, keys[h]? = some key → key.2.1 = s)
    (hinv : UnmatchedInv pkeys keys p x st.patients st.hospitals
      (st.assignments.map (fun a => a.patientId))) :
    UnmatchedInv pkeys keys p x (processHospital sqrt group st h).patients
      (processHospital sqrt group st h).hospitals
      ((processHospital sqrt group st h).assignments.map (fun a => a.patientId)) := by
  unfold processHospital
  cases hhosp : st.hospitals[h]? with
  | none => exact hinv
  | some hospital =>
    simp only []
    cases hc : candidates sqrt st.patients group hospital with
    | nil => exact hinv
    | cons item items =>
      simp only []
      have hkeyh := getElem?_map_key _ hospitalKey keys hinv.2.1 h hospital hhosp
      have hhk : hospitalKey hospital ∈ keys := List.mem_iff_getElem?.mpr ⟨h, hkeyh⟩
      have hhs : (hospitalKey hospital).2.1 = s := hh _ hkeyh
      have hsel : ∀ pick ∈ optimalSolution hospital.capacity (item :: items),
          pick.patient.1 ≠ p ∧ Placeable pkeys keys pick.patient.2.id := by
        intro pick hpick
        have h1 := optimalSolution_subset _ _ pick hpick
        rw [← hc] at h1
        obtain ⟨m1, m2, _, _⟩ := mem_candidates sqrt _ _ _ pick h1
        have hk := getElem?_map_key _ patientKey pkeys hinv.1 _ _ m2
        have hs := hgroup _ m1 _ hk
        refine ⟨?_, patientKey pick.patient.2, List.mem_iff_getElem?.mpr ⟨_, hk⟩, rfl,
          hospitalKey hospital, hhk, hhs.trans hs.symm⟩
        intro hcp
        rw [hcp, hinv.2.2.1] at m2
        cases m2
        exact hnone _ hhk (hhs.trans hs.symm)
      obtain ⟨j1, j2, j3, j4⟩ := unmatchedInv_foldl_assignSelected pkeys keys p x hospital.id h
        (optimalSolution hospital.capacity (item :: items)) st hsel hinv
      refine ⟨j1, ?_, j3, j4⟩
      refine Eq.trans ?_ j2
      apply map_updateAt
      intro y
      rfl

theorem unmatchedInv_processSpecialization (sqrt : α → α)
    (pkeys : List (Nat × String × Urgency × Location α))
    (keys : List (Nat × String × Nat × Location α)) (p : Nat) (x : Patient α)
    (hnone : ∀ hk ∈ keys, hk.2.1 ≠ x.requiredSpecialization)
    (st : KnapsackState α) (s : String)
    (hinv : UnmatchedInv pkeys keys p x st.patients st.hospitals
      (st.assignments.map (fun a => a.patientId))) :
    UnmatchedInv pkeys keys p x (processSpecialization sqrt st s).patients
      (processSpecialization sqrt st s).hospitals
      ((processSpecialization sqrt st s).assignments.map (fun a => a.patientId)) := by
  unfold processSpecialization
  split
  · exact hinv
  · rename_i first others _
    simp only []
    have hgroup : ∀ i ∈ sortedGroup sqrt st.patients s first others,
        ∀ key, pkeys[i]? = some key → key.2.1 = s := by
      intro i hi key hk
      obtain ⟨y, hy, hys⟩ := mem_sortedGroup sqrt _ _ _ _ i hi
      have := getElem?_map_key _ patientKey pkeys hinv.1 i y hy
      rw [this] at hk
      cases hk
      exact hys
    have hpos : ∀ h ∈ positionsWhere (fun h : Hospital α => decide (h.specialization = s))
        st.hospitals, ∀ key, keys[h]? = some key → key.2.1 = s := by
      intro h hh key hk
      rw [mem_positionsWhere] at hh
      obtain ⟨y, hy, hys⟩ := hh
      have := getElem?_map_key _ hospitalKey keys hinv.2.1 h y hy
      rw [this] at hk
      cases hk
      simpa using hys
    generalize positionsWhere (fun h : Hospital α => decide (h.specialization = s))
      st.hospitals = pos at hpos
    generalize sortedGroup sqrt st.patients s first others = group at hgroup
    clear * - hinv hgroup hpos hnone
    induction pos generalizing st with
    | nil => exact hinv
    | cons h pos ih =>
      rw [List.foldl_cons]
      apply ih
      · exact unmatchedInv_processHospital sqrt pkeys keys p x hnone s group hgroup st h
          (hpos h (List.mem_cons_self _ _)) hinv
      · intro k hk
        exact hpos k (List.mem_cons_of_mem _ hk)

theorem unmatchedInv_foldSpecializations (sqrt : α → α)
    (pkeys : List (Nat × String × Urgency × Location α))
    (keys : List (Nat × String × Nat × Location α)) (p : Nat) (x : Patient α)
    (hnone : ∀ hk ∈ keys, hk.2.1 ≠ x.requiredSpecialization) :
    ∀ (ks : List String) (st : KnapsackState α),
      UnmatchedInv pkeys keys p x st.patients st.hospitals
        (st.assignments.map (fun a => a.patientId)) →
      UnmatchedInv pkeys keys p x (ks.foldl (processSpecialization sqrt) st).patients
        (ks.foldl (processSpecialization sqrt) st).hospitals
        ((ks.foldl (processSpecialization sqrt) st).assignments.map (fun a => a.patientId)) := by
  intro ks
  induction ks with
  | nil => intro st h; exact h
  | cons s ks ih =>
    intro st h
    rw [List.foldl_cons]
    exact ih _ (unmatchedInv_processSpecialization sqrt pkeys keys p x hnone st s h)

theorem unmatched_applyEdge (pkeys : List (Nat × String × Urgency × Location α))
    (keys : List (Nat × String × Nat × Location α)) (p : Nat) (x : Patient α)
    (hnd : (pkeys.map Prod.fst).Nodup)
    (hnone : ∀ hk ∈ keys, hk.2.1 ≠ x.requiredSpecialization)
    (sys : System α) (a : Edge α) (ha : Placeable pkeys keys a.patientId)
    (hk : sys.patients.map patientKey = pkeys) (hx : sys.patients[p]? = some x) :
    (applyEdge sys a).patients.map patientKey = pkeys ∧
      (applyEdge sys a).patients[p]? = some x := by
  rcases applyEdge_patients sys a with h | ⟨i, y, hy, hyid, h⟩
  · rw [h]; exact ⟨hk, hx⟩
  · rw [h]
    refine ⟨?_, ?_⟩
    · refine Eq.trans ?_ hk
      apply map_updateAt
      intro z
      rfl
    · have hip : p ≠ i := by
        intro hc
        subst hc
        rw [hx] at hy
        cases hy
        rw [← hyid] at ha
        exact not_placeable pkeys keys p x hnd (getElem?_map_key _ patientKey pkeys hk p x hx)
          hnone ha
      rw [getElem?_updateAt, if_neg hip]
      exact hx

theorem unmatched_foldl_applyEdge (pkeys : List (Nat × String × Urgency × Location α))
    (keys : List (Nat × String × Nat × Location α)) (p : Nat) (x : Patient α)
    (hnd : (pkeys.map Prod.fst).Nodup)
    (hnone : ∀ hk ∈ keys, hk.2.1 ≠ x.requiredSpecialization) :
    ∀ (sol : List (Edge α)) (sys : System α),
      (∀ a ∈ sol, Placeable pkeys keys a.patientId) →
      sys.patients.map patientKey = pkeys → sys.patients[p]? = some x →
      (sol.foldl applyEdge sys).patients[p]? = some x := by
  intro sol
  induction sol with
  | nil => intro sys _ _ h; exact h
  | cons a sol ih =>
    intro sys hsol hk hx
    rw [List.foldl_cons]
    obtain ⟨k1, k2⟩ := unmatched_applyEdge pkeys keys p x hnd hnone sys a
      (hsol a (List.mem_cons_self _ _)) hk hx
    exact ih _ (fun b hb => hsol b (List.mem_cons_of_mem _ hb)) k1 k2

theorem branchAndBound_placeable (sqrt : α → α) (sys : System α) :
    ∀ a ∈ (branchAndBound sqrt sys).assignments,
      Placeable (sys.patients.map patientKey) (sys.hospitals.map hospitalKey) a.patientId := by
  intro a ha
  unfold branchAndBound at ha
  cases hs : (search sqrt sys).bestSolution with
  | none =>
    rw [hs] at ha
    cases ha
  | some sol =>
    rw [hs] at ha
    simp only [] at ha
    obtain ⟨q, hq, y, hy, h1, h2, _, _, _⟩ :=
      mem_allAssignments sqrt _ a ((search_bestSolution sqrt sys sol hs).1 a ha)
    refine ⟨patientKey q, List.mem_map.mpr ⟨q, hq, rfl⟩, h2.symm, hospitalKey y, ?_, h1⟩
    rw [← hospitalKey_reset]
    exact List.mem_map.mpr ⟨y, hy, rfl⟩

/-- The patient without a hospital, with the part that needs no unique patient
identifiers set apart: for a patient at position `p` whose `assignedHospital` is
null and for whom no hospital has the required specialization, the
`assignedHospital` is still null after `greedyMatching` and after `knapsackDP`;
when the patient identifiers are pairwise different, the same holds after
`branchAndBound`, and no record returned by any of the three allocators names
the identifier of that patient. -/
theorem unmatched_patient_invariant (sqrt : α → α) (sys : System α) (p : Nat)
    (x : Patient α) (hx : sys.patients[p]? = some x) (hun : x.assignedHospital = none)
    (hnone : ∀ h ∈ sys.hospitals, h.specialization ≠ x.requiredSpecialization) :
    ((∃ y, (greedyMatching sqrt sys).system.patients[p]? = some y ∧ y.assignedHospital = none) ∧
        ∃ y, (knapsackDP sqrt sys).system.patients[p]? = some y ∧ y.assignedHospital = none) ∧
      ((sys.patients.map (fun q => q.id)).Nodup →
        (∃ y, (branchAndBound sqrt sys).system.patients[p]? = some y ∧
          y.assignedHospital = none) ∧
        (∀ a ∈ (greedyMatching sqrt sys).assignments, a.patientId ≠ x.id) ∧
        (∀ a ∈ (knapsackDP sqrt sys).assignments, a.patientId ≠ x.id) ∧
        ∀ a ∈ (branchAndBound sqrt sys).assignments, a.patientId ≠ x.id) := by
  have hnone' : ∀ hk ∈ sys.hospitals.map hospitalKey, hk.2.1 ≠ x.requiredSpecialization := by
    intro hk hhk
    rw [List.mem_map] at hhk
    obtain ⟨h, hh, rfl⟩ := hhk
    exact hnone h hh
  have hg : UnmatchedInv (sys.patients.map patientKey) (sys.hospitals.map hospitalKey) p x
      (greedyMatching sqrt sys).system.patients (greedyMatching sqrt sys).system.hospitals
      ((greedyMatching sqrt sys).assignments.map (fun a => a.patientId)) := by
    unfold greedyMatching greedyRun
    simp only []
    apply unmatchedInv_foldl_greedyStep sqrt _ _ p x hnone'
    refine ⟨rfl, rfl, hx, ?_⟩
    intro id hid
    cases hid
  have hk : UnmatchedInv (sys.patients.map patientKey) (sys.hospitals.map hospitalKey) p x
      (knapsackDP sqrt sys).system.patients (knapsackDP sqrt sys).system.hospitals
      ((knapsackDP sqrt sys).assignments.map (fun a => a.patientId)) := by
    unfold knapsackDP
    simp only []
    apply unmatchedInv_foldSpecializations sqrt _ _ p x hnone'
    refine ⟨rfl, hospitalKey_reset _, hx, ?_⟩
    intro id hid
    cases hid
  refine ⟨⟨⟨x, hg.2.2.1, hun⟩, ⟨x, hk.2.2.1, hun⟩⟩, ?_⟩
  intro hnd
  have hnd' : ((sys.patients.map patientKey).map Prod.fst).Nodup := by
    rw [List.map_map]
    exact hnd
  have hnp := not_placeable (sys.patients.map patientKey) (sys.hospitals.map hospitalKey) p x
    hnd' (getElem?_map_key _ patientKey _ rfl p x hx) hnone'
  refine ⟨⟨x, ?_, hun⟩, ?_, ?_, ?_⟩
  · have hpl := branchAndBound_placeable sqrt sys
    unfold branchAndBound at hpl ⊢
    cases hs : (search sqrt sys).bestSolution with
    | none => exact hx
    | some sol =>
      rw [hs] at hpl
      simp only [] at hpl ⊢
      exact unmatched_foldl_applyEdge _ _ p x hnd' hnone' sol
        { sys with hospitals := sys.hospitals.map resetHospital } hpl rfl hx
  · intro a ha hc
    apply hnp
    rw [← hc]
    exact hg.2.2.2 _ (List.mem_map.mpr ⟨a, ha, rfl⟩)
  · intro a ha hc
    apply hnp
    rw [← hc]
    exact hk.2.2.2 _ (List.mem_map.mpr ⟨a, ha, rfl⟩)
  · intro a ha hc
    apply hnp
    rw [← hc]
    exact branchAndBound_placeable sqrt sys a ha

/-- C20. Take a patient, at position `p` of a state with unique patient
identifiers, as the data model has them, whose `assignedHospital` is null and
for whom no hospital of the input has a specialization equal to the
`requiredSpecialization`.  After `greedyMatching`, after `knapsackDP` and after
`branchAndBound` the `assignedHospital` of that patient is still null, and no
returned assignment record names that patient. -/
theorem unmatched_patient_stays_unassigned (sqrt : α → α) (sys : System α) (p : Nat)
    (x : Patient α) (hpid : (sys.patients.map (fun q => q.id)).Nodup)
    (hx : sys.patients[p]? = some x) (hun : x.assignedHospital = none)
    (hnone : ∀ h ∈ sys.hospitals, h.specialization ≠ x.requiredSpecialization) :
    ((∃ y, (greedyMatching sqrt sys).system.patients[p]? = some y ∧
          y.assignedHospital = none) ∧
        ∀ a ∈ (greedyMatching sqrt sys).assignments, a.patientId ≠ x.id) ∧
      ((∃ y, (knapsackDP sqrt sys).system.patients[p]? = some y ∧
          y.assignedHospital = none) ∧
        ∀ a ∈ (knapsackDP sqrt sys).assignments, a.patientId ≠ x.id) ∧
      ((∃ y, (branchAndBound sqrt sys).system.patients[p]? = some y ∧
          y.assignedHospital = none) ∧
        ∀ a ∈ (branchAndBound sqrt sys).assignments, a.patientId ≠ x.id) := by
  obtain ⟨⟨hg, hk⟩, hrest⟩ := unmatched_patient_invariant sqrt sys p x hx hun hnone
  obtain ⟨hb, hga, hka, hba⟩ := hrest hpid
  exact ⟨⟨hg, hga⟩, ⟨hk, hka⟩, ⟨hb, hba⟩⟩

end Unmatched

/-- Witness for C20: the neurology patient of `unmatched`, at position 1. -/
theorem unmatched_patient_stays_unassigned_witness :
    (unmatched.patients.map (fun q => q.id)).Nodup ∧
      unmatched.patients[1]? = some (createPatient 2 "neurology" Urgency.critical ⟨0, 1⟩) ∧
      (∀ h ∈ unmatched.hospitals, h.specialization ≠ "neurology") ∧
      ((∃ y, (greedyMatching ratSqrt unmatched).system.patients[1]? = some y ∧
            y.assignedHospital = none) ∧
          ∀ a ∈ (greedyMatching ratSqrt unmatched).assignments, a.patientId ≠ 2) ∧
        ((∃ y, (knapsackDP ratSqrt unmatched).system.patients[1]? = some y ∧
            y.assignedHospital = none) ∧
          ∀ a ∈ (knapsackDP ratSqrt unmatched).assignments, a.patientId ≠ 2) ∧
        ((∃ y, (branchAndBound ratSqrt unmatched).system.patients[1]? = some y ∧
            y.assignedHospital = none) ∧
          ∀ a ∈ (branchAndBound ratSqrt unmatched).assignments, a.patientId ≠ 2) :=
  ⟨by decide!, by decide!, by decide!,
    unmatched_patient_stays_unassigned ratSqrt unmatched 1
      (createPatient 2 "neurology" Urgency.critical ⟨0, 1⟩) (by decide!) (by decide!)
      (by decide!) (by decide!)⟩

/-! ## Completeness of `branchAndBound` -/

section Completeness

variable {α : Type} [LinearOrderedField α]

theorem tryEdge_cases (hospitals : List (Hospital α))
    (recurse : List (Edge α) → α → SearchState α → SearchState α)
    (patientId : Nat) (cur : List (Edge α)) (cost : α) (st : SearchState α) (a : Edge α) :
    tryEdge hospitals recurse patientId cur cost st a = st ∨
      ∃ (hospital state : Hospital α), a.patientId = patientId ∧
        hospitals.find? (fun h => decide (h.id = a.hospitalId)) = some hospital ∧
        st.hospitalStates[st.hospitalStates.findIdx
          (fun h => decide (h.id = hospital.id))]? = some state ∧
        state.currentPatients < state.capacity ∧
        tryEdge hospitals recurse patientId cur cost st a =
          recurse (cur ++ [a]) (cost + a.distance - (urgencyOrder a.urgency : α) * 10)
            { st with
              hospitalStates :=
                st.hospitalStates.set
                  (st.hospitalStates.findIdx (fun h => decide (h.id = hospital.id)))
                  { state with currentPatients := state.currentPatients + 1 } } := by
  unfold tryEdge
  split
  · rename_i hpid
    cases hfind : hospitals.find? (fun h => decide (h.id = a.hospitalId)) with
    | none => left; rfl
    | some hospital =>
      simp only []
      cases hstate : st.hospitalStates[st.hospitalStates.findIdx
          (fun h => decide (h.id = hospital.id))]? with
      | none => left; rfl
      | some state =>
        simp only []
        split
        · rename_i hlt
          right
          exact ⟨hospital, state, hpid, rfl, hstate, hlt, rfl⟩
        · left; rfl
  · left; rfl

theorem foldl_tryEdge_found (hospitals : List (Hospital α))
    (recurse : List (Edge α) → α → SearchState α → SearchState α)
    (hrec : ∀ (cur : List (Edge α)) (cost : α) (st : SearchState α),
      st.bestSolution ≠ none → (recurse cur cost st).bestSolution ≠ none)
    (patientId : Nat) (cur : List (Edge α)) (cost : α) :
    ∀ (es : List (Edge α)) (st : SearchState α), st.bestSolution ≠ none →
      (es.foldl (tryEdge hospitals recurse patientId cur cost) st).bestSolution ≠ none := by
  intro es
  induction es with
  | nil => intro st h; exact h
  | cons a es ihe =>
    intro st h
    rw [List.foldl_cons]
    apply ihe
    rcases tryEdge_cases hospitals recurse patientId cur cost st a with
      hc | ⟨_, _, _, _, _, _, hc⟩
    · rw [hc]; exact h
    · rw [hc]
      exact hrec _ _ _ h

theorem solve_found (hospitals : List (Hospital α)) (edges : List (Edge α)) :
    ∀ (remaining : List (Patient α)) (cur : List (Edge α)) (cost : α) (st : SearchState α),
      st.bestSolution ≠ none →
      (solve hospitals edges remaining cur cost st).bestSolution ≠ none := by
  intro remaining
  induction remaining with
  | nil =>
    intro cur cost st h
    unfold solve
    split
    · exact h
    · split
      · simp
      · exact h
  | cons patient rest ih =>
    intro cur cost st h
    unfold solve
    split
    · exact h
    · exact foldl_tryEdge_found hospitals _ ih patient.id cur cost edges st h

/-- A patient without an edge is a dead end: `solve` leaves the best solution
as it was. -/
theorem foldl_tryEdge_dead (hospitals : List (Hospital α))
    (recurse : List (Edge α) → α → SearchState α → SearchState α)
    (patientId : Nat) (cur : List (Edge α)) (cost : α)
    (hrec : (∀ (cur : List (Edge α)) (cost : α) (st : SearchState α),
      (recurse cur cost st).bestSolution = st.bestSolution ∧
        (recurse cur cost st).bestCost = st.bestCost)) :
    ∀ (es : List (Edge α)) (st : SearchState α),
      (es.foldl (tryEdge hospitals recurse patientId cur cost) st).bestSolution =
          st.bestSolution ∧
        (es.foldl (tryEdge hospitals recurse patientId cur cost) st).bestCost = st.bestCost := by
  intro es
  induction es with
  | nil => intro st; exact ⟨rfl, rfl⟩
  | cons a es ihe =>
    intro st
    rw [List.foldl_cons]
    obtain ⟨h1, h2⟩ := ihe (tryEdge hospitals recurse patientId cur cost st a)
    rw [h1, h2]
    rcases tryEdge_cases hospitals recurse patientId cur cost st a with
      hc | ⟨_, _, _, _, _, _, hc⟩
    · rw [hc]; exact ⟨rfl, rfl⟩
    · rw [hc]
      exact hrec _ _ _

theorem foldl_tryEdge_unnamed (hospitals : List (Hospital α))
    (recurse : List (Edge α) → α → SearchState α → SearchState α)
    (patientId : Nat) (cur : List (Edge α)) (cost : α) :
    ∀ (es : List (Edge α)) (st : SearchState α), (∀ e ∈ es, e.patientId ≠ patientId) →
      es.foldl (tryEdge hospitals recurse patientId cur cost) st = st := by
  intro es
  induction es with
  | nil => intro st _; rfl
  | cons a es ihe =>
    intro st h
    rw [List.foldl_cons]
    have : tryEdge hospitals recurse patientId cur cost st a = st := by
      unfold tryEdge
      rw [if_neg (h a (List.mem_cons_self _ _))]
    rw [this]
    exact ihe st (fun e he => h e (List.mem_cons_of_mem _ he))

theorem solve_dead (hospitals : List (Hospital α)) (edges : List (Edge α)) :
    ∀ (remaining : List (Patient α)) (cur : List (Edge α)) (cost : α) (st : SearchState α),
      (∃ patient ∈ remaining, ∀ e ∈ edges, e.patientId ≠ patient.id) →
      (solve hospitals edges remaining cur cost st).bestSolution = st.bestSolution ∧
        (solve hospitals edges remaining cur cost st).bestCost = st.bestCost := by
  intro remaining
  induction remaining with
  | nil =>
    intro cur cost st h
    obtain ⟨_, hp, _⟩ := h
    cases hp
  | cons patient rest ih =>
    intro cur cost st h
    unfold solve
    split
    · exact ⟨rfl, rfl⟩
    · obtain ⟨q, hq, hdead⟩ := h
      rcases List.mem_cons.mp hq with hq | hq
      · subst hq
        rw [foldl_tryEdge_unnamed hospitals _ q.id cur cost edges st hdead]
        exact ⟨rfl, rfl⟩
      · exact foldl_tryEdge_dead hospitals _ patient.id cur cost
          (fun c k s => ih c k s ⟨q, hq, hdead⟩) edges st

/-- Every solution that `solve` stores names the patients of the sorted list in
order. -/
theorem foldl_tryEdge_shape (hospitals : List (Hospital α))
    (recurse : List (Edge α) → α → SearchState α → SearchState α)
    (target : List Nat) (patientId : Nat) (restIds : List Nat) (cur : List (Edge α)) (cost : α)
    (hcur : cur.map (fun e => e.patientId) ++ patientId :: restIds = target)
    (hrec : ∀ (cur : List (Edge α)) (cost : α) (st : SearchState α),
      cur.map (fun e => e.patientId) ++ restIds = target →
      (∀ sol, st.bestSolution = some sol → sol.map (fun e => e.patientId) = target) →
      ∀ sol, (recurse cur cost st).bestSolution = some sol →
        sol.map (fun e => e.patientId) = target) :
    ∀ (es : List (Edge α)) (st : SearchState α),
      (∀ sol, st.bestSolution = some sol → sol.map (fun e => e.patientId) = target) →
      ∀ sol, (es.foldl (tryEdge hospitals recurse patientId cur cost) st).bestSolution =
        some sol → sol.map (fun e => e.patientId) = target := by
  intro es
  induction es with
  | nil => intro st h; exact h
  | cons a es ihe =>
    intro st h
    rw [List.foldl_cons]
    apply ihe
    rcases tryEdge_cases hospitals recurse patientId cur cost st a with
      hc | ⟨_, _, hpid, _, _, _, hc⟩
    · rw [hc]; exact h
    · rw [hc]
      apply hrec
      · rw [List.map_append, List.append_assoc]
        simp only [List.map_cons, List.map_nil, List.singleton_append]
        rw [hpid]
        exact hcur
      · exact h

theorem solve_shape (hospitals : List (Hospital α)) (edges : List (Edge α))
    (target : List Nat) :
    ∀ (remaining : List (Patient α)) (cur : List (Edge α)) (cost : α) (st : SearchState α),
      cur.map (fun e => e.patientId) ++ remaining.map (fun x => x.id) = target →
      (∀ sol, st.bestSolution = some sol → sol.map (fun e => e.patientId) = target) →
      ∀ sol, (solve hospitals edges remaining cur cost st).bestSolution = some sol →
        sol.map (fun e => e.patientId) = target := by
  intro remaining
  induction remaining with
  | nil =>
    intro cur cost st hcur h
    unfold solve
    split
    · exact h
    · split
      · intro sol hsol
        simp only [Option.some.injEq] at hsol
        subst hsol
        simpa using hcur
      · exact h
  | cons patient rest ih =>
    intro cur cost st hcur h
    unfold solve
    split
    · exact h
    · rw [List.map_cons] at hcur
      exact foldl_tryEdge_shape hospitals _ target patient.id
        (rest.map (fun x : Patient α => x.id)) cur cost hcur
        (fun c k s hc hs => ih c k s hc hs) edges st h

end Completeness

section Completeness2

variable {α : Type} [LinearOrderedField α]

theorem freeSlots_pos (s : String) (states : List (Hospital α))
    (h : 0 < freeSlots s states) :
    ∃ (j : Nat) (state : Hospital α), states[j]? = some state ∧ state.specialization = s ∧
      state.currentPatients < state.capacity := by
  unfold freeSlots at h
  induction states with
  | nil => simp at h
  | cons x xs ih =>
    rw [List.map_cons, List.sum_cons] at h
    by_cases hx : x.specialization = s ∧ x.currentPatients < x.capacity
    · exact ⟨0, x, by simp, hx.1, hx.2⟩
    · have h0 : (if x.specialization = s then x.capacity - x.currentPatients else 0) = 0 := by
        by_cases hs : x.specialization = s
        · rw [if_pos hs]
          have : ¬ x.currentPatients < x.capacity := fun hc => hx ⟨hs, hc⟩
          omega
        · rw [if_neg hs]
      rw [h0, zero_add] at h
      obtain ⟨j, state, hj, h1, h2⟩ := ih h
      exact ⟨j + 1, state, by simpa using hj, h1, h2⟩

theorem freeSlots_set (s : String) (states : List (Hospital α)) (j : Nat) (state : Hospital α)
    (hj : states[j]? = some state) (hroom : state.currentPatients < state.capacity) :
    freeSlots s (states.set j { state with currentPatients := state.currentPatients + 1 }) +
        (if state.specialization = s then 1 else 0) = freeSlots s states := by
  unfold freeSlots
  induction states generalizing j with
  | nil => simp at hj
  | cons x xs ih =>
    cases j with
    | zero =>
      simp only [List.getElem?_cons_zero, Option.some.injEq] at hj
      subst hj
      simp only [List.set_cons_zero, List.map_cons, List.sum_cons]
      by_cases hs : x.specialization = s
      · simp only [hs, if_true]
        omega
      · simp only [hs, if_false]
        omega
    | succ j =>
      simp only [List.getElem?_cons_succ] at hj
      simp only [List.set_cons_succ, List.map_cons, List.sum_cons]
      have := ih j hj
      omega

theorem tryEdge_good (hospitals : List (Hospital α))
    (recurse : List (Edge α) → α → SearchState α → SearchState α)
    (patientId : Nat) (cur : List (Edge α)) (cost : α) (st : SearchState α) (a : Edge α)
    (hospital state : Hospital α) (hpid : a.patientId = patientId)
    (hfind : hospitals.find? (fun h => decide (h.id = a.hospitalId)) = some hospital)
    (hstate : st.hospitalStates[st.hospitalStates.findIdx
      (fun h => decide (h.id = hospital.id))]? = some state)
    (hroom : state.currentPatients < state.capacity) :
    tryEdge hospitals recurse patientId cur cost st a =
      recurse (cur ++ [a]) (cost + a.distance - (urgencyOrder a.urgency : α) * 10)
        { st with
          hospitalStates :=
            st.hospitalStates.set
              (st.hospitalStates.findIdx (fun h => decide (h.id = hospital.id)))
              { state with currentPatients := state.currentPatients + 1 } } := by
  unfold tryEdge
  rw [if_pos hpid]
  simp only [hfind, hstate, if_pos hroom]

theorem find?_of_nodup_ids (l : List (Hospital α)) (hnd : (l.map (fun h => h.id)).Nodup)
    (k : Nat) (x : Hospital α) (hx : l[k]? = some x) :
    l.find? (fun h => decide (h.id = x.id)) = some x := by
  rw [find?_eq_getElem?_findIdx, findIdx_of_nodup_ids l hnd k x hx, hx]

theorem ids_of_keys (l l' : List (Hospital α)) (h : l.map hospitalKey = l'.map hospitalKey) :
    l.map (fun x => x.id) = l'.map (fun x => x.id) := by
  have : (l.map hospitalKey).map Prod.fst = (l'.map hospitalKey).map Prod.fst := by rw [h]
  simpa [List.map_map, Function.comp, hospitalKey] using this

/-- What an edge that is tried tells about the hospital state it raises. -/
theorem state_of_find (hospitals states : List (Hospital α))
    (hhid : (hospitals.map (fun h => h.id)).Nodup)
    (hkeys : states.map hospitalKey = hospitals.map hospitalKey)
    (hid : Nat) (hospital state : Hospital α)
    (hfind : hospitals.find? (fun h => decide (h.id = hid)) = some hospital)
    (hstate : states[states.findIdx (fun h => decide (h.id = hospital.id))]? = some state) :
    hospitalKey state = hospitalKey hospital := by
  have hmem : hospital ∈ hospitals := List.mem_of_find?_eq_some hfind
  obtain ⟨k, hk⟩ := List.mem_iff_getElem?.mp hmem
  have hidx : states.findIdx (fun h => decide (h.id = hospital.id)) = k := by
    rw [findIdx_id_of_keys states hospitals hkeys hospital.id]
    exact findIdx_of_nodup_ids hospitals hhid k hospital hk
  rw [hidx] at hstate
  obtain ⟨y, hy, hkey⟩ := getElem?_of_map_eq hospitals states hospitalKey hkeys k state hstate
  rw [hk] at hy
  cases hy
  exact hkey.symm

end Completeness2

section Completeness3

variable {α : Type} [LinearOrderedField α]

theorem foldl_tryEdge_finds (hospitals : List (Hospital α))
    (recurse : List (Edge α) → α → SearchState α → SearchState α)
    (patientId : Nat) (cur : List (Edge α)) (cost : α) (st : SearchState α)
    (hmono : ∀ (c : List (Edge α)) (k : α) (s : SearchState α),
      s.bestSolution ≠ none → (recurse c k s).bestSolution ≠ none) :
    ∀ (es : List (Edge α)),
      (∀ a ∈ es, ∀ (hospital state : Hospital α), a.patientId = patientId →
        hospitals.find? (fun h => decide (h.id = a.hospitalId)) = some hospital →
        st.hospitalStates[st.hospitalStates.findIdx
          (fun h => decide (h.id = hospital.id))]? = some state →
        state.currentPatients < state.capacity →
        (tryEdge hospitals recurse patientId cur cost st a).bestSolution ≠ none) →
      (∃ a ∈ es, ∃ (hospital state : Hospital α), a.patientId = patientId ∧
        hospitals.find? (fun h => decide (h.id = a.hospitalId)) = some hospital ∧
        st.hospitalStates[st.hospitalStates.findIdx
          (fun h => decide (h.id = hospital.id))]? = some state ∧
        state.currentPatients < state.capacity) →
      (es.foldl (tryEdge hospitals recurse patientId cur cost) st).bestSolution ≠ none := by
  intro es
  induction es with
  | nil =>
    intro _ hex
    obtain ⟨_, ha, _⟩ := hex
    cases ha
  | cons a es ih =>
    intro hgood hex
    rw [List.foldl_cons]
    obtain ⟨g, hg, hospital, state, h1, h2, h3, h4⟩ := hex
    rcases List.mem_cons.mp hg with hga | hges
    · subst hga
      exact foldl_tryEdge_found hospitals recurse hmono patientId cur cost es _
        (hgood g (List.mem_cons_self _ _) hospital state h1 h2 h3 h4)
    · rcases tryEdge_cases hospitals recurse patientId cur cost st a with
        hc | ⟨hospital', state', k1, k2, k3, k4, _⟩
      · rw [hc]
        exact ih (fun b hb => hgood b (List.mem_cons_of_mem _ hb))
          ⟨g, hges, hospital, state, h1, h2, h3, h4⟩
      · exact foldl_tryEdge_found hospitals recurse hmono patientId cur cost es _
          (hgood a (List.mem_cons_self _ _) hospital' state' k1 k2 k3 k4)

/-- When the free places suffice for the remaining patients of every
specialization, `solve` stores a solution. -/
theorem solve_finds (hospitals : List (Hospital α)) (edges : List (Edge α))
    (hhid : (hospitals.map (fun h => h.id)).Nodup) :
    ∀ (remaining : List (Patient α)) (cur : List (Edge α)) (cost : α) (st : SearchState α),
      (∀ patient ∈ remaining, ∀ hosp ∈ hospitals,
        hosp.specialization = patient.requiredSpecialization →
        ∃ e ∈ edges, e.patientId = patient.id ∧ e.hospitalId = hosp.id) →
      (∀ e ∈ edges, ∀ patient ∈ remaining, e.patientId = patient.id →
        ∃ hosp ∈ hospitals, hosp.id = e.hospitalId ∧
          hosp.specialization = patient.requiredSpecialization) →
      st.hospitalStates.map hospitalKey = hospitals.map hospitalKey →
      (∀ s : String, demand s remaining ≤ freeSlots s st.hospitalStates) →
      (st.bestSolution = none → st.bestCost = none) →
      (solve hospitals edges remaining cur cost st).bestSolution ≠ none := by
  intro remaining
  induction remaining with
  | nil =>
    intro cur cost st _ _ _ _ hcoh
    by_cases hf : st.bestSolution = none
    · have hbc := hcoh hf
      unfold solve
      simp [pruned, improves, hbc]
    · exact solve_found hospitals edges [] cur cost st hf
  | cons patient rest ih =>
    intro cur cost st hcomplete hsound hkeys hdem hcoh
    by_cases hf : st.bestSolution = none
    swap
    · exact solve_found hospitals edges (patient :: rest) cur cost st hf
    have hbc := hcoh hf
    have hnp : pruned st.bestCost cost = false := by
      rw [hbc]
      rfl
    unfold solve
    rw [hnp]
    simp only [Bool.false_eq_true, if_false]
    apply foldl_tryEdge_finds hospitals _ patient.id cur cost st
      (fun c k s hs => solve_found hospitals edges rest c k s hs) edges
    · intro a ha hospital state h1 h2 h3 h4
      rw [tryEdge_good hospitals _ patient.id cur cost st a hospital state h1 h2 h3 h4]
      have hkey := state_of_find hospitals st.hospitalStates hhid hkeys a.hospitalId hospital
        state h2 h3
      simp only [hospitalKey, Prod.mk.injEq] at hkey
      obtain ⟨hosp, hhosp, hhospid, hhospspec⟩ :=
        hsound a ha patient (List.mem_cons_self _ _) h1
      have hhm : hospital ∈ hospitals := List.mem_of_find?_eq_some h2
      have hhi : hospital.id = a.hospitalId := by
        have := List.find?_some h2
        simpa using this
      have hsame : hospital = hosp := by
        apply List.inj_on_of_nodup_map hhid hhm hhosp
        show hospital.id = hosp.id
        rw [hhi, hhospid]
      have hspec : state.specialization = patient.requiredSpecialization := by
        rw [hkey.2.1, hsame, hhospspec]
      apply ih
      · intro q hq
        exact hcomplete q (List.mem_cons_of_mem _ hq)
      · intro e he q hq
        exact hsound e he q (List.mem_cons_of_mem _ hq)
      · exact (map_set_of_eq st.hospitalStates _ state
          { state with currentPatients := state.currentPatients + 1 } hospitalKey h3 rfl).trans
          hkeys
      · intro s
        have h5 := freeSlots_set s st.hospitalStates _ state h3 h4
        have h6 := hdem s
        unfold demand at h6 ⊢
        rw [List.countP_cons] at h6
        by_cases hs : patient.requiredSpecialization = s
        · have hs' : state.specialization = s := hspec.trans hs
          rw [if_pos hs'] at h5
          simp only [hs, decide_True, if_true] at h6
          exact Nat.le_of_add_le_add_right (h5 ▸ h6)
        · have hs' : ¬ state.specialization = s := fun hc => hs (hspec.symm.trans hc)
          rw [if_neg hs'] at h5
          simp only [hs, decide_False, Bool.false_eq_true, if_false] at h6
          rw [← h5] at h6
          exact h6
      · exact hcoh
    · have h6 := hdem patient.requiredSpecialization
      unfold demand at h6
      rw [List.countP_cons] at h6
      simp only [decide_True, if_true] at h6
      have hpos : 0 < freeSlots patient.requiredSpecialization st.hospitalStates := by omega
      obtain ⟨j, state, hj, hjs, hjr⟩ := freeSlots_pos _ _ hpos
      obtain ⟨hosp, hhosp, hkey⟩ := getElem?_of_map_eq hospitals st.hospitalStates hospitalKey
        hkeys j state hj
      simp only [hospitalKey, Prod.mk.injEq] at hkey
      obtain ⟨e, he, hepid, ehid⟩ := hcomplete patient (List.mem_cons_self _ _) hosp
        (List.mem_iff_getElem?.mpr ⟨j, hhosp⟩) (by rw [hkey.2.1, hjs])
      refine ⟨e, he, hosp, state, hepid, ?_, ?_, hjr⟩
      · rw [ehid]
        exact find?_of_nodup_ids hospitals hhid j hosp hhosp
      · rw [findIdx_id_of_keys st.hospitalStates hospitals hkeys hosp.id,
          findIdx_of_nodup_ids hospitals hhid j hosp hhosp]
        exact hj

end Completeness3

section Placement

variable {α : Type} [LinearOrderedField α]

theorem sum_map_eq_sum_range {β : Type} (g : β → Nat) (l : List β) :
    (l.map g).sum = ∑ i in Finset.range l.length, ((l[i]?).map g).getD 0 := by
  induction l using List.reverseRecOn with
  | nil => simp
  | append_singleton l a ih =>
    rw [List.map_append, List.sum_append, List.length_append, List.length_singleton,
      Finset.sum_range_succ, ih]
    congr 1
    · apply Finset.sum_congr rfl
      intro i hi
      rw [Finset.mem_range] at hi
      rw [List.getElem?_append_left hi]
    · simp

theorem countP_eq_sum_map {β : Type} (p : β → Bool) (l : List β) :
    l.countP p = (l.map (fun x => if p x then 1 else 0)).sum := by
  induction l with
  | nil => rfl
  | cons x xs ih =>
    rw [List.countP_cons, List.map_cons, List.sum_cons, ih]
    omega

theorem length_filter_range (n : Nat) (p : Nat → Bool) :
    ((List.range n).filter p).length = ((Finset.range n).filter (fun i => p i = true)).card := by
  induction n with
  | zero => simp
  | succ n ih =>
    rw [List.range_succ, List.filter_append, List.length_append, ih, Finset.range_succ,
      Finset.filter_insert]
    by_cases hp : p n = true
    · rw [if_pos hp, Finset.card_insert_of_not_mem (by simp)]
      simp [hp]
    · rw [if_neg hp]
      simp [hp]

theorem fiber_count (n m : Nat) (place : Nat → Nat) (P Q : Nat → Prop) [DecidablePred P]
    [DecidablePred Q] (cap : Nat → Nat)
    (hmap : ∀ i, i < n → P i → place i < m ∧ Q (place i))
    (hcap : ∀ j, j < m → ((Finset.range n).filter (fun i => place i = j)).card ≤ cap j) :
    ((Finset.range n).filter P).card ≤ ∑ j in (Finset.range m).filter Q, cap j := by
  rw [Finset.card_eq_sum_card_fiberwise (f := place) (t := (Finset.range m).filter Q)]
  · apply Finset.sum_le_sum
    intro j hj
    rw [Finset.mem_filter, Finset.mem_range] at hj
    refine le_trans (Finset.card_le_card ?_) (hcap j hj.1)
    intro i hi
    simp only [Finset.mem_filter, Finset.mem_range] at hi ⊢
    exact ⟨hi.1.1, hi.2⟩
  · intro i hi
    simp only [Finset.mem_filter, Finset.mem_range] at hi ⊢
    exact hmap i hi.1 hi.2

/-- A placement shows that, for every specialization, the patients that require
it are at most as many as the places of the hospitals that offer it. -/
theorem demand_le_capacity_of_placement (sys : System α) (place : Nat → Nat)
    (hp : IsPlacement sys place) (s : String) :
    demand s sys.patients ≤
      (sys.hospitals.map (fun h => if h.specialization = s then h.capacity else 0)).sum := by
  obtain ⟨hp1, hp2⟩ := hp
  unfold demand
  rw [countP_eq_sum_map, sum_map_eq_sum_range, sum_map_eq_sum_range]
  have hl : ∑ i in Finset.range sys.patients.length,
      ((sys.patients[i]?).map
        (fun x => if decide (x.requiredSpecialization = s) = true then 1 else 0)).getD 0 =
      ((Finset.range sys.patients.length).filter
        (fun i => (sys.patients[i]?).map (fun x => x.requiredSpecialization) = some s)).card := by
    rw [Finset.card_filter]
    apply Finset.sum_congr rfl
    intro i _
    cases sys.patients[i]? with
    | none => simp
    | some x => simp
  have hr : ∑ j in Finset.range sys.hospitals.length,
      ((sys.hospitals[j]?).map
        (fun h => if h.specialization = s then h.capacity else 0)).getD 0 =
      ∑ j in (Finset.range sys.hospitals.length).filter
        (fun j => (sys.hospitals[j]?).map (fun h => h.specialization) = some s),
        ((sys.hospitals[j]?).map (fun h => h.capacity)).getD 0 := by
    rw [Finset.sum_filter]
    apply Finset.sum_congr rfl
    intro j _
    cases sys.hospitals[j]? with
    | none => simp
    | some h => simp
  rw [hl, hr]
  apply fiber_count
  · intro i hi hPi
    have h1 := hp1 i hi
    rw [hPi] at h1
    refine ⟨?_, h1⟩
    by_contra hc
    rw [List.getElem?_eq_none (by omega)] at h1
    simp at h1
  · intro j hj
    have := hp2 j hj
    rw [length_filter_range] at this
    simpa using this

end Placement

section CompletenessClaim

variable {α : Type} [LinearOrderedField α]

theorem sortedRecords_perm (patients : List (Patient α)) :
    ((patients.enum.insertionSort urgencyBefore).map Prod.snd).Perm patients := by
  have h := (List.perm_insertionSort urgencyBefore patients.enum).map Prod.snd
  rw [List.enum_map_snd] at h
  exact h

theorem mem_allAssignments_intro (sqrt : α → α) (sys : System α) (patient : Patient α)
    (hosp : Hospital α) (hp : patient ∈ sys.patients) (hh : hosp ∈ sys.hospitals)
    (hs : hosp.specialization = patient.requiredSpecialization) :
    ∃ e ∈ allAssignments sqrt sys, e.patientId = patient.id ∧ e.hospitalId = hosp.id := by
  refine ⟨{ patientId := patient.id, hospitalId := hosp.id,
            distance := calculateDistance sqrt patient.location hosp.location,
            urgency := patient.urgency }, ?_, rfl, rfl⟩
  unfold allAssignments
  rw [List.mem_flatMap]
  refine ⟨patient, hp, ?_⟩
  rw [List.mem_map]
  refine ⟨hosp, ?_, rfl⟩
  rw [List.mem_filter]
  exact ⟨hh, by simpa using hs⟩

theorem search_finds (sqrt : α → α) (sys : System α)
    (hpid : (sys.patients.map (fun x => x.id)).Nodup)
    (hhid : (sys.hospitals.map (fun h => h.id)).Nodup)
    (hdem : ∀ s : String, demand s sys.patients ≤
      (sys.hospitals.map (fun h => if h.specialization = s then h.capacity else 0)).sum) :
    (search sqrt sys).bestSolution ≠ none := by
  unfold search
  simp only []
  have hperm := sortedRecords_perm sys.patients
  apply solve_finds
  · rw [List.map_map]
    exact hhid
  · intro patient hpat hosp hhosp hs
    exact mem_allAssignments_intro sqrt
      { sys with hospitals := sys.hospitals.map resetHospital } patient hosp
      (hperm.mem_iff.mp hpat) hhosp hs
  · intro e he patient hpat hep
    obtain ⟨q, hq, y, hy, h1, h2, h3, _, _⟩ := mem_allAssignments sqrt _ e he
    have hsame : q = patient := by
      apply List.inj_on_of_nodup_map hpid hq (hperm.mem_iff.mp hpat)
      show q.id = patient.id
      rw [← h2, hep]
    subst hsame
    exact ⟨y, hy, h3.symm, h1⟩
  · rw [List.map_map]
    rfl
  · intro s
    have h1 : demand s ((sys.patients.enum.insertionSort urgencyBefore).map Prod.snd) =
        demand s sys.patients := by
      unfold demand
      exact hperm.countP_eq _
    rw [h1]
    refine le_trans (hdem s) (le_of_eq ?_)
    unfold freeSlots
    simp only [List.map_map]
    rfl
  · intro _
    rfl

theorem search_shape (sqrt : α → α) (sys : System α) (sol : List (Edge α))
    (hsol : (search sqrt sys).bestSolution = some sol) :
    sol.map (fun e => e.patientId) =
      ((sys.patients.enum.insertionSort urgencyBefore).map Prod.snd).map (fun x => x.id) := by
  unfold search at hsol
  simp only [] at hsol
  refine solve_shape _ _ _ _ [] 0 _ ?_ ?_ sol hsol
  · rfl
  · intro s hs
    cases hs

theorem search_dead (sqrt : α → α) (sys : System α)
    (hpid : (sys.patients.map (fun x => x.id)).Nodup) (x : Patient α) (hx : x ∈ sys.patients)
    (hnone : ∀ h ∈ sys.hospitals, h.specialization ≠ x.requiredSpecialization) :
    (search sqrt sys).bestSolution = none := by
  unfold search
  simp only []
  have hperm := sortedRecords_perm sys.patients
  refine (solve_dead _ _ _ [] 0 _ ⟨x, hperm.mem_iff.mpr hx, ?_⟩).1
  intro e he hc
  obtain ⟨q, hq, y, hy, h1, h2, _, _, _⟩ := mem_allAssignments sqrt _ e he
  have hsame : q = x := by
    apply List.inj_on_of_nodup_map hpid hq hx
    show q.id = x.id
    rw [← h2, hc]
  subst hsame
  have hy' : y ∈ sys.hospitals.map resetHospital := hy
  rw [List.mem_map] at hy'
  obtain ⟨y0, hy0, rfl⟩ := hy'
  exact hnone y0 hy0 h1

/-- C19 (amended). Let the patient identifiers and the hospital identifiers be
pairwise different.  When all patients can be placed, each in a hospital of the
specialization it requires and no hospital beyond its capacity, the assignment
that `branchAndBound` returns names every patient exactly once.  When some
patient has no hospital of the required specialization, `branchAndBound`
returns no record at all and leaves every patient as it was. -/
theorem branchAndBound_complete_when_all_placeable (sqrt : α → α) (sys : System α)
    (hpid : (sys.patients.map (fun x => x.id)).Nodup)
    (hhid : (sys.hospitals.map (fun h => h.id)).Nodup) :
    (∀ place : Nat → Nat, IsPlacement sys place →
        ((branchAndBound sqrt sys).assignments.map (fun e => e.patientId)).Perm
          (sys.patients.map (fun x => x.id))) ∧
      ((∃ x ∈ sys.patients, ∀ h ∈ sys.hospitals,
          h.specialization ≠ x.requiredSpecialization) →
        (branchAndBound sqrt sys).assignments = [] ∧
          (branchAndBound sqrt sys).system.patients = sys.patients) := by
  refine ⟨?_, ?_⟩
  · intro place hplace
    have hfound := search_finds sqrt sys hpid hhid
      (demand_le_capacity_of_placement sys place hplace)
    unfold branchAndBound
    cases hs : (search sqrt sys).bestSolution with
    | none => exact absurd hs hfound
    | some sol =>
      simp only []
      rw [search_shape sqrt sys sol hs]
      exact (sortedRecords_perm sys.patients).map _
  · rintro ⟨x, hx, hnone⟩
    have hdead := search_dead sqrt sys hpid x hx hnone
    unfold branchAndBound
    rw [hdead]
    exact ⟨rfl, rfl⟩

end CompletenessClaim

/-- Witness for C19 (amended): in `crossed` the patient at position `i` can be
placed in the hospital at position `i`; in `unmatched` the neurology patient has
no hospital. -/
theorem branchAndBound_complete_when_all_placeable_witness :
    ((crossed.patients.map (fun x => x.id)).Nodup ∧
        (crossed.hospitals.map (fun h => h.id)).Nodup ∧
        IsPlacement crossed (fun i => i) ∧
        ((branchAndBound ratSqrt crossed).assignments.map (fun e => e.patientId)).Perm
          (crossed.patients.map (fun x => x.id))) ∧
      (∃ x ∈ unmatched.patients, ∀ h ∈ unmatched.hospitals,
        h.specialization ≠ x.requiredSpecialization) ∧
      (branchAndBound ratSqrt unmatched).assignments = [] ∧
      (branchAndBound ratSqrt unmatched).system.patients = unmatched.patients :=
  ⟨⟨by decide!, by decide!, by decide!,
      (branchAndBound_complete_when_all_placeable ratSqrt crossed (by decide!) (by decide!)).1
        (fun i => i) (by decide!)⟩,
    by decide!,
    (branchAndBound_complete_when_all_placeable ratSqrt unmatched (by decide!) (by decide!)).2
      (by decide!)⟩

/-- The completeness of `branchAndBound` needs both identifier hypotheses.  In
`sharedIdPlaceable` all patients can be placed and the hospital identifiers are
pairwise different, but two patients share the identifier 7; in `twinHospitals`
all patients can be placed and the patient identifiers are pairwise different,
but the two hospitals share the identifier 1.  On both `branchAndBound` returns
no record. -/
theorem branchAndBound_incomplete_with_shared_identifiers :
    (IsPlacement sharedIdPlaceable (fun i => if i = 1 then 1 else 0) ∧
        (sharedIdPlaceable.hospitals.map (fun h => h.id)).Nodup ∧
        (branchAndBound ratSqrt sharedIdPlaceable).assignments = []) ∧
      IsPlacement twinHospitals (fun i => i) ∧
      (twinHospitals.patients.map (fun x => x.id)).Nodup ∧
      (branchAndBound ratSqrt twinHospitals).assignments = [] := by
  decide!

/-! ## Beds, doctors and counters -/

/-- C21 (failing input). From the freshly created `bedClash`, a `runAllocation`
with the greedy algorithm gives each patient bed 1 of the hospital it stands at;
a following `runAllocation` with the knapsack algorithm assigns both patients to
hospital 1 and leaves their bed numbers: two different patients of hospital 1
both have bed 1. -/
theorem stale_bed_numbers_clash :
    (runAllocation ratSqrt Algorithm.greedy bedClash).system.patients.map
        (fun p => (p.id, p.assignedHospital, p.bedNumber)) =
        [(1, some 1, some 1), (2, some 2, some 1)] ∧
      (runAllocation ratSqrt Algorithm.knapsack
          (runAllocation ratSqrt Algorithm.greedy bedClash).system).system.patients.map
        (fun p => (p.id, p.assignedHospital, p.bedNumber)) =
        [(1, some 1, some 1), (2, some 1, some 1)] := by
  decide!

/-- C24 (failing input). The search of `branchAndBound` on `crossed`, at its
root.  After the first edge of the first patient (to hospital 1) was explored,
the shared counter of hospital 2 stands at 1, raised on the path below that
edge.  The second edge of the first patient, to hospital 2, is then not taken:
the shared variables stay as they are, although no record of the current
branch names hospital 2 and its capacity is 1. -/
theorem branchAndBound_occupancy_is_shared :
    crossedEdges.map (fun e => (e.patientId, e.hospitalId, e.distance)) =
        [(1, 1, 10), (1, 2, 0), (2, 1, 0), (2, 2, 10)] ∧
      crossedAfterFirstEdge.hospitalStates.map
          (fun h => (h.id, h.currentPatients, h.capacity)) = [(1, 1, 1), (2, 1, 1)] ∧
      crossedAfterFirstEdge.bestSolution.map
          (fun s => s.map (fun e => (e.patientId, e.hospitalId))) = some [(1, 1), (2, 2)] ∧
      namedBy 2 ([] : List (Edge ℚ)) = 0 ∧
      (tryEdge crossedHospitals crossedRecurse 1 [] 0 crossedAfterFirstEdge
          { patientId := 1, hospitalId := 2, distance := 0,
            urgency := Urgency.critical }).hospitalStates =
        crossedAfterFirstEdge.hospitalStates ∧
      (tryEdge crossedHospitals crossedRecurse 1 [] 0 crossedAfterFirstEdge
          { patientId := 1, hospitalId := 2, distance := 0,
            urgency := Urgency.critical }).bestSolution =
        crossedAfterFirstEdge.bestSolution ∧
      (search ratSqrt crossed).bestSolution =
        ((crossedEdges.drop 1).foldl (tryEdge crossedHospitals crossedRecurse 1 [] 0)
          crossedAfterFirstEdge).bestSolution ∧
      (branchAndBound ratSqrt crossed).assignments.map
          (fun e => (e.patientId, e.hospitalId)) = [(1, 1), (2, 2)] := by
  decide!

/-- C28 (failing input). A second greedy `runAllocation` on `staffed`: after the
reset the bed pool of the hospital is empty, the patient is assigned to the
hospital, and both the patient and the assignment record carry the bed
number 1 left from the first run. -/
theorem greedy_record_keeps_stale_bed :
    (resetSimulation (runAllocation ratSqrt Algorithm.greedy staffed).system).hospitals.map
        (fun h => h.availableBeds) = [[]] ∧
      (runAllocation ratSqrt Algorithm.greedy
          (runAllocation ratSqrt Algorithm.greedy staffed).system).system.patients.map
        (fun p => (p.id, p.assignedHospital, p.bedNumber)) = [(0, some 1, some 1)] ∧
      (runAllocation ratSqrt Algorithm.greedy
          (runAllocation ratSqrt Algorithm.greedy staffed).system).greedy.map
        (fun r => r.assignments.map (fun a => (a.patientId, a.hospitalId, a.bedNumber))) =
        some [(0, 1, some 1)] := by
  decide!

/-! ### The distance -/

/-- C23. Over the real numbers, with `Math.sqrt` the real square root,
`calculateDistance(a, b)` is `10 * sqrt((a.x - b.x)^2 + (a.y - b.y)^2)`; it is
symmetric, non-negative, and zero exactly when `a` and `b` have the same `x`
and the same `y`. -/
theorem calculateDistance_metric (a b : Location ℝ) :
    calculateDistance Real.sqrt a b =
        10 * Real.sqrt ((a.x - b.x) ^ 2 + (a.y - b.y) ^ 2) ∧
      calculateDistance Real.sqrt a b = calculateDistance Real.sqrt b a ∧
      0 ≤ calculateDistance Real.sqrt a b ∧
      (calculateDistance Real.sqrt a b = 0 ↔ a.x = b.x ∧ a.y = b.y) := by
  unfold calculateDistance
  simp only []
  refine ⟨?_, ?_, ?_, ?_⟩
  · rw [mul_comm]
    congr 2
    ring
  · congr 2
    ring
  · exact mul_nonneg (Real.sqrt_nonneg _) (by norm_num)
  · rw [mul_eq_zero]
    have h10 : (10 : ℝ) ≠ 0 := by norm_num
    simp only [h10, or_false]
    rw [Real.sqrt_eq_zero']
    constructor
    · intro h
      have h1 : 0 ≤ (a.x - b.x) * (a.x - b.x) := mul_self_nonneg _
      have h2 : 0 ≤ (a.y - b.y) * (a.y - b.y) := mul_self_nonneg _
      have h3 : (a.x - b.x) * (a.x - b.x) = 0 := by linarith
      have h4 : (a.y - b.y) * (a.y - b.y) = 0 := by linarith
      exact ⟨sub_eq_zero.mp (mul_self_eq_zero.mp h3), sub_eq_zero.mp (mul_self_eq_zero.mp h4)⟩
    · rintro ⟨hx, hy⟩
      rw [hx, hy]
      simp

/-! ### `knapsackDP` and `branchAndBound` leave beds and doctors alone -/

section Care

variable {α : Type} [LinearOrderedField α]

theorem care_assignSelected (hid h : Nat) (st : KnapsackState α) (pick : Pick α) :
    (assignSelected hid h st pick).patients.map patientCare = st.patients.map patientCare ∧
      (assignSelected hid h st pick).hospitals.map hospitalCare =
        st.hospitals.map hospitalCare := by
  unfold assignSelected
  exact ⟨map_updateAt _ _ _ _ (fun _ => rfl), map_updateAt _ _ _ _ (fun _ => rfl)⟩

theorem care_foldl_assignSelected (hid h : Nat) :
    ∀ (sel : List (Pick α)) (st : KnapsackState α),
      (sel.foldl (assignSelected hid h) st).patients.map patientCare =
          st.patients.map patientCare ∧
        (sel.foldl (assignSelected hid h) st).hospitals.map hospitalCare =
          st.hospitals.map hospitalCare := by
  intro sel
  induction sel with
  | nil => intro st; exact ⟨rfl, rfl⟩
  | cons pick sel ih =>
    intro st
    rw [List.foldl_cons]
    obtain ⟨h1, h2⟩ := ih (assignSelected hid h st pick)
    obtain ⟨h3, h4⟩ := care_assignSelected hid h st pick
    exact ⟨h1.trans h3, h2.trans h4⟩

theorem care_processHospital (sqrt : α → α) (group : List Nat) (st : KnapsackState α)
    (h : Nat) :
    (processHospital sqrt group st h).patients.map patientCare =
        st.patients.map patientCare ∧
      (processHospital sqrt group st h).hospitals.map hospitalCare =
        st.hospitals.map hospitalCare := by
  unfold processHospital
  cases st.hospitals[h]? with
  | none => exact ⟨rfl, rfl⟩
  | some hospital =>
    simp only []
    cases candidates sqrt st.patients group hospital with
    | nil => exact ⟨rfl, rfl⟩
    | cons item items =>
      simp only []
      obtain ⟨h1, h2⟩ := care_foldl_assignSelected hospital.id h
        (optimalSolution hospital.capacity (item :: items)) st
      refine ⟨h1, ?_⟩
      refine Eq.trans ?_ h2
      exact map_updateAt _ _ _ _ (fun _ => rfl)

theorem care_foldl_processHospital (sqrt : α → α) (group : List Nat) :
    ∀ (pos : List Nat) (st : KnapsackState α),
      (pos.foldl (processHospital sqrt group) st).patients.map patientCare =
          st.patients.map patientCare ∧
        (pos.foldl (processHospital sqrt group) st).hospitals.map hospitalCare =
          st.hospitals.map hospitalCare := by
  intro pos
  induction pos with
  | nil => intro st; exact ⟨rfl, rfl⟩
  | cons h pos ih =>
    intro st
    rw [List.foldl_cons]
    obtain ⟨h1, h2⟩ := ih (processHospital sqrt group st h)
    obtain ⟨h3, h4⟩ := care_processHospital sqrt group st h
    exact ⟨h1.trans h3, h2.trans h4⟩

theorem care_processSpecialization (sqrt : α → α) (st : KnapsackState α) (s : String) :
    (processSpecialization sqrt st s).patients.map patientCare =
        st.patients.map patientCare ∧
      (processSpecialization sqrt st s).hospitals.map hospitalCare =
        st.hospitals.map hospitalCare := by
  unfold processSpecialization
  split
  · exact ⟨rfl, rfl⟩
  · exact care_foldl_processHospital sqrt _ _ st

theorem care_foldSpecializations (sqrt : α → α) :
    ∀ (ks : List String) (st : KnapsackState α),
      (ks.foldl (processSpecialization sqrt) st).patients.map patientCare =
          st.patients.map patientCare ∧
        (ks.foldl (processSpecialization sqrt) st).hospitals.map hospitalCare =
          st.hospitals.map hospitalCare := by
  intro ks
  induction ks with
  | nil => intro st; exact ⟨rfl, rfl⟩
  | cons s ks ih =>
    intro st
    rw [List.foldl_cons]
    obtain ⟨h1, h2⟩ := ih (processSpecialization sqrt st s)
    obtain ⟨h3, h4⟩ := care_processSpecialization sqrt st s
    exact ⟨h1.trans h3, h2.trans h4⟩

theorem hospitalCare_reset (hs : List (Hospital α)) :
    (hs.map resetHospital).map hospitalCare = hs.map hospitalCare := by
  rw [List.map_map]
  rfl

theorem care_applyEdge (sys : System α) (a : Edge α) :
    (applyEdge sys a).patients.map patientCare = sys.patients.map patientCare ∧
      (applyEdge sys a).hospitals.map hospitalCare = sys.hospitals.map hospitalCare := by
  constructor
  · rcases applyEdge_patients sys a with h | ⟨i, x, _, _, h⟩
    · rw [h]
    · rw [h]
      exact map_updateAt _ _ _ _ (fun _ => rfl)
  · rcases applyEdge_hospitals sys a with h | ⟨_, h⟩
    · rw [h]
    · rw [h]
      exact map_updateAt _ _ _ _ (fun _ => rfl)

theorem care_foldl_applyEdge :
    ∀ (sol : List (Edge α)) (sys : System α),
      (sol.foldl applyEdge sys).patients.map patientCare = sys.patients.map patientCare ∧
        (sol.foldl applyEdge sys).hospitals.map hospitalCare =
          sys.hospitals.map hospitalCare := by
  intro sol
  induction sol with
  | nil => intro sys; exact ⟨rfl, rfl⟩
  | cons a sol ih =>
    intro sys
    rw [List.foldl_cons]
    obtain ⟨h1, h2⟩ := ih (applyEdge sys a)
    obtain ⟨h3, h4⟩ := care_applyEdge sys a
    exact ⟨h1.trans h3, h2.trans h4⟩

/-- C22. For every input, `knapsackDP` and `branchAndBound` leave the
`bedNumber` and `assignedDoctor` of every patient and the doctor objects (so
every doctor's `currentPatients`), `availableBeds` and `occupiedBeds` of every
hospital exactly as they were. -/
theorem knapsack_and_branchAndBound_leave_beds_and_doctors (sqrt : α → α) (sys : System α) :
    ((knapsackDP sqrt sys).system.patients.map patientCare = sys.patients.map patientCare ∧
        (knapsackDP sqrt sys).system.hospitals.map hospitalCare =
          sys.hospitals.map hospitalCare) ∧
      (branchAndBound sqrt sys).system.patients.map patientCare =
        sys.patients.map patientCare ∧
      (branchAndBound sqrt sys).system.hospitals.map hospitalCare =
        sys.hospitals.map hospitalCare := by
  refine ⟨?_, ?_⟩
  · unfold knapsackDP
    simp only []
    obtain ⟨h1, h2⟩ := care_foldSpecializations sqrt (specializationKeys sys.patients)
      { patients := sys.patients, hospitals := sys.hospitals.map resetHospital,
        assignments := [] }
    exact ⟨h1, h2.trans (hospitalCare_reset _)⟩
  · unfold branchAndBound
    cases (search sqrt sys).bestSolution with
    | none => exact ⟨rfl, hospitalCare_reset _⟩
    | some sol =>
      simp only []
      obtain ⟨h1, h2⟩ := care_foldl_applyEdge sol
        { sys with hospitals := sys.hospitals.map resetHospital }
      exact ⟨h1, h2.trans (hospitalCare_reset _)⟩

end Care

/-! ### `branchAndBound` returns all patients or none -/

section AllOrNothing

variable {α : Type} [LinearOrderedField α]

theorem countP_id_eq_one (l : List (Patient α)) (hnd : (l.map (fun y => y.id)).Nodup)
    (x : Patient α) (hx : x ∈ l) : l.countP (fun y => decide (y.id = x.id)) = 1 := by
  induction l with
  | nil => cases hx
  | cons y ys ih =>
    rw [List.map_cons, List.nodup_cons] at hnd
    rw [List.countP_cons]
    rcases List.mem_cons.mp hx with hxy | hxys
    · subst hxy
      have h0 : ys.countP (fun y => decide (y.id = x.id)) = 0 := by
        rw [List.countP_eq_zero]
        intro a ha hc
        apply hnd.1
        have : a.id = x.id := by simpa using hc
        rw [← this]
        exact List.mem_map.mpr ⟨a, ha, rfl⟩
      rw [h0]
      simp
    · have hne : ¬ y.id = x.id := by
        intro hc
        apply hnd.1
        rw [hc]
        exact List.mem_map.mpr ⟨x, hxys, rfl⟩
      rw [ih hnd.2 hxys]
      simp [hne]

/-- C25. For every input with unique patient identifiers, the list that
`branchAndBound` returns is empty or holds exactly one record for every patient
of the patient list.  If some patient has no hospital of the specialization it
requires, the list is empty and the call leaves every patient record as it
was, so that no patient is assigned by it. -/
theorem branchAndBound_all_or_nothing (sqrt : α → α) (sys : System α)
    (hpid : (sys.patients.map (fun x => x.id)).Nodup) :
    ((branchAndBound sqrt sys).assignments = [] ∨
        ∀ x ∈ sys.patients,
          (branchAndBound sqrt sys).assignments.countP
            (fun e => decide (e.patientId = x.id)) = 1) ∧
      ((∃ x ∈ sys.patients, ∀ h ∈ sys.hospitals,
          h.specialization ≠ x.requiredSpecialization) →
        (branchAndBound sqrt sys).assignments = [] ∧
          (branchAndBound sqrt sys).system.patients = sys.patients ∧
          ((∀ p ∈ sys.patients, p.assignedHospital = none) →
            ∀ p ∈ (branchAndBound sqrt sys).system.patients, p.assignedHospital = none)) := by
  refine ⟨?_, ?_⟩
  · unfold branchAndBound
    cases hs : (search sqrt sys).bestSolution with
    | none => left; rfl
    | some sol =>
      right
      intro x hx
      simp only []
      have hshape := search_shape sqrt sys sol hs
      have hperm := (sortedRecords_perm sys.patients).map (fun y : Patient α => y.id)
      have h1 : sol.countP (fun e => decide (e.patientId = x.id)) =
          (sol.map (fun e => e.patientId)).countP (fun i => decide (i = x.id)) := by
        rw [List.countP_map]
        rfl
      rw [h1, hshape, hperm.countP_eq, List.countP_map]
      exact countP_id_eq_one sys.patients hpid x hx
  · rintro ⟨x, hx, hnone⟩
    have hdead := search_dead sqrt sys hpid x hx hnone
    unfold branchAndBound
    rw [hdead]
    exact ⟨rfl, rfl, fun h => h⟩

end AllOrNothing

/-- Witness for C25: on `crossed` every patient has exactly one record; on
`unmatched` the neurology patient has no hospital and nothing is returned. -/
theorem branchAndBound_all_or_nothing_witness :
    (crossed.patients.map (fun x => x.id)).Nodup ∧
      (branchAndBound ratSqrt crossed).assignments.map
          (fun e => (e.patientId, e.hospitalId)) = [(1, 1), (2, 2)] ∧
      ((branchAndBound ratSqrt crossed).assignments = [] ∨
        ∀ x ∈ crossed.patients,
          (branchAndBound ratSqrt crossed).assignments.countP
            (fun e => decide (e.patientId = x.id)) = 1) ∧
      (unmatched.patients.map (fun x => x.id)).Nodup ∧
      (branchAndBound ratSqrt unmatched).assignments = [] ∧
      (branchAndBound ratSqrt unmatched).system.patients = unmatched.patients :=
  ⟨by decide!, by decide!,
    (branchAndBound_all_or_nothing ratSqrt crossed (by decide!)).1,
    by decide!,
    ((branchAndBound_all_or_nothing ratSqrt unmatched (by decide!)).2 (by decide!)).1,
    ((branchAndBound_all_or_nothing ratSqrt unmatched (by decide!)).2 (by decide!)).2.1⟩

/-! ### The order of the records of `greedyMatching` -/

section RecordOrder

variable {α : Type} [LinearOrderedField α]

/-- The sort of `greedyMatching` is stable: among the patients of one urgency it
keeps the order of the positions. -/
theorem sort_keeps_urgency_class (patients : List (Patient α)) (u : Nat) :
    (patients.enum.insertionSort urgencyBefore).filter
        (fun e => decide (urgencyOrder e.2.urgency = u)) =
      patients.enum.filter (fun e => decide (urgencyOrder e.2.urgency = u)) := by
  have hpw : (patients.enum.filter
      (fun e => decide (urgencyOrder e.2.urgency = u))).Pairwise urgencyBefore := by
    apply List.pairwise_of_forall_mem_list
    intro a ha b hb
    have h1 := (List.mem_filter.mp ha).2
    have h2 := (List.mem_filter.mp hb).2
    simp only [decide_eq_true_eq] at h1 h2
    unfold urgencyBefore
    omega
  have hsub := List.sublist_insertionSort hpw (List.filter_sublist patients.enum)
  have hsub2 := hsub.filter (fun e => decide (urgencyOrder e.2.urgency = u))
  rw [List.filter_filter] at hsub2
  simp only [Bool.and_self] at hsub2
  have hlen := ((List.perm_insertionSort urgencyBefore patients.enum).filter
    (fun e => decide (urgencyOrder e.2.urgency = u))).length_eq
  exact (hsub2.eq_of_length hlen.symm).symm

theorem sortedPatients_stable (patients : List (Patient α)) :
    (sortedPatients patients).Pairwise (fun i j =>
      ∀ x y : Patient α, patients[i]? = some x → patients[j]? = some y →
        urgencyOrder y.urgency ≤ urgencyOrder x.urgency ∧
          (urgencyOrder x.urgency = urgencyOrder y.urgency → i < j)) := by
  have hord := sortedPatients_pairwise patients
  unfold sortedPatients at hord ⊢
  rw [List.pairwise_map] at hord ⊢
  rw [List.pairwise_iff_forall_sublist] at hord ⊢
  intro a b hab x y hx hy
  refine ⟨hord hab x y hx hy, ?_⟩
  intro heq
  have hsub := hab.filter (fun e => decide (urgencyOrder e.2.urgency = urgencyOrder x.urgency))
  rw [sort_keeps_urgency_class] at hsub
  have ha : a ∈ patients.enum.insertionSort urgencyBefore := hab.subset (by simp)
  have hb : b ∈ patients.enum.insertionSort urgencyBefore := hab.subset (by simp)
  have ha' := List.mem_enum_iff_getElem?.mp ((List.mem_insertionSort urgencyBefore).mp ha)
  have hb' := List.mem_enum_iff_getElem?.mp ((List.mem_insertionSort urgencyBefore).mp hb)
  rw [hx] at ha'
  rw [hy] at hb'
  simp only [Option.some.injEq] at ha' hb'
  have hfa : decide (urgencyOrder a.2.urgency = urgencyOrder x.urgency) = true := by
    rw [← ha']
    simp
  have hfb : decide (urgencyOrder b.2.urgency = urgencyOrder x.urgency) = true := by
    rw [← hb', heq]
    simp
  have hfil : [a, b].filter
      (fun e => decide (urgencyOrder e.2.urgency = urgencyOrder x.urgency)) = [a, b] := by
    simp [List.filter_cons, hfa, hfb]
  rw [hfil] at hsub
  have hsub2 := hsub.trans (List.filter_sublist patients.enum)
  have hlt : patients.enum.Pairwise (fun a b => a.1 < b.1) := by
    have := List.pairwise_lt_range patients.length
    rw [← List.enum_map_fst patients, List.pairwise_map] at this
    exact this
  exact (List.pairwise_iff_forall_sublist.mp hlt) hsub2

/-- The records of a run name, in order, the patients of a sublist of the
positions processed. -/
theorem greedyRun_records (sqrt : α → α) (sys : System α) (done : List Nat) :
    ∃ ps : List Nat, ps.Sublist done ∧
      (greedyRun sqrt sys done).assignments.map (fun a => some a.patientId) =
        ps.map (fun i => (sys.patients[i]?).map (fun x => x.id)) := by
  induction done using List.reverseRecOn with
  | nil => exact ⟨[], List.Sublist.refl _, rfl⟩
  | append_singleton done q ih =>
    obtain ⟨ps, hps, hrec⟩ := ih
    have hstep : greedyRun sqrt sys (done ++ [q]) =
        greedyStep sqrt (greedyRun sqrt sys done) q := by
      unfold greedyRun
      rw [List.foldl_append]
      rfl
    rw [hstep]
    rcases greedyStep_cases sqrt (greedyRun sqrt sys done) q with
      h | ⟨patient, d, h, i, bh, hp, _, _, heq⟩
    · rw [h]
      exact ⟨ps, hps.trans (List.sublist_append_left _ _), hrec⟩
    · obtain ⟨r, hr, hrid⟩ := assignGreedy_assignments (greedyRun sqrt sys done) q patient d h i bh
      obtain ⟨x, hx, hkey⟩ := getElem?_of_map_eq sys.patients _ patientKey
        (greedyRun_keys sqrt sys done).1 q patient hp
      simp only [patientKey, Prod.mk.injEq] at hkey
      refine ⟨ps ++ [q], List.Sublist.append hps (List.Sublist.refl _), ?_⟩
      rw [heq, hr, List.map_append, List.map_append, hrec]
      simp only [List.map_cons, List.map_nil, hx, Option.map_some', hrid, hkey.1]

/-- C26. The records that `greedyMatching` returns are those of a list `ps` of
positions of the patient collection, taken in the order in which the run takes
the patients up: the `k`-th record carries the identifier of the patient at the
`k`-th position of `ps`.  Along `ps` the urgency weight never increases, and of
two patients of equal urgency weight the one that comes first in the patient
collection comes first. -/
theorem greedyMatching_records_in_stable_urgency_order (sqrt : α → α) (sys : System α) :
    ∃ ps : List Nat, ps.Sublist (sortedPatients sys.patients) ∧
      (greedyMatching sqrt sys).assignments.map (fun a => some a.patientId) =
        ps.map (fun i => (sys.patients[i]?).map (fun x => x.id)) ∧
      ps.Pairwise (fun i j =>
        ∀ x y : Patient α, sys.patients[i]? = some x → sys.patients[j]? = some y →
          urgencyOrder y.urgency ≤ urgencyOrder x.urgency ∧
            (urgencyOrder x.urgency = urgencyOrder y.urgency → i < j)) := by
  obtain ⟨ps, hps, hrec⟩ := greedyRun_records sqrt sys (sortedPatients sys.patients)
  exact ⟨ps, hps, hrec, (sortedPatients_stable sys.patients).sublist hps⟩

end RecordOrder

/-! ### The bed pool under `greedyMatching` -/

section Beds

variable {α : Type} [LinearOrderedField α]

theorem bedPool_createHospital (id c : Nat) (s : String) (loc : Location α) :
    BedPool c 0 (createHospital id c s loc) := by
  unfold BedPool createHospital
  simp

theorem bedPool_resetHospital (c k : Nat) (h : Hospital α) (hp : BedPool c k h) :
    BedPool c k (resetHospital h) := hp

theorem bedPool_assignBed (c k : Nat) (p : Patient α) (h : Hospital α) (hp : BedPool c k h)
    (hk : k < c) :
    (assignBed p h).1.bedNumber = some (k + 1) ∧ BedPool c (k + 1) (assignBed p h).2 ∧
      (assignBed p h).2.occupiedBeds = h.occupiedBeds ++ [k + 1] ∧
      h.availableBeds = (k + 1) :: (assignBed p h).2.availableBeds ∧
      ∀ b ∈ h.availableBeds, k + 1 ≤ b := by
  obtain ⟨_, hav, hocc⟩ := hp
  obtain ⟨n, hn⟩ : ∃ n, c - k = n + 1 := ⟨c - k - 1, by omega⟩
  have hav' : h.availableBeds =
      (k + 1) :: (List.range (c - (k + 1))).map (fun i => i + (k + 1) + 1) := by
    rw [hav, hn, List.range_succ_eq_map, List.map_cons, List.map_map]
    have hn' : c - (k + 1) = n := by omega
    rw [hn']
    simp only [Nat.zero_add, List.cons.injEq, true_and]
    apply List.map_congr_left
    intro i _
    simp only [Function.comp, Nat.succ_eq_add_one]
    omega
  have hle : ∀ b ∈ h.availableBeds, k + 1 ≤ b := by
    intro b hb
    rw [hav, List.mem_map] at hb
    obtain ⟨i, _, rfl⟩ := hb
    omega
  have hocc' : h.occupiedBeds ++ [k + 1] = (List.range (k + 1)).map (fun i => i + 1) := by
    rw [hocc, List.range_succ, List.map_append]
    rfl
  unfold assignBed
  rw [hav'] at hle ⊢
  exact ⟨rfl, ⟨by omega, rfl, hocc'⟩, rfl, rfl, hle⟩

theorem bedPool_assignBed_empty (c : Nat) (p : Patient α) (h : Hospital α)
    (hp : BedPool c c h) : assignBed p h = (p, h) := by
  obtain ⟨_, hav, _⟩ := hp
  unfold assignBed
  rw [hav]
  simp

theorem assignDoctor_beds (p : Patient α) (h : Hospital α) :
    (assignDoctor p h).2.availableBeds = h.availableBeds ∧
      (assignDoctor p h).2.occupiedBeds = h.occupiedBeds := by
  unfold assignDoctor
  cases h.doctors.filter (fun d => decide (d.currentPatients < d.maxPatients)) <;> simp

theorem greedy_beds (patient : Patient α) (d : α) (bh : Hospital α) :
    (greedyPatient patient d bh).bedNumber =
        (assignBed ({ patient with assignedHospital := some bh.id, travelDistance := d } :
          Patient α) bh).1.bedNumber ∧
      (greedyHospital patient d bh).availableBeds =
        (assignBed ({ patient with assignedHospital := some bh.id, travelDistance := d } :
          Patient α) bh).2.availableBeds ∧
      (greedyHospital patient d bh).occupiedBeds =
        (assignBed ({ patient with assignedHospital := some bh.id, travelDistance := d } :
          Patient α) bh).2.occupiedBeds := by
  refine ⟨?_, ?_, ?_⟩
  · unfold greedyPatient
    simp only []
    exact (assignDoctor_patient _ _).2.2.2
  · unfold greedyHospital
    simp only []
    exact (assignDoctor_beds _ _).1
  · unfold greedyHospital
    simp only []
    exact (assignDoctor_beds _ _).2

theorem assignGreedy_record (st : GreedyState α) (p : Nat) (patient : Patient α) (d : α)
    (h i : Nat) (bh : Hospital α) :
    ∃ r : Assignment α, (assignGreedy st p patient d h i bh).assignments =
        st.assignments ++ [r] ∧
      r.patientId = (greedyPatient patient d bh).id ∧
      r.hospitalId = (greedyHospital patient d bh).id ∧
      r.bedNumber = (greedyPatient patient d bh).bedNumber ∧
      r.doctorId = (greedyPatient patient d bh).assignedDoctor ∧ r.distance = d :=
  ⟨_, rfl, rfl, rfl, rfl, rfl, rfl⟩

theorem greedyStep_assign (sqrt : α → α) (st : GreedyState α) (p : Nat) (patient : Patient α)
    (d : α) (h i : Nat) (bh : Hospital α) (hp : st.patients[p]? = some patient)
    (hb : findBestHospital sqrt st.hospitals st.availableHospitals patient = some (d, h, i))
    (hh : st.hospitals[h]? = some bh) :
    greedyStep sqrt st p = assignGreedy st p patient d h i bh ∧
      (greedyStep sqrt st p).patients[p]? = some (greedyPatient patient d bh) ∧
      (greedyStep sqrt st p).hospitals[h]? = some (greedyHospital patient d bh) := by
  have hstep : greedyStep sqrt st p = assignGreedy st p patient d h i bh := by
    unfold greedyStep
    rw [hp]
    simp only [hb, hh]
  have hpl : p < st.patients.length := by
    by_contra hc
    rw [List.getElem?_eq_none (by omega)] at hp
    cases hp
  have hhl : h < st.hospitals.length := by
    by_contra hc
    rw [List.getElem?_eq_none (by omega)] at hh
    cases hh
  refine ⟨hstep, ?_, ?_⟩
  · rw [hstep, assignGreedy_patients, List.getElem?_set]
    simp [hpl]
  · rw [hstep, assignGreedy_hospitals, List.getElem?_set]
    simp [hhl]

/-- C27. Take a step of `greedyMatching` that assigns the patient at position
`p` to the hospital at position `h`, and let the bed arrays of that hospital be
those of a hospital created with `c` beds of which `k < c` are handed out (the
pool is `k + 1, ..., c`, so it is not empty and `k + 1` is its lowest number).
Then the patient gets `bedNumber = k + 1`, the record carries that number, the
number is appended to `occupiedBeds`, and the pool is left with
`k + 2, ..., c`. -/
theorem greedy_assigns_lowest_free_bed (sqrt : α → α) (st : GreedyState α) (p : Nat)
    (patient : Patient α) (d : α) (h i : Nat) (bh : Hospital α) (c k : Nat)
    (hp : st.patients[p]? = some patient)
    (hb : findBestHospital sqrt st.hospitals st.availableHospitals patient = some (d, h, i))
    (hh : st.hospitals[h]? = some bh) (hpool : BedPool c k bh) (hk : k < c) :
    (k + 1 ∈ bh.availableBeds ∧ ∀ b ∈ bh.availableBeds, k + 1 ≤ b) ∧
      ∃ (patient1 : Patient α) (hospital1 : Hospital α) (record : Assignment α),
        (greedyStep sqrt st p).patients[p]? = some patient1 ∧
        (greedyStep sqrt st p).hospitals[h]? = some hospital1 ∧
        (greedyStep sqrt st p).assignments = st.assignments ++ [record] ∧
        patient1.bedNumber = some (k + 1) ∧ record.bedNumber = some (k + 1) ∧
        hospital1.occupiedBeds = bh.occupiedBeds ++ [k + 1] ∧
        bh.availableBeds = (k + 1) :: hospital1.availableBeds ∧
        BedPool c (k + 1) hospital1 := by
  obtain ⟨hstep, hpat, hhos⟩ := greedyStep_assign sqrt st p patient d h i bh hp hb hh
  obtain ⟨g1, g2, g3⟩ := greedy_beds patient d bh
  obtain ⟨b1, b2, b3, b4, b5⟩ := bedPool_assignBed c k
    ({ patient with assignedHospital := some bh.id, travelDistance := d } : Patient α) bh
    hpool hk
  obtain ⟨r, hr, _, _, hrb, _, _⟩ := assignGreedy_record st p patient d h i bh
  refine ⟨⟨?_, b5⟩, greedyPatient patient d bh, greedyHospital patient d bh, r, hpat, hhos,
    ?_, ?_, ?_, ?_, ?_, ?_⟩
  · rw [b4]
    exact List.mem_cons_self _ _
  · rw [hstep, hr]
  · rw [g1, b1]
  · rw [hrb, g1, b1]
  · rw [g3, b3]
  · rw [g2]
    exact b4
  · obtain ⟨c1, c2, c3⟩ := b2
    exact ⟨c1, g2.trans c2, g3.trans c3⟩

/-- The bed arrays of every hospital stay those of a created hospital through a
step of `greedyMatching`. -/
theorem bedPool_greedyStep (sqrt : α → α) (st : GreedyState α) (p : Nat)
    (hinv : ∀ x ∈ st.hospitals, ∃ k, BedPool x.capacity k x) :
    ∀ x ∈ (greedyStep sqrt st p).hospitals, ∃ k, BedPool x.capacity k x := by
  rcases greedyStep_cases sqrt st p with h | ⟨patient, d, h, i, bh, _, _, hh, heq⟩
  · rw [h]; exact hinv
  · rw [heq, assignGreedy_hospitals]
    intro x hx
    rcases List.mem_or_eq_of_mem_set hx with hx | hx
    · exact hinv x hx
    · subst hx
      obtain ⟨k, hk⟩ := hinv bh (List.mem_iff_getElem?.mpr ⟨h, hh⟩)
      obtain ⟨g1, g2, g3⟩ := greedy_beds patient d bh
      rw [(greedyHospital_fields patient d bh).2.1]
      by_cases hkc : k < bh.capacity
      · obtain ⟨_, ⟨c1, c2, c3⟩, _⟩ := bedPool_assignBed bh.capacity k
          ({ patient with assignedHospital := some bh.id, travelDistance := d } : Patient α)
          bh hk hkc
        exact ⟨k + 1, c1, g2.trans c2, g3.trans c3⟩
      · have hkeq : k = bh.capacity := by
          have := hk.1
          omega
        subst hkeq
        have := bedPool_assignBed_empty bh.capacity
          ({ patient with assignedHospital := some bh.id, travelDistance := d } : Patient α)
          bh hk
        rw [this] at g2 g3
        exact ⟨bh.capacity, hk.1, g2.trans hk.2.1, g3.trans hk.2.2⟩

theorem bedPool_greedyMatching (sqrt : α → α) (sys : System α)
    (hinv : ∀ x ∈ sys.hospitals, ∃ k, BedPool x.capacity k x) :
    ∀ x ∈ (greedyMatching sqrt sys).system.hospitals, ∃ k, BedPool x.capacity k x := by
  unfold greedyMatching greedyRun
  simp only []
  have key : ∀ (qs : List Nat) (st : GreedyState α),
      (∀ x ∈ st.hospitals, ∃ k, BedPool x.capacity k x) →
      ∀ x ∈ (qs.foldl (greedyStep sqrt) st).hospitals, ∃ k, BedPool x.capacity k x := by
    intro qs
    induction qs with
    | nil => intro st h; exact h
    | cons q qs ih =>
      intro st h
      rw [List.foldl_cons]
      exact ih _ (bedPool_greedyStep sqrt st q h)
  exact key _ (greedyInit sys) hinv

end Beds

/-- Witness for C27: the first step on the scenario of the specification, where
the hospital was created with 2 beds and none is handed out. -/
theorem greedy_assigns_lowest_free_bed_witness :
    (greedyInit scenario).patients[0]? =
        some (createPatient 0 "cardiology" Urgency.critical ⟨1, 0⟩) ∧
      findBestHospital ratSqrt (greedyInit scenario).hospitals
        (greedyInit scenario).availableHospitals
        (createPatient 0 "cardiology" Urgency.critical ⟨1, 0⟩) = some (10, 0, 0) ∧
      BedPool 2 0 (createHospital 0 2 "cardiology" (⟨0, 0⟩ : Location ℚ)) ∧
      (greedyMatching ratSqrt scenario).assignments.map (fun a => (a.patientId, a.bedNumber)) =
        [(0, some 1), (2, some 2)] ∧
      ((0 + 1 ∈ (createHospital 0 2 "cardiology" (⟨0, 0⟩ : Location ℚ)).availableBeds ∧
          ∀ b ∈ (createHospital 0 2 "cardiology" (⟨0, 0⟩ : Location ℚ)).availableBeds,
            0 + 1 ≤ b) ∧
        ∃ (patient1 : Patient ℚ) (hospital1 : Hospital ℚ) (record : Assignment ℚ),
          (greedyStep ratSqrt (greedyInit scenario) 0).patients[0]? = some patient1 ∧
          (greedyStep ratSqrt (greedyInit scenario) 0).hospitals[0]? = some hospital1 ∧
          (greedyStep ratSqrt (greedyInit scenario) 0).assignments =
            (greedyInit scenario).assignments ++ [record] ∧
          patient1.bedNumber = some (0 + 1) ∧ record.bedNumber = some (0 + 1) ∧
          hospital1.occupiedBeds =
            (createHospital 0 2 "cardiology" (⟨0, 0⟩ : Location ℚ)).occupiedBeds ++ [0 + 1] ∧
          (createHospital 0 2 "cardiology" (⟨0, 0⟩ : Location ℚ)).availableBeds =
            (0 + 1) :: hospital1.availableBeds ∧
          BedPool 2 (0 + 1) hospital1) :=
  ⟨by decide!, by decide!, by decide!, by decide!,
    greedy_assigns_lowest_free_bed ratSqrt (greedyInit scenario) 0
      (createPatient 0 "cardiology" Urgency.critical ⟨1, 0⟩) 10 0 0
      (createHospital 0 2 "cardiology" ⟨0, 0⟩) 2 0 (by decide!) (by decide!) (by decide!)
      (by decide!) (by decide!)⟩

/-! ### The doctor block of `greedyMatching` -/

section Doctors

variable {α : Type} [LinearOrderedField α]

theorem incrementFirstAvailable_none (l : List Doctor)
    (h : ∀ d ∈ l, ¬ d.currentPatients < d.maxPatients) :
    incrementFirstAvailable l = l ∧
      l.filter (fun d => decide (d.currentPatients < d.maxPatients)) = [] := by
  induction l with
  | nil => exact ⟨rfl, rfl⟩
  | cons d ds ih =>
    have hd := h d (List.mem_cons_self _ _)
    obtain ⟨h1, h2⟩ := ih (fun x hx => h x (List.mem_cons_of_mem _ hx))
    unfold incrementFirstAvailable
    rw [if_neg hd, h1, List.filter_cons]
    simp [hd, h2]

theorem incrementFirstAvailable_first (before after : List Doctor) (doc : Doctor)
    (hb : ∀ d ∈ before, ¬ d.currentPatients < d.maxPatients)
    (hd : doc.currentPatients < doc.maxPatients) :
    incrementFirstAvailable (before ++ doc :: after) =
        before ++ { doc with currentPatients := doc.currentPatients + 1 } :: after ∧
      ∃ rest, (before ++ doc :: after).filter
        (fun d => decide (d.currentPatients < d.maxPatients)) = doc :: rest := by
  induction before with
  | nil =>
    constructor
    · simp only [List.nil_append]
      unfold incrementFirstAvailable
      rw [if_pos hd]
    · simp only [List.nil_append, List.filter_cons, hd, decide_True, if_true]
      exact ⟨_, rfl⟩
  | cons d ds ih =>
    have hd0 := hb d (List.mem_cons_self _ _)
    obtain ⟨h1, rest, h2⟩ := ih (fun x hx => hb x (List.mem_cons_of_mem _ hx))
    constructor
    · simp only [List.cons_append]
      unfold incrementFirstAvailable
      rw [if_neg hd0, h1]
    · refine ⟨rest, ?_⟩
      simp only [List.cons_append, List.filter_cons, hd0, decide_False]
      exact h2

theorem incrementFirstAvailable_bound (l : List Doctor)
    (h : ∀ d ∈ l, d.currentPatients ≤ d.maxPatients) :
    ∀ d ∈ incrementFirstAvailable l, d.currentPatients ≤ d.maxPatients := by
  induction l with
  | nil => intro d hd; cases hd
  | cons x xs ih =>
    intro d hd
    unfold incrementFirstAvailable at hd
    by_cases hx : x.currentPatients < x.maxPatients
    · rw [if_pos hx] at hd
      rcases List.mem_cons.mp hd with hd | hd
      · subst hd
        exact hx
      · exact h d (List.mem_cons_of_mem _ hd)
    · rw [if_neg hx] at hd
      rcases List.mem_cons.mp hd with hd | hd
      · subst hd
        exact h d (List.mem_cons_self _ _)
      · exact ih (fun y hy => h y (List.mem_cons_of_mem _ hy)) d hd

theorem assignDoctor_doctors (p : Patient α) (h : Hospital α) :
    (assignDoctor p h).2.doctors = incrementFirstAvailable h.doctors := by
  unfold assignDoctor
  cases hf : h.doctors.filter (fun d => decide (d.currentPatients < d.maxPatients)) with
  | nil =>
    simp only []
    have hall : ∀ d ∈ h.doctors, ¬ d.currentPatients < d.maxPatients := by
      intro d hd hc
      have : d ∈ h.doctors.filter (fun d => decide (d.currentPatients < d.maxPatients)) :=
        List.mem_filter.mpr ⟨hd, by simpa using hc⟩
      rw [hf] at this
      cases this
    exact (incrementFirstAvailable_none h.doctors hall).1.symm
  | cons d ds => rfl

theorem assignDoctor_assigned (p : Patient α) (h : Hospital α) :
    (assignDoctor p h).1.assignedDoctor =
      match h.doctors.filter (fun d => decide (d.currentPatients < d.maxPatients)) with
      | [] => p.assignedDoctor
      | doc :: _ => some doc.id := by
  unfold assignDoctor
  cases h.doctors.filter (fun d => decide (d.currentPatients < d.maxPatients)) <;> rfl

theorem greedy_doctors (patient : Patient α) (d : α) (bh : Hospital α) :
    (greedyHospital patient d bh).doctors = incrementFirstAvailable bh.doctors ∧
      (greedyPatient patient d bh).assignedDoctor =
        match bh.doctors.filter (fun d => decide (d.currentPatients < d.maxPatients)) with
        | [] => patient.assignedDoctor
        | doc :: _ => some doc.id := by
  have h1 := assignBed_hospital
    ({ patient with assignedHospital := some bh.id, travelDistance := d } : Patient α) bh
  have h2 := assignBed_patient
    ({ patient with assignedHospital := some bh.id, travelDistance := d } : Patient α) bh
  constructor
  · unfold greedyHospital
    simp only []
    rw [assignDoctor_doctors, h1.2.2.2.2.2]
  · unfold greedyPatient
    simp only []
    rw [assignDoctor_assigned, h1.2.2.2.2.2, h2.2.2.2]

/-- C29. A step of `greedyMatching` that assigns the patient at position `p` to
the hospital at position `h` changes no other hospital.  When no doctor of that
hospital has `currentPatients < maxPatients`, its doctors and the patient's
`assignedDoctor` stay as they are.  Otherwise the first doctor of the list with
`currentPatients < maxPatients` becomes the patient's `assignedDoctor` and the
`doctorId` of the record, and that doctor's `currentPatients`, and nothing else
in the list, is raised by one.  Hence, if every doctor has
`currentPatients ≤ maxPatients` before a run, every doctor has it after the
run. -/
theorem greedy_assigns_first_free_doctor (sqrt : α → α) :
    (∀ (st : GreedyState α) (p : Nat) (patient : Patient α) (d : α) (h i : Nat)
        (bh : Hospital α), st.patients[p]? = some patient →
        findBestHospital sqrt st.hospitals st.availableHospitals patient = some (d, h, i) →
        st.hospitals[h]? = some bh →
        ∃ (patient1 : Patient α) (hospital1 : Hospital α) (record : Assignment α),
          (greedyStep sqrt st p).patients[p]? = some patient1 ∧
          (greedyStep sqrt st p).hospitals[h]? = some hospital1 ∧
          (greedyStep sqrt st p).assignments = st.assignments ++ [record] ∧
          record.doctorId = patient1.assignedDoctor ∧
          (∀ j, j ≠ h → (greedyStep sqrt st p).hospitals[j]? = st.hospitals[j]?) ∧
          ((∀ doc ∈ bh.doctors, ¬ doc.currentPatients < doc.maxPatients) →
            hospital1.doctors = bh.doctors ∧
              patient1.assignedDoctor = patient.assignedDoctor) ∧
          ∀ (before after : List Doctor) (doc : Doctor),
            bh.doctors = before ++ doc :: after →
            (∀ x ∈ before, ¬ x.currentPatients < x.maxPatients) →
            doc.currentPatients < doc.maxPatients →
            patient1.assignedDoctor = some doc.id ∧
              hospital1.doctors =
                before ++ { doc with currentPatients := doc.currentPatients + 1 } :: after) ∧
      ∀ sys : System α,
        (∀ x ∈ sys.hospitals, ∀ doc ∈ x.doctors, doc.currentPatients ≤ doc.maxPatients) →
        ∀ x ∈ (greedyMatching sqrt sys).system.hospitals, ∀ doc ∈ x.doctors,
          doc.currentPatients ≤ doc.maxPatients := by
  constructor
  · intro st p patient d h i bh hp hb hh
    obtain ⟨hstep, hpat, hhos⟩ := greedyStep_assign sqrt st p patient d h i bh hp hb hh
    obtain ⟨g1, g2⟩ := greedy_doctors patient d bh
    obtain ⟨r, hr, _, _, _, hrd, _⟩ := assignGreedy_record st p patient d h i bh
    refine ⟨greedyPatient patient d bh, greedyHospital patient d bh, r, hpat, hhos, ?_, hrd,
      ?_, ?_, ?_⟩
    · rw [hstep, hr]
    · intro j hj
      rw [hstep, assignGreedy_hospitals, List.getElem?_set_ne (Ne.symm hj)]
    · intro hall
      obtain ⟨i1, i2⟩ := incrementFirstAvailable_none bh.doctors hall
      rw [g1, i1, g2, i2]
      exact ⟨rfl, rfl⟩
    · intro before after doc hsplit hbefore hdoc
      obtain ⟨i1, rest, i2⟩ := incrementFirstAvailable_first before after doc hbefore hdoc
      rw [g1, g2, hsplit, i1, i2]
      exact ⟨rfl, rfl⟩
  · intro sys hinv
    unfold greedyMatching greedyRun
    simp only []
    have key : ∀ (qs : List Nat) (st : GreedyState α),
        (∀ x ∈ st.hospitals, ∀ doc ∈ x.doctors, doc.currentPatients ≤ doc.maxPatients) →
        ∀ x ∈ (qs.foldl (greedyStep sqrt) st).hospitals, ∀ doc ∈ x.doctors,
          doc.currentPatients ≤ doc.maxPatients := by
      intro qs
      induction qs with
      | nil => intro st h; exact h
      | cons q qs ih =>
        intro st h
        rw [List.foldl_cons]
        apply ih
        rcases greedyStep_cases sqrt st q with hc | ⟨patient, d, hpos, i, bh, _, _, hh, heq⟩
        · rw [hc]; exact h
        · rw [heq, assignGreedy_hospitals]
          intro x hx
          rcases List.mem_or_eq_of_mem_set hx with hx | hx
          · exact h x hx
          · subst hx
            rw [(greedy_doctors patient d bh).1]
            exact incrementFirstAvailable_bound bh.doctors
              (h bh (List.mem_iff_getElem?.mpr ⟨hpos, hh⟩))
    exact key _ (greedyInit sys) hinv

end Doctors

/-- Witness for C29: the first step on `staffed`, whose hospital has one doctor
with no patient and room for three. -/
theorem greedy_assigns_first_free_doctor_witness :
    (greedyMatching ratSqrt staffed).system.patients.map (fun p => p.assignedDoctor) =
        [some 0] ∧
      (greedyMatching ratSqrt staffed).assignments.map (fun a => a.doctorId) = [some 0] ∧
      (greedyMatching ratSqrt staffed).system.hospitals.map
          (fun h => h.doctors.map (fun doc => (doc.id, doc.currentPatients, doc.maxPatients))) =
        [[(0, 1, 3)]] ∧
      (∀ x ∈ staffed.hospitals, ∀ doc ∈ x.doctors,
        doc.currentPatients ≤ doc.maxPatients) ∧
      ∀ x ∈ (greedyMatching ratSqrt staffed).system.hospitals, ∀ doc ∈ x.doctors,
        doc.currentPatients ≤ doc.maxPatients :=
  ⟨by decide!, by decide!, by decide!, by decide!,
    (greedy_assigns_first_free_doctor ratSqrt).2 staffed (by decide!)⟩

/-! ### The counters of `greedyMatching` -/

section Counters

variable {α : Type} [LinearOrderedField α]

theorem countP_set {β : Type} (pr : β → Bool) (l : List β) (q : Nat) (x y : β)
    (hx : l[q]? = some x) :
    (l.set q y).countP pr + (if pr x then 1 else 0) =
      l.countP pr + (if pr y then 1 else 0) := by
  induction l generalizing q with
  | nil => simp at hx
  | cons z zs ih =>
    cases q with
    | zero =>
      simp only [List.getElem?_cons_zero, Option.some.injEq] at hx
      subst hx
      simp only [List.set_cons_zero, List.countP_cons]
      omega
    | succ q =>
      simp only [List.getElem?_cons_succ] at hx
      simp only [List.set_cons_succ, List.countP_cons]
      have := ih q hx
      omega

theorem ids_differ (l : List (Hospital α)) (hnd : (l.map (fun h => h.id)).Nodup) (j h : Nat)
    (x bh : Hospital α) (hx : l[j]? = some x) (hb : l[h]? = some bh) (hne : j ≠ h) :
    x.id ≠ bh.id := by
  intro hc
  have h1 := findIdx_of_nodup_ids l hnd j x hx
  have h2 := findIdx_of_nodup_ids l hnd h bh hb
  rw [hc] at h1
  exact hne (h1.symm.trans h2)

theorem greedyRun_counters (sqrt : α → α) (sys : System α)
    (hreset : ∀ p ∈ sys.patients, p.assignedHospital = none)
    (hzero : ∀ h ∈ sys.hospitals, h.currentPatients = 0)
    (hhid : (sys.hospitals.map (fun h => h.id)).Nodup) (done : List Nat) (hnd : done.Nodup) :
    ∀ (j : Nat) (x : Hospital α), (greedyRun sqrt sys done).hospitals[j]? = some x →
      x.currentPatients = assignedTo x.id (greedyRun sqrt sys done).patients ∧
        x.currentPatients = recordsFor x.id (greedyRun sqrt sys done).assignments := by
  induction done using List.reverseRecOn with
  | nil =>
    intro j x hx
    have hx' : sys.hospitals[j]? = some x := hx
    have hmem : x ∈ sys.hospitals := List.mem_iff_getElem?.mpr ⟨j, hx'⟩
    rw [hzero x hmem]
    constructor
    · symm
      show assignedTo x.id sys.patients = 0
      unfold assignedTo
      rw [List.countP_eq_zero]
      intro p hp
      rw [hreset p hp]
      simp
    · rfl
  | append_singleton done q ih =>
    rw [List.nodup_append] at hnd
    have hq : q ∉ done := fun hc => hnd.2.2 hc (List.mem_singleton_self q)
    have ih' := ih hnd.1
    have hstep : greedyRun sqrt sys (done ++ [q]) =
        greedyStep sqrt (greedyRun sqrt sys done) q := by
      unfold greedyRun
      rw [List.foldl_append]
      rfl
    have hunt := greedyRun_patient_untouched sqrt sys done q hq
    have hkeys := (greedyRun_keys sqrt sys done).2
    rw [hstep]
    generalize greedyRun sqrt sys done = st at ih' hunt hkeys
    rcases greedyStep_cases sqrt st q with h | ⟨patient, d, h, i, bh, hp, _, hh, heq⟩
    · rw [h]; exact ih'
    · intro j x hx
      have hpat : patient.assignedHospital = none := by
        rw [hunt] at hp
        exact hreset patient (List.mem_iff_getElem?.mpr ⟨q, hp⟩)
      have hids : (st.hospitals.map (fun h => h.id)).Nodup := by
        rw [ids_of_keys st.hospitals sys.hospitals hkeys]
        exact hhid
      obtain ⟨r, hr, _, hrh, _, _, _⟩ := assignGreedy_record st q patient d h i bh
      have hgf := greedyHospital_fields patient d bh
      have hpf := greedyPatient_fields patient d bh
      rw [hgf.2.2.1] at hrh
      rw [heq, assignGreedy_hospitals] at hx
      rw [heq, assignGreedy_patients, hr]
      obtain ⟨b1, b2⟩ := ih' h bh hh
      by_cases hj : j = h
      · subst hj
        have hjl : j < st.hospitals.length := by
          by_contra hc
          rw [List.getElem?_eq_none (by omega)] at hh
          cases hh
        rw [List.getElem?_set] at hx
        simp only [hjl, if_true, Option.some.injEq] at hx
        subst hx
        rw [hgf.1, hgf.2.2.1]
        have hpx : decide (patient.assignedHospital = some bh.id) = false := by
          rw [hpat]
          simp
        have hpy : decide ((greedyPatient patient d bh).assignedHospital = some bh.id) =
            true := by
          rw [hpf.2.1]
          simp
        have hc : (st.patients.set q (greedyPatient patient d bh)).countP
              (fun p => decide (p.assignedHospital = some bh.id)) +
              (if decide (patient.assignedHospital = some bh.id) = true then 1 else 0) =
            st.patients.countP (fun p => decide (p.assignedHospital = some bh.id)) +
              (if decide ((greedyPatient patient d bh).assignedHospital = some bh.id) = true
                then 1 else 0) :=
          countP_set (fun p : Patient α => decide (p.assignedHospital = some bh.id))
            st.patients q patient (greedyPatient patient d bh) hp
        rw [hpx, hpy] at hc
        simp only [Bool.false_eq_true, if_false, if_true] at hc
        simp only [assignedTo, recordsFor] at b1 b2 ⊢
        rw [countP_snoc]
        simp only [hrh, decide_True, if_true]
        omega
      · rw [List.getElem?_set_ne (Ne.symm hj)] at hx
        obtain ⟨c1, c2⟩ := ih' j x hx
        have hne := ids_differ st.hospitals hids j h x bh hx hh hj
        have hne' : ¬ bh.id = x.id := fun hc => hne hc.symm
        have hpx : decide (patient.assignedHospital = some x.id) = false := by
          rw [hpat]
          simp
        have hpy : decide ((greedyPatient patient d bh).assignedHospital = some x.id) =
            false := by
          rw [hpf.2.1]
          simp [hne']
        have hc : (st.patients.set q (greedyPatient patient d bh)).countP
              (fun p => decide (p.assignedHospital = some x.id)) +
              (if decide (patient.assignedHospital = some x.id) = true then 1 else 0) =
            st.patients.countP (fun p => decide (p.assignedHospital = some x.id)) +
              (if decide ((greedyPatient patient d bh).assignedHospital = some x.id) = true
                then 1 else 0) :=
          countP_set (fun p : Patient α => decide (p.assignedHospital = some x.id))
            st.patients q patient (greedyPatient patient d bh) hp
        rw [hpx, hpy] at hc
        simp only [Bool.false_eq_true, if_false] at hc
        simp only [assignedTo, recordsFor] at c1 c2 ⊢
        rw [countP_snoc]
        simp only [hrh, hne', decide_False, Bool.false_eq_true, if_false]
        omega

/-- C30. After `greedyMatching` has run from a reset state (every patient
unassigned, every hospital counter 0) with unique hospital identifiers, the
`currentPatients` of every hospital is the number of patients whose
`assignedHospital` is its identifier, and that is the number of returned
records that name it. -/
theorem greedy_counters_match (sqrt : α → α) (sys : System α)
    (hreset : ∀ p ∈ sys.patients, p.assignedHospital = none)
    (hzero : ∀ h ∈ sys.hospitals, h.currentPatients = 0)
    (hhid : (sys.hospitals.map (fun h => h.id)).Nodup) :
    ∀ h ∈ (greedyMatching sqrt sys).system.hospitals,
      h.currentPatients = assignedTo h.id (greedyMatching sqrt sys).system.patients ∧
        assignedTo h.id (greedyMatching sqrt sys).system.patients =
          recordsFor h.id (greedyMatching sqrt sys).assignments := by
  intro h hh
  obtain ⟨j, hj⟩ := List.mem_iff_getElem?.mp hh
  have hj' : (greedyRun sqrt sys (sortedPatients sys.patients)).hospitals[j]? = some h := hj
  obtain ⟨h1, h2⟩ := greedyRun_counters sqrt sys hreset hzero hhid
    (sortedPatients sys.patients) (sortedPatients_nodup sys.patients) j h hj'
  exact ⟨h1, h1.symm.trans h2⟩

end Counters

/-- Witness for C30: the scenario of the specification, whose hospital ends
with two patients. -/
theorem greedy_counters_match_witness :
    (∀ p ∈ scenario.patients, p.assignedHospital = none) ∧
      (∀ h ∈ scenario.hospitals, h.currentPatients = 0) ∧
      (scenario.hospitals.map (fun h => h.id)).Nodup ∧
      (greedyMatching ratSqrt scenario).system.hospitals.map
          (fun h => (h.id, h.currentPatients)) = [(0, 2)] ∧
      ∀ h ∈ (greedyMatching ratSqrt scenario).system.hospitals,
        h.currentPatients = assignedTo h.id (greedyMatching ratSqrt scenario).system.patients ∧
          assignedTo h.id (greedyMatching ratSqrt scenario).system.patients =
            recordsFor h.id (greedyMatching ratSqrt scenario).assignments :=
  ⟨by decide!, by decide!, by decide!, by decide!,
    greedy_counters_match ratSqrt scenario (by decide!) (by decide!) (by decide!)⟩

end HospitalAssignmentSystem
